import Mathlib

/-!
# gococonut/teslamate — token custody services

A shallow embedding of the two Go programs of the repository:

* `implementation-example` (packages `crypto`, `models`, `services`), which keeps
  tokens encrypted with AES-256-GCM, and
* `tesla-token-service` (packages `model`, `service`), which keeps them in a MySQL
  table through GORM and refreshes them against the Tesla token endpoint.

Go strings are byte sequences; they are embedded as `List Byte`.  Library code the
programs call (`encoding/base64`, `crypto/cipher`, GORM, `net/http`) is embedded by
its documented behaviour; what cannot be computed here (the AES-GCM primitive, the
upstream's answers, store faults, the entropy source) is a parameter.
-/

set_option autoImplicit false

deriving instance DecidableEq for Except

/-- A byte, the element type of Go's `string` and `[]byte`. -/
abbrev Byte := Fin 256

/-- A Go `string`: an immutable sequence of bytes. -/
abbrev GoString := List Byte

namespace Base64

/-- The padding character `=` of `base64.StdEncoding`. -/
def padChar : Byte := 61

/-- The alphabet of `base64.StdEncoding`, `A-Z a-z 0-9 + /`, as the table `enc.encode`:
the character for a 6-bit value. -/
def encodeStd (i : Nat) : Byte :=
  if i < 26 then Fin.ofNat (65 + i)
  else if i < 52 then Fin.ofNat (71 + i)
  else if i < 62 then Fin.ofNat (i - 4)
  else if i = 62 then 43
  else 47

/-- The table `enc.decodeMap`: the 6-bit value of an alphabet character, `none`
standing for the entry `0xff` of every other byte. -/
def decodeMap (c : Byte) : Option Nat :=
  if 65 ≤ c.val ∧ c.val ≤ 90 then some (c.val - 65)
  else if 97 ≤ c.val ∧ c.val ≤ 122 then some (c.val - 71)
  else if 48 ≤ c.val ∧ c.val ≤ 57 then some (c.val + 4)
  else if c.val = 43 then some 62
  else if c.val = 47 then some 63
  else none

/-- The conversion `byte(v)` of an unsigned integer: the low eight bits. -/
def toByte (v : Nat) : Byte := Fin.ofNat v

/-- The method `Encoding.EncodeToString` of `base64.StdEncoding`: every three input bytes give
four characters; a remainder of one or two bytes gives two or three characters and
`=` padding.  `val` is `src[0]<<16 | src[1]<<8 | src[2]` and the table indices are
`val>>18&0x3F`, `val>>12&0x3F`, `val>>6&0x3F`, `val&0x3F`. -/
def EncodeToString : List Byte → GoString
  | a :: b :: c :: rest =>
    let val := a.val * 65536 + b.val * 256 + c.val
    encodeStd (val / 262144 % 64) :: encodeStd (val / 4096 % 64) ::
      encodeStd (val / 64 % 64) :: encodeStd (val % 64) :: EncodeToString rest
  | [a, b] =>
    let val := a.val * 65536 + b.val * 256
    [encodeStd (val / 262144 % 64), encodeStd (val / 4096 % 64),
      encodeStd (val / 64 % 64), padChar]
  | [a] =>
    let val := a.val * 65536
    [encodeStd (val / 262144 % 64), encodeStd (val / 4096 % 64), padChar, padChar]
  | [] => []

/-- The newline skipping of the decoder: `\n` and `\r` are dropped wherever they
stand. -/
def skipNewlines : List Byte → List Byte
  | [] => []
  | c :: cs => if c.val = 10 ∨ c.val = 13 then skipNewlines cs else c :: cs

/-- The method `Encoding.Decode` of `base64.StdEncoding` (padded, not strict), as the repeated
`decodeQuantum`: `buf` holds the 6-bit values of the quantum read so far.  Line
breaks are skipped, any other byte outside the alphabet is corrupt input, `=` may
only close a quantum of two or three characters and only line breaks may follow
it, and the input may not end inside a quantum.  `none` is `CorruptInputError`. -/
def decodeLoop : List Byte → List Nat → Option (List Byte)
  | [], buf => if buf = [] then some [] else none
  | c :: rest, buf =>
    match decodeMap c with
    | some v =>
      match buf with
      | [v0, v1, v2] =>
        let val := v0 * 262144 + v1 * 4096 + v2 * 64 + v
        (decodeLoop rest []).map
          (fun out => toByte (val / 65536) :: toByte (val / 256) :: toByte val :: out)
      | _ => decodeLoop rest (buf ++ [v])
    | none =>
      if c.val = 10 ∨ c.val = 13 then decodeLoop rest buf
      else if c ≠ padChar then none
      else
        match buf with
        | [v0, v1] =>
          match skipNewlines rest with
          | c2 :: rest2 =>
            if c2 = padChar ∧ skipNewlines rest2 = [] then
              some [toByte ((v0 * 262144 + v1 * 4096) / 65536)]
            else none
          | [] => none
        | [v0, v1, v2] =>
          if skipNewlines rest = [] then
            let val := v0 * 262144 + v1 * 4096 + v2 * 64
            some [toByte (val / 65536), toByte (val / 256)]
          else none
        | _ => none

/-- The method `Encoding.DecodeString` of `base64.StdEncoding`; `none` is a non-nil error. -/
def DecodeString (s : GoString) : Option (List Byte) := decodeLoop s []

end Base64

namespace Crypto

/-- The errors of package `crypto`, one constructor for each message. -/
inductive CryptoError where
  /-- Message "encryption key must be 32 bytes for AES-256" -/
  | keyLength
  /-- Message "plaintext cannot be empty" -/
  | plaintextEmpty
  /-- Message "failed to create cipher: ..." (`aes.NewCipher` rejected the key) -/
  | createCipher
  /-- Message "failed to generate nonce: ..." (the entropy source failed) -/
  | generateNonce
  /-- Message "ciphertext cannot be empty" -/
  | ciphertextEmpty
  /-- Message "failed to decode base64: ..." -/
  | decodeBase64
  /-- Message "ciphertext too short" -/
  | ciphertextTooShort
  /-- Message "failed to decrypt: ..." (`gcm.Open` reported an authentication failure) -/
  | decryptFailed
  deriving DecidableEq, Repr

/-- The size of the GCM nonce, `gcm.NonceSize()`. -/
def nonceSize : Nat := 12

/-- The size of the GCM tag, `gcm.Overhead()`. -/
def tagSize : Nat := 16

/-- The key lengths `aes.NewCipher` accepts (AES-128, AES-192, AES-256). -/
def validAESKeyLength (n : Nat) : Bool := n == 16 || n == 24 || n == 32

/-- AES-GCM as an abstract authenticated cipher.  `Seal key nonce plaintext` is the
ciphertext followed by the tag (what `gcm.Seal(nil, nonce, plaintext, nil)` gives),
`Open key nonce ciphertext` is `gcm.Open(nil, nonce, ciphertext, nil)` with `none`
for its error.  The laws are those of Go's `cipher.AEAD`: opening what was sealed
under the same key and nonce gives the plaintext back, sealing adds `Overhead()`
bytes, and an input shorter than the tag is rejected. -/
structure AEAD where
  Seal : List Byte → List Byte → List Byte → List Byte
  Open : List Byte → List Byte → List Byte → Option (List Byte)
  Open_Seal : ∀ key nonce plaintext, validAESKeyLength key.length = true →
    nonce.length = nonceSize → Open key nonce (Seal key nonce plaintext) = some plaintext
  Seal_length : ∀ key nonce plaintext,
    (Seal key nonce plaintext).length = plaintext.length + tagSize
  Open_short : ∀ key nonce ciphertext, ciphertext.length < tagSize →
    Open key nonce ciphertext = none

/-- The struct `TokenEncryptor`. -/
structure TokenEncryptor where
  key : List Byte
  deriving DecidableEq, Repr

/-- The function `NewTokenEncryptor`: the key must be exactly 32 bytes long. -/
def NewTokenEncryptor (key : GoString) : Except CryptoError TokenEncryptor :=
  if key.length ≠ 32 then .error .keyLength
  else .ok { key := key }

/-- The method `TokenEncryptor.Encrypt`.  `rnd` is what `io.ReadFull(rand.Reader, nonce)` does
to the 12-byte buffer: `none` when it fails, otherwise the bytes it wrote.  The
result is Go's pair `(string, error)`.  `gcm.Seal(nonce, nonce, plaintext, nil)`
appends the sealed bytes to the nonce.  `cipher.NewGCM` cannot fail on an AES
block, so its error branch has no counterpart. -/
def Encrypt (A : AEAD) (e : TokenEncryptor) (rnd : Option (Fin 12 → Byte))
    (plaintext : GoString) : GoString × Option CryptoError :=
  if plaintext = [] then ([], some .plaintextEmpty)
  else if validAESKeyLength e.key.length = false then ([], some .createCipher)
  else
    match rnd with
    | none => ([], some .generateNonce)
    | some f =>
      let nonce := List.ofFn f
      let ciphertext := nonce ++ A.Seal e.key nonce plaintext
      (Base64.EncodeToString ciphertext, none)

/-- The method `TokenEncryptor.Decrypt`.  The result is Go's pair `(string, error)`. -/
def Decrypt (A : AEAD) (e : TokenEncryptor) (ciphertext : GoString) :
    GoString × Option CryptoError :=
  if ciphertext = [] then ([], some .ciphertextEmpty)
  else
    match Base64.DecodeString ciphertext with
    | none => ([], some .decodeBase64)
    | some data =>
      if validAESKeyLength e.key.length = false then ([], some .createCipher)
      else if data.length < nonceSize then ([], some .ciphertextTooShort)
      else
        match A.Open e.key (data.take nonceSize) (data.drop nonceSize) with
        | none => ([], some .decryptFailed)
        | some plaintext => (plaintext, none)

end Crypto

/-- An instant (`time.Time`), in nanoseconds since January 1, year 1, 00:00 UTC, so
that Go's zero `Time` is `0`. -/
abbrev Time := Int

/-- The two's complement wrap-around of 64-bit signed arithmetic (`int`, `int64`,
`time.Duration`). -/
def wrapInt64 (x : Int) : Int := (x + 9223372036854775808) % 18446744073709551616 - 9223372036854775808

/-- The constant `time.Second`, in nanoseconds. -/
def Second : Int := 1000000000

/-- The constant `time.Minute`, in nanoseconds. -/
def Minute : Int := 60 * Second

/-- The constant `time.Hour`, in nanoseconds. -/
def Hour : Int := 60 * Minute

/-- The quotient `num / den` rounded to the nearest integer, a tie to the even one:
the rounding of `float64` arithmetic. -/
def roundHalfEven (num den : Nat) : Nat :=
  let q := num / den
  let r := num % den
  if 2 * r < den then q else if den < 2 * r then q + 1 else if q % 2 = 0 then q else q + 1

/-- The position of the highest bit of `n` that is set (`0` for `n < 2`), for
numbers below `2 ^ fuel`. -/
def log2Floor : Nat → Nat → Nat
  | 0, _ => 0
  | fuel + 1, n => if n < 2 then 0 else log2Floor fuel (n / 2) + 1

/-- The `float64` nearest to the positive quotient `num / den`, as a pair `(m, e)`
that stands for `m * 2 ^ e`: `e` is chosen so that the quotient, scaled by `2 ^ (-e)`,
lies between `2 ^ 52` and `2 ^ 53`, and `m` is that scaled quotient rounded.  The
numbers met here are far from the subnormal and the infinite range. -/
def nearestFloat64 (num den : Nat) : Nat × Int :=
  let ln := log2Floor 256 num
  let ld := log2Floor 256 den
  let floorLog : Int :=
    if den * 2 ^ (ln - ld) ≤ num * 2 ^ (ld - ln) then (ln : Int) - ld else (ln : Int) - ld - 1
  let e := floorLog - 52
  (roundHalfEven (num * 2 ^ (-e).toNat) (den * 2 ^ e.toNat), e)

/-- The conversion `int64(d.Seconds())` for a duration `d` of nanoseconds that is
not negative.  `Duration.Seconds` is `float64(sec) + float64(nsec)/1e9` with
`sec = d / Second` and `nsec = d % Second`: both conversions are exact, the division
and the sum are rounded to the nearest `float64`, and the conversion to `int64` drops
the fraction. -/
def secondsAsInt64 (d : Nat) : Nat :=
  let sec := d / 1000000000
  let nsec := d % 1000000000
  if nsec = 0 then sec
  else
    let q := nearestFloat64 nsec 1000000000
    let k := (-q.2).toNat
    let sum := nearestFloat64 (sec * 2 ^ k + q.1) (2 ^ k)
    sum.1 * 2 ^ sum.2.toNat / 2 ^ (-sum.2).toNat

/-- The next value of an auto-increment primary key. -/
def nextID (ids : List Nat) : Nat := ids.foldl max 0 + 1

namespace TeslaTokenService

/-- The struct `model.TeslaToken`, a row of table `tesla_tokens`.  `DeletedAt` is
`gorm.DeletedAt`: `none` while the row is live, the instant of its soft deletion
otherwise. -/
structure TeslaToken where
  ID : Nat
  UserID : String
  AccessToken : GoString
  RefreshToken : GoString
  TokenType : String
  ExpiresAt : Time
  CreatedAt : Time
  UpdatedAt : Time
  DeletedAt : Option Time
  deriving DecidableEq, Repr

/-- The method `TeslaToken.IsExpired`: `time.Now().After(t.ExpiresAt)`. -/
def TeslaToken.IsExpired (t : TeslaToken) (now : Time) : Bool :=
  decide (now > t.ExpiresAt)

/-- The method `TeslaToken.IsExpiringSoon`: `time.Now().Add(5 * time.Minute).After(t.ExpiresAt)`. -/
def TeslaToken.IsExpiringSoon (t : TeslaToken) (now : Time) : Bool :=
  decide (now + 5 * Minute > t.ExpiresAt)

/-- The struct `model.TokenUsageLog`, a row of table `token_usage_logs`. -/
structure TokenUsageLog where
  ID : Nat
  UserID : String
  Action : String
  IPAddress : String
  UserAgent : String
  Success : Bool
  ErrorMessage : String
  CreatedAt : Time
  deriving DecidableEq, Repr

/-- The struct `model.TokenValidationResponse`. -/
structure TokenValidationResponse where
  Valid : Bool
  ExpiresAt : Time
  UserID : String
  Message : String
  deriving DecidableEq, Repr

/-- The struct `model.TeslaTokenRefreshResponse`. -/
structure TeslaTokenRefreshResponse where
  AccessToken : GoString
  RefreshToken : GoString
  ExpiresIn : Int
  TokenType : String
  deriving DecidableEq, Repr

/-- A request the service sends upstream. -/
inductive Request where
  /-- Request `GET BaseURL/api/1/me` with `Authorization: Bearer accessToken`. -/
  | probe (accessToken : GoString)
  /-- Request `POST https://auth.tesla.com/oauth2/v3/token` with the JSON body
  `{grant_type: "refresh_token", refresh_token: refreshToken}`. -/
  | refresh (refreshToken : GoString)
  deriving DecidableEq, Repr

/-- What `httpClient.Do` returns. -/
inductive Response where
  /-- A non-nil error (DNS, connect, timeout), with its message. -/
  | transportError (msg : String)
  /-- A response with its status code; `body` is what decoding the body as
  `TeslaTokenRefreshResponse` gives, `none` when `Decode` fails. -/
  | status (code : Nat) (body : Option TeslaTokenRefreshResponse)
  deriving DecidableEq, Repr

/-- The errors the service returns. -/
inductive ServiceError where
  /-- The error `gorm.ErrRecordNotFound` -/
  | recordNotFound
  /-- Any other error of the store, with its message. -/
  | db (msg : String)
  /-- Message "token not found for user: %s" -/
  | tokenNotFound (userID : String)
  /-- Message "token expired and refresh failed: %v" -/
  | refreshFailed (cause : ServiceError)
  /-- The error of `http.NewRequest` or of `httpClient.Do`, with its message. -/
  | http (msg : String)
  /-- Message "failed to refresh token, status: %d" -/
  | refreshStatus (code : Nat)
  /-- The error of decoding the refresh response. -/
  | decode
  deriving DecidableEq, Repr

/-- What lies outside the service during one call: the clock, the faults of the
store, the upstream.  Every `time.Now()` of one call reads the same instant `now`.
`dbFault n` is the error of the `n`-th statement sent to the database (`none` when
it is executed), `upstream n` the answer to the `n`-th request sent, counted from
`0` over the life of the world.  `newRequestError` is the error of
`http.NewRequest` for the URL `BaseURL + "/api/1/me"` of the configuration, `none`
when that URL parses. -/
structure Env where
  now : Time
  dbFault : Nat → Option String
  upstream : Nat → Request → Response
  newRequestError : Option String

/-- The state the service acts on: both tables (rows in insertion order, soft
deleted rows of `tesla_tokens` included), the number of statements sent to the
database, and the requests sent upstream, oldest first. -/
structure World where
  tokens : List TeslaToken
  logs : List TokenUsageLog
  statements : Nat
  requests : List Request
  deriving DecidableEq, Repr

/-- A row that soft deletion has not marked: the condition `deleted_at IS NULL` GORM
adds to every query, update and delete of a model with a `gorm.DeletedAt` field. -/
def TeslaToken.live (t : TeslaToken) : Bool := t.DeletedAt.isNone

/-- The call `s.db.Where("user_id = ?", userID).First(&token)`: the first live row of the
user by primary key, `ErrRecordNotFound` when there is none.  `destID` is the
primary key the struct `token` holds when the query is built (`0` for a fresh
variable): GORM adds a non-zero primary key of the destination to the conditions. -/
def dbFirst (env : Env) (w : World) (userID : String) (destID : Nat) :
    Except ServiceError TeslaToken × World :=
  let w1 := { w with statements := w.statements + 1 }
  match env.dbFault w.statements with
  | some msg => (.error (.db msg), w1)
  | none =>
    match w.tokens.find?
        (fun r => r.live && r.UserID == userID && (destID == 0 || r.ID == destID)) with
    | none => (.error .recordNotFound, w1)
    | some r => (.ok r, w1)

/-- The call `s.db.Save(&token)` for a token with a primary key: every column of the row
with that key is written, `updated_at` with the current time. -/
def dbSave (env : Env) (w : World) (token : TeslaToken) : Option ServiceError × World :=
  let w1 := { w with statements := w.statements + 1 }
  match env.dbFault w.statements with
  | some msg => (some (.db msg), w1)
  | none =>
    (none, { w1 with tokens := w1.tokens.map (fun r =>
      if r.ID = token.ID then { token with UpdatedAt := env.now } else r) })

/-- The call `s.db.Create(log)` on `token_usage_logs`: the key is assigned, `created_at` is
the current time, and a zero-valued field with a `default` tag takes that default:
`Success bool gorm:"default:true"` makes GORM write `true` for `Success: false`. -/
def dbCreateLog (env : Env) (w : World) (log : TokenUsageLog) : Option ServiceError × World :=
  let w1 := { w with statements := w.statements + 1 }
  match env.dbFault w.statements with
  | some msg => (some (.db msg), w1)
  | none =>
    (none, { w1 with logs := w1.logs ++ [{ log with
      ID := if log.ID = 0 then nextID (w1.logs.map (·.ID)) else log.ID
      Success := if log.Success = false then true else log.Success
      CreatedAt := if log.CreatedAt = 0 then env.now else log.CreatedAt }] })

/-- The method `TokenService.logTokenUsage`: the entry is inserted; an error of the insert is
logged and dropped. -/
def logTokenUsage (env : Env) (w : World) (userID action ipAddress userAgent : String)
    (success : Bool) (errorMessage : String) : World :=
  (dbCreateLog env w
    { ID := 0, UserID := userID, Action := action, IPAddress := ipAddress,
      UserAgent := userAgent, Success := success, ErrorMessage := errorMessage,
      CreatedAt := 0 }).2

/-- The call `s.httpClient.Do(req)`: the request is recorded and the upstream answers. -/
def httpDo (env : Env) (w : World) (req : Request) : Response × World :=
  (env.upstream w.requests.length req, { w with requests := w.requests ++ [req] })

/-- The call `s.db.Where("user_id = ?", token.UserID).Assign(token).FirstOrCreate(token)`.
GORM first runs the query with `token` as destination.  When no live row of the
user exists it inserts `token`: the key is assigned when it is zero, `created_at`
and `updated_at` are the current time when they are zero, an empty `TokenType`
takes the default `Bearer` of its tag, and the insert is refused when a row of the
table, soft deleted ones included, already has the key or (unique index) the
`user_id`.  When a live row exists, the query has read that row into `token`, the
struct `Assign` was given, before the assignments are collected from it: the update
that follows writes the row's own values and leaves the table as it is. -/
def dbFirstOrCreate (env : Env) (w : World) (token : TeslaToken) :
    Option ServiceError × World :=
  let w1 := { w with statements := w.statements + 1 }
  match env.dbFault w.statements with
  | some msg => (some (.db msg), w1)
  | none =>
    let w2 := { w1 with statements := w1.statements + 1 }
    match w.tokens.find? (fun r => r.live && r.UserID == token.UserID &&
        (token.ID == 0 || r.ID == token.ID)) with
    | none =>
      match env.dbFault w1.statements with
      | some msg => (some (.db msg), w2)
      | none =>
        let id := if token.ID = 0 then nextID (w.tokens.map (·.ID)) else token.ID
        if w.tokens.any (fun r => r.ID == id || r.UserID == token.UserID) then
          (some (.db "Duplicate entry"), w2)
        else
          (none, { w2 with tokens := w2.tokens ++ [{ token with
            ID := id
            TokenType := if token.TokenType = "" then "Bearer" else token.TokenType
            CreatedAt := if token.CreatedAt = 0 then env.now else token.CreatedAt
            UpdatedAt := if token.UpdatedAt = 0 then env.now else token.UpdatedAt }] })
    | some _ =>
      match env.dbFault w1.statements with
      | some msg => (some (.db msg), w2)
      | none => (none, w2)

/-- The method `TokenService.SaveToken`. -/
def SaveToken (env : Env) (w : World) (token : TeslaToken) : Option ServiceError × World :=
  match dbFirstOrCreate env w token with
  | (some err, w1) => (some err, w1)
  | (none, w1) => (none, logTokenUsage env w1 token.UserID "create" "" "" true "")

/-- Step 5 of `RefreshTeslaToken` (lines 225 to 231): the fields of the loaded token
the response overwrites.  The refresh token is replaced only by a non-empty one.
The new expiry is `time.Now().Add(time.Duration(tokenResp.ExpiresIn) * time.Second)`,
the product taken in 64-bit arithmetic. -/
def TeslaToken.refreshed (token : TeslaToken) (tokenResp : TeslaTokenRefreshResponse)
    (now : Time) : TeslaToken :=
  { token with
    AccessToken := tokenResp.AccessToken
    RefreshToken :=
      if tokenResp.RefreshToken ≠ [] then tokenResp.RefreshToken else token.RefreshToken
    TokenType := tokenResp.TokenType
    ExpiresAt := now + wrapInt64 (tokenResp.ExpiresIn * Second)
    UpdatedAt := now }

/-- The method `TokenService.RefreshTeslaToken`.  `json.Marshal` of the request struct and
`http.NewRequest` for the constant URL cannot fail. -/
def RefreshTeslaToken (env : Env) (w : World) (userID : String) :
    Option ServiceError × World :=
  match dbFirst env w userID 0 with
  | (.error _, w1) => (some (.tokenNotFound userID), w1)
  | (.ok token, w1) =>
    match httpDo env w1 (.refresh token.RefreshToken) with
    | (.transportError msg, w2) =>
      (some (.http msg), logTokenUsage env w2 userID "refresh" "" "" false msg)
    | (.status code body, w2) =>
      if code ≠ 200 then
        (some (.refreshStatus code),
          logTokenUsage env w2 userID "refresh" "" "" false ("HTTP " ++ toString code))
      else
        match body with
        | none =>
          (some .decode,
            logTokenUsage env w2 userID "refresh" "" "" false "Failed to decode response")
        | some tokenResp =>
          match dbSave env w2 (token.refreshed tokenResp env.now) with
          | (some err, w3) =>
            (some err,
              logTokenUsage env w3 userID "refresh" "" "" false "Failed to save refreshed token")
          | (none, w3) =>
            (none,
              logTokenUsage env w3 userID "refresh" "" "" true "Token refreshed successfully")

/-- The method `TokenService.GetValidToken`. -/
def GetValidToken (env : Env) (w : World) (userID : String) :
    Except ServiceError TeslaToken × World :=
  match dbFirst env w userID 0 with
  | (.error .recordNotFound, w1) => (.error (.tokenNotFound userID), w1)
  | (.error err, w1) => (.error err, w1)
  | (.ok token, w1) =>
    if token.IsExpiringSoon env.now || token.IsExpired env.now then
      match RefreshTeslaToken env w1 userID with
      | (some err, w2) => (.error (.refreshFailed err), w2)
      | (none, w2) =>
        match dbFirst env w2 userID token.ID with
        | (.error err, w3) => (.error err, w3)
        | (.ok token1, w3) => (.ok token1, w3)
    else (.ok token, w1)

/-- The method `TokenService.validateTokenWithTeslaAPI`: Go's pair `(bool, error)`. -/
def validateTokenWithTeslaAPI (env : Env) (w : World) (accessToken : GoString) :
    (Bool × Option ServiceError) × World :=
  match env.newRequestError with
  | some msg => ((false, some (.http msg)), w)
  | none =>
    match httpDo env w (.probe accessToken) with
    | (.transportError msg, w1) => ((false, some (.http msg)), w1)
    | (.status code _, w1) => ((decide (code = 200), none), w1)

/-- The method `ServiceError.Error()`, for the one place that stores it (an error of
`validateTokenWithTeslaAPI`). -/
def ServiceError.message : ServiceError → String
  | .http msg => msg
  | .db msg => msg
  | .recordNotFound => "record not found"
  | .tokenNotFound userID => "token not found for user: " ++ userID
  | .refreshFailed cause => "token expired and refresh failed: " ++ cause.message
  | .refreshStatus code => "failed to refresh token, status: " ++ toString code
  | .decode => "decode error"

/-- The response of `ValidateTeslaToken` on its failing branches. -/
def invalidResponse (msg : String) : TokenValidationResponse :=
  { Valid := false, ExpiresAt := 0, UserID := "", Message := msg }

/-- The method `TokenService.ValidateTeslaToken` from its step 3 on (lines 106 to 153): the
probe of `token`, and on a rejected probe one refresh, one re-read and one more
probe. -/
def ValidateTeslaToken.probeStep (env : Env) (w : World) (userID : String)
    (token : TeslaToken) : Except ServiceError TokenValidationResponse × World :=
  match validateTokenWithTeslaAPI env w token.AccessToken with
  | ((_, some err), w1) =>
    (.ok (invalidResponse ("Failed to validate with Tesla API: " ++ err.message)),
      logTokenUsage env w1 userID "validate" "" "" false err.message)
  | ((false, none), w1) =>
    match RefreshTeslaToken env w1 userID with
    | (some _, w2) =>
      (.ok (invalidResponse "Token invalid and refresh failed"),
        logTokenUsage env w2 userID "validate" "" "" false "Token invalid and refresh failed")
    | (none, w2) =>
      match dbFirst env w2 userID token.ID with
      | (.ok token1, w3) =>
        match validateTokenWithTeslaAPI env w3 token1.AccessToken with
        | ((true, _), w4) =>
          (.ok { Valid := true, ExpiresAt := token1.ExpiresAt, UserID := userID,
                 Message := "Token refreshed and valid" },
            logTokenUsage env w4 userID "validate" "" "" true "Token refreshed and valid")
        | ((false, _), w4) =>
          (.ok (invalidResponse "Token validation failed"),
            logTokenUsage env w4 userID "validate" "" "" false
              "Token validation failed after refresh")
      | (.error _, w3) =>
        (.ok (invalidResponse "Token validation failed"),
          logTokenUsage env w3 userID "validate" "" "" false
            "Token validation failed after refresh")
  | ((true, none), w1) =>
    (.ok { Valid := true, ExpiresAt := token.ExpiresAt, UserID := userID,
           Message := "Token is valid" },
      logTokenUsage env w1 userID "validate" "" "" true "Token is valid")

/-- The method `TokenService.ValidateTeslaToken`. -/
def ValidateTeslaToken (env : Env) (w : World) (userID : String) :
    Except ServiceError TokenValidationResponse × World :=
  match dbFirst env w userID 0 with
  | (.error .recordNotFound, w1) =>
    (.ok (invalidResponse "Token not found"),
      logTokenUsage env w1 userID "validate" "" "" false "Token not found")
  | (.error err, w1) => (.error err, w1)
  | (.ok token, w1) =>
    if token.IsExpired env.now then
      match RefreshTeslaToken env w1 userID with
      | (some _, w2) =>
        (.ok (invalidResponse "Token expired and refresh failed"),
          logTokenUsage env w2 userID "validate" "" "" false
            "Token expired and refresh failed")
      | (none, w2) =>
        match dbFirst env w2 userID token.ID with
        | (.error err, w3) => (.error err, w3)
        | (.ok token1, w3) => ValidateTeslaToken.probeStep env w3 userID token1
    else ValidateTeslaToken.probeStep env w1 userID token

end TeslaTokenService

namespace ImplementationExample

open Crypto

/-- The struct `models.Token`, a row of the token table. -/
structure Token where
  ID : Nat
  AccountID : String
  AccessToken : GoString
  RefreshToken : GoString
  ExpiresAt : Time
  TokenType : String
  Scope : String
  IsEncrypted : Bool
  EncryptionVersion : Int
  CreatedAt : Time
  UpdatedAt : Time
  deriving DecidableEq, Repr

/-- The method `Token.IsExpired`: `time.Now().After(t.ExpiresAt)`. -/
def Token.IsExpired (t : Token) (now : Time) : Bool := decide (now > t.ExpiresAt)

/-- The method `Token.GetRemainingSeconds`: `0` once expired, otherwise
`int64(time.Until(t.ExpiresAt).Seconds())`, where `time.Until` gives a duration that
saturates at the 64-bit bounds. -/
def Token.GetRemainingSeconds (t : Token) (now : Time) : Int :=
  if t.IsExpired now then 0
  else (secondsAsInt64 (min (t.ExpiresAt - now) 9223372036854775807).toNat : Nat)

/-- The struct `models.TokenAuditLog`, a row of the audit table. -/
structure TokenAuditLog where
  ID : Nat
  AccountID : String
  Action : String
  IPAddress : String
  UserAgent : String
  Success : Bool
  ErrorMessage : String
  CreatedAt : Time
  deriving DecidableEq, Repr

/-- The struct `models.TokenRequest`. -/
structure TokenRequest where
  AccountID : String
  AccessToken : GoString
  RefreshToken : GoString
  ExpiresIn : Int
  TokenType : String
  Scope : String
  deriving DecidableEq, Repr

/-- The struct `models.TokenResponse`. -/
structure TokenResponse where
  AccountID : String
  AccessToken : GoString
  RefreshToken : GoString
  ExpiresAt : Time
  TokenType : String
  deriving DecidableEq, Repr

/-- The struct `models.ValidateRequest`. -/
structure ValidateRequest where
  AccountID : String
  AccessToken : GoString
  deriving DecidableEq, Repr

/-- The struct `models.ValidateResponse`. -/
structure ValidateResponse where
  Valid : Bool
  ExpiresAt : Time
  RemainingSeconds : Int
  deriving DecidableEq, Repr

/-- The struct `models.TeslaTokenResponse`. -/
structure TeslaTokenResponse where
  AccessToken : GoString
  RefreshToken : GoString
  ExpiresIn : Int
  TokenType : String
  Scope : String
  deriving DecidableEq, Repr

/-- A request the service sends upstream. -/
inductive Request where
  /-- Request `GET TeslaAPIURL` with `Authorization: Bearer accessToken`. -/
  | validate (accessToken : GoString)
  /-- Request `POST TeslaAuthURL` with `grant_type`, `refresh_token`, `client_id`, `scope`. -/
  | refresh (refreshToken : GoString)
  deriving DecidableEq, Repr

/-- What `httpClient.Do` returns. -/
inductive Response where
  /-- A non-nil error, with its message. -/
  | transportError (msg : String)
  /-- A response with its status code; `body` is what decoding the body as
  `TeslaTokenResponse` gives, `none` when `Decode` fails. -/
  | status (code : Nat) (body : Option TeslaTokenResponse)
  deriving DecidableEq, Repr

/-- The errors the service returns. -/
inductive ServiceError where
  /-- Message "failed to encrypt access token: %w" -/
  | encryptAccessToken (cause : CryptoError)
  /-- Message "failed to encrypt refresh token: %w" -/
  | encryptRefreshToken (cause : CryptoError)
  /-- Message "failed to update token: %w" -/
  | updateToken (msg : String)
  /-- Message "failed to create token: %w" -/
  | createToken (msg : String)
  /-- Message "database error: %w" -/
  | database (msg : String)
  /-- Message "token not found for account: %s" -/
  | tokenNotFound (accountID : String)
  /-- Message "failed to decrypt access token: %w" -/
  | decryptAccessToken (cause : CryptoError)
  /-- Message "failed to decrypt refresh token: %w" -/
  | decryptRefreshToken (cause : CryptoError)
  /-- Message "failed to refresh token: %w" -/
  | refreshFailed (msg : String)
  deriving DecidableEq, Repr

/-- What lies outside the service during one call: the clock (every `time.Now()`
of one call reads `now`), the faults of the store (`dbFault n` is the error of the
`n`-th statement, `none` when it is executed), the upstream's answer to the `n`-th
request, and what the `n`-th read of `rand.Reader` for a nonce gives. -/
structure Env where
  now : Time
  dbFault : Nat → Option String
  upstream : Nat → Request → Response
  rand : Nat → Option (Fin 12 → Byte)

/-- The state the service acts on: both tables (rows in insertion order), the
number of statements sent to the database, the requests sent upstream (oldest
first) and the number of nonces drawn. -/
structure World where
  tokens : List Token
  logs : List TokenAuditLog
  statements : Nat
  requests : List Request
  draws : Nat
  deriving DecidableEq, Repr

/-- The struct `TokenService`: the cipher and its encryptor (the store and the HTTP
client are in `Env` and `World`). -/
structure TokenService where
  aead : AEAD
  encryptor : TokenEncryptor

/-- The result of a query for one row. -/
inductive QueryError where
  /-- The error `gorm.ErrRecordNotFound` -/
  | recordNotFound
  /-- Any other error of the store, with its message. -/
  | fault (msg : String)
  deriving DecidableEq, Repr

/-- The call `s.db.Where("account_id = ?", accountID).First(&token)` into a fresh `token`. -/
def dbFirst (env : Env) (w : World) (accountID : String) : Except QueryError Token × World :=
  let w1 := { w with statements := w.statements + 1 }
  match env.dbFault w.statements with
  | some msg => (.error (.fault msg), w1)
  | none =>
    match w.tokens.find? (fun r => r.AccountID == accountID) with
    | none => (.error .recordNotFound, w1)
    | some r => (.ok r, w1)

/-- The call `s.db.Save(&token)` for a token with a primary key: every column of the row
with that key is written; the hook `BeforeUpdate` sets `UpdatedAt`. -/
def dbSave (env : Env) (w : World) (token : Token) : Option String × World :=
  let w1 := { w with statements := w.statements + 1 }
  match env.dbFault w.statements with
  | some msg => (some msg, w1)
  | none =>
    (none, { w1 with tokens := w1.tokens.map (fun r =>
      if r.ID = token.ID then { token with UpdatedAt := env.now } else r) })

/-- The call `s.db.Create(&token)`: the hook `BeforeCreate` sets both timestamps, the key is
assigned, and the zero-valued fields with a `default` tag take their defaults
(`TokenType` `Bearer`, `IsEncrypted` `true`, `EncryptionVersion` `1`); the insert is
refused when a row already has the `account_id` (unique index).  The row as
inserted is returned as well: GORM writes key, timestamps and defaults back into
the struct. -/
def dbCreate (env : Env) (w : World) (token : Token) : Except String Token × World :=
  let w1 := { w with statements := w.statements + 1 }
  match env.dbFault w.statements with
  | some msg => (.error msg, w1)
  | none =>
    if w.tokens.any (fun r => r.AccountID == token.AccountID) then
      (.error "Duplicate entry", w1)
    else
      let row : Token := { token with
        ID := nextID (w.tokens.map (·.ID))
        TokenType := if token.TokenType = "" then "Bearer" else token.TokenType
        IsEncrypted := true
        EncryptionVersion := if token.EncryptionVersion = 0 then 1 else token.EncryptionVersion
        CreatedAt := env.now
        UpdatedAt := env.now }
      (.ok row, { w1 with tokens := w1.tokens ++ [row] })

/-- The method `TokenService.logAudit`.  The insert runs in a goroutine of its own; it is
taken here as done when `logAudit` returns.  The goroutines of two calls are not
ordered by the source, so the order in which their entries reach the table is open;
here they are inserted in the order of the calls.  An error of the insert is printed
and dropped.  `Success bool gorm:"default:true"` makes GORM write `true` for
`Success: false`. -/
def logAudit (env : Env) (w : World) (accountID action : String) (success : Bool)
    (errorMessage : String) : World :=
  let w1 := { w with statements := w.statements + 1 }
  match env.dbFault w.statements with
  | some _ => w1
  | none =>
    { w1 with logs := w1.logs ++ [{
        ID := nextID (w1.logs.map (·.ID))
        AccountID := accountID
        Action := action
        IPAddress := ""
        UserAgent := ""
        Success := if success = false then true else success
        ErrorMessage := errorMessage
        CreatedAt := env.now }] }

/-- The call `s.encryptor.Encrypt(plaintext)` with the next nonce of the entropy source. -/
def encrypt (s : TokenService) (env : Env) (w : World) (plaintext : GoString) :
    (GoString × Option CryptoError) × World :=
  if plaintext = [] ∨ validAESKeyLength s.encryptor.key.length = false then
    (Encrypt s.aead s.encryptor none plaintext, w)
  else
    (Encrypt s.aead s.encryptor (env.rand w.draws) plaintext, { w with draws := w.draws + 1 })

/-- The method `TokenService.SaveToken`. -/
def SaveToken (s : TokenService) (env : Env) (w : World) (req : TokenRequest) :
    Except ServiceError TokenResponse × World :=
  match encrypt s env w req.AccessToken with
  | ((_, some err), w1) => (.error (.encryptAccessToken err), w1)
  | ((encryptedAccessToken, none), w1) =>
    match encrypt s env w1 req.RefreshToken with
    | ((_, some err), w2) => (.error (.encryptRefreshToken err), w2)
    | ((encryptedRefreshToken, none), w2) =>
      let expiresAt := env.now + wrapInt64 (req.ExpiresIn * Second)
      let respond (token : Token) (w : World) : Except ServiceError TokenResponse × World :=
        (.ok { AccountID := token.AccountID, AccessToken := [], RefreshToken := [],
               ExpiresAt := token.ExpiresAt, TokenType := token.TokenType },
          logAudit env w req.AccountID "created" true "")
      match dbFirst env w2 req.AccountID with
      | (.ok token, w3) =>
        let token1 : Token := { token with
          AccessToken := encryptedAccessToken
          RefreshToken := encryptedRefreshToken
          ExpiresAt := expiresAt
          TokenType := req.TokenType
          Scope := req.Scope }
        match dbSave env w3 token1 with
        | (some msg, w4) => (.error (.updateToken msg), w4)
        | (none, w4) => respond { token1 with UpdatedAt := env.now } w4
      | (.error .recordNotFound, w3) =>
        match dbCreate env w3
            { ID := 0, AccountID := req.AccountID, AccessToken := encryptedAccessToken,
              RefreshToken := encryptedRefreshToken, ExpiresAt := expiresAt,
              TokenType := req.TokenType, Scope := req.Scope, IsEncrypted := false,
              EncryptionVersion := 0, CreatedAt := 0, UpdatedAt := 0 } with
        | (.error msg, w4) => (.error (.createToken msg), w4)
        | (.ok token, w4) => respond token w4
      | (.error (.fault msg), w3) => (.error (.database msg), w3)

/-- The method `TokenService.validateWithTeslaAPI`: the message of the error, `none` for nil. -/
def validateWithTeslaAPI (env : Env) (w : World) (accessToken : GoString) :
    Option String × World :=
  let w1 := { w with requests := w.requests ++ [Request.validate accessToken] }
  match env.upstream w.requests.length (.validate accessToken) with
  | .transportError msg => (some msg, w1)
  | .status code _ =>
    if code = 401 then (some "unauthorized: invalid token", w1)
    else if code ≠ 200 then (some ("tesla API returned status: " ++ toString code), w1)
    else (none, w1)

/-- The method `TokenService.ValidateToken`. -/
def ValidateToken (s : TokenService) (env : Env) (w : World) (req : ValidateRequest) :
    Except ServiceError ValidateResponse × World :=
  let invalid : ValidateResponse := { Valid := false, ExpiresAt := 0, RemainingSeconds := 0 }
  match dbFirst env w req.AccountID with
  | (.error .recordNotFound, w1) => (.ok invalid, w1)
  | (.error (.fault msg), w1) => (.error (.database msg), w1)
  | (.ok token, w1) =>
    match Decrypt s.aead s.encryptor token.AccessToken with
    | (_, some err) => (.error (.decryptAccessToken err), w1)
    | (storedAccessToken, none) =>
      if storedAccessToken ≠ req.AccessToken then
        (.ok invalid, logAudit env w1 req.AccountID "validated" false "token mismatch")
      else if token.IsExpired env.now then
        (.ok invalid, logAudit env w1 req.AccountID "validated" false "token expired")
      else
        match validateWithTeslaAPI env w1 req.AccessToken with
        | (some msg, w2) => (.ok invalid, logAudit env w2 req.AccountID "validated" false msg)
        | (none, w2) =>
          (.ok { Valid := true, ExpiresAt := token.ExpiresAt,
                 RemainingSeconds := token.GetRemainingSeconds env.now },
            logAudit env w2 req.AccountID "validated" true "")

end ImplementationExample

namespace Crypto

/-- The checksum the tag of `checksumAEAD` repeats: the byte sum of key, nonce and
plaintext and of the plaintext's length. -/
def checksum (key nonce plaintext : List Byte) : Byte :=
  Base64.toByte ((key.map Fin.val).sum + (nonce.map Fin.val).sum +
    (plaintext.map Fin.val).sum + plaintext.length)

/-- A cipher with the interface and the laws of `AEAD` that can be evaluated: the
plaintext followed by sixteen copies of `checksum`.  It stands in for AES-GCM where
the definitions are run on concrete inputs. -/
def checksumAEAD : AEAD where
  Seal key nonce plaintext := plaintext ++ List.replicate 16 (checksum key nonce plaintext)
  Open key nonce ciphertext :=
    if ciphertext.length < 16 then none
    else
      let plaintext := ciphertext.take (ciphertext.length - 16)
      if ciphertext.drop (ciphertext.length - 16) =
          List.replicate 16 (checksum key nonce plaintext) then some plaintext
      else none
  Open_Seal := by
    intro key nonce plaintext _ _
    simp
  Seal_length := by
    intro key nonce plaintext
    simp [tagSize]
  Open_short := by
    intro key nonce ciphertext h
    simp only [tagSize] at h
    simp [h]

/-- A 32-byte key for the concrete runs. -/
def sampleKey : GoString := List.replicate 32 7

/-- The encryptor of `sampleKey`. -/
def sampleEncryptor : TokenEncryptor := { key := sampleKey }

/-- A nonce for the concrete runs: the bytes `0, 1, ..., 11`. -/
def sampleNonce : Fin 12 → Byte := fun i => Fin.ofNat i.val

/-- The blob `Encrypt` returns for the string `"A"` under `sampleKey` with
`sampleNonce`. -/
def sampleBlob : GoString := (Encrypt checksumAEAD sampleEncryptor (some sampleNonce) [65]).1

end Crypto

namespace TeslaTokenService

/-- The live record of a user: the row a read of the store without faults finds. -/
def storedRecord (w : World) (userID : String) : Option TeslaToken :=
  w.tokens.find? (fun r => r.live && r.UserID == userID)

/-- The answers the upstream gave to the probes among `requests`, the requests
sent from position `n` of the trace on, in the order of the probes. -/
def probeAnswersFrom (env : Env) : Nat → List Request → List Response
  | _, [] => []
  | n, .probe accessToken :: rest =>
    env.upstream n (.probe accessToken) :: probeAnswersFrom env (n + 1) rest
  | n, .refresh _ :: rest => probeAnswersFrom env (n + 1) rest

/-- Whether a result of `ValidateTeslaToken` is a response with `valid = true`. -/
def returnsValid : Except ServiceError TokenValidationResponse → Bool
  | .ok resp => resp.Valid
  | .error _ => false

/-- Whether an answer of the upstream is a response with status 200. -/
def Response.isOK : Response → Bool
  | .status code _ => decide (code = 200)
  | .transportError _ => false

/-- Whether a request is a probe. -/
def Request.isProbe : Request → Bool
  | .probe _ => true
  | .refresh _ => false

/-- Whether a request is a refresh. -/
def Request.isRefresh : Request → Bool
  | .probe _ => false
  | .refresh _ => true

/-- An empty store. -/
def emptyWorld : World := { tokens := [], logs := [], statements := 0, requests := [] }

/-- An environment at the instant `now` whose store has no faults and whose upstream
answers every probe with the status `probeStatus` and every refresh with
`refreshAnswer`. -/
def steadyEnv (now : Time) (probeStatus : Nat) (refreshAnswer : Response) : Env :=
  { now := now
    dbFault := fun _ => none
    upstream := fun _ req =>
      match req with
      | .probe _ => .status probeStatus none
      | .refresh _ => refreshAnswer
    newRequestError := none }

/-- The token the handler builds for the user `u1` from the access token `"a"`, the
refresh token `"r"` and the expiry `expiresAt`. -/
def sampleToken (expiresAt : Time) : TeslaToken :=
  { ID := 0, UserID := "u1", AccessToken := [97], RefreshToken := [114], TokenType := "Bearer",
    ExpiresAt := expiresAt, CreatedAt := 0, UpdatedAt := 0, DeletedAt := none }

/-- The store after `u1` saved `sampleToken expiresAt` at the instant `now`: one row
and its audit entry. -/
def sampleWorld (now expiresAt : Time) : World :=
  (SaveToken (steadyEnv now 200 (.status 401 none)) emptyWorld (sampleToken expiresAt)).2

/-- The row of `sampleWorld`. -/
def sampleRow (now expiresAt : Time) : TeslaToken :=
  { ID := 1, UserID := "u1", AccessToken := [97], RefreshToken := [114], TokenType := "Bearer",
    ExpiresAt := expiresAt, CreatedAt := now, UpdatedAt := now, DeletedAt := none }

/-- A refresh answer of the upstream: status 200 with the access token `"b"`, the
given refresh token, one hour of validity. -/
def sampleRefreshAnswer (refreshToken : GoString) : Response :=
  .status 200 (some { AccessToken := [98], RefreshToken := refreshToken, ExpiresIn := 3600,
                      TokenType := "Bearer" })

end TeslaTokenService

namespace ImplementationExample

open Crypto

/-- The service of the concrete runs: `checksumAEAD` under `sampleKey`. -/
def sampleService : TokenService := { aead := checksumAEAD, encryptor := sampleEncryptor }

/-- An empty store. -/
def emptyWorld : World :=
  { tokens := [], logs := [], statements := 0, requests := [], draws := 0 }

/-- An environment at the instant `now` whose store has no faults, whose upstream
answers every request with the status `status` and an empty body, and whose entropy
source always delivers `sampleNonce`. -/
def steadyEnv (now : Time) (status : Nat) : Env :=
  { now := now
    dbFault := fun _ => none
    upstream := fun _ _ => .status status none
    rand := fun _ => some sampleNonce }

/-- A request of the account `acc1`: access token `"a"`, refresh token `"r"`, one
hour of validity. -/
def sampleRequest : TokenRequest :=
  { AccountID := "acc1", AccessToken := [97], RefreshToken := [114], ExpiresIn := 3600,
    TokenType := "Bearer", Scope := "" }

/-- The store after `acc1` saved `sampleRequest` at the instant `now`. -/
def sampleWorld (now : Time) : World :=
  (SaveToken sampleService (steadyEnv now 200) emptyWorld sampleRequest).2

/-- The row of `sampleWorld`. -/
def sampleRow (now : Time) : Token :=
  { ID := 1, AccountID := "acc1"
    AccessToken := (Encrypt checksumAEAD sampleEncryptor (some sampleNonce) [97]).1
    RefreshToken := (Encrypt checksumAEAD sampleEncryptor (some sampleNonce) [114]).1
    ExpiresAt := now + 3600 * Second, TokenType := "Bearer", Scope := "", IsEncrypted := true,
    EncryptionVersion := 1, CreatedAt := now, UpdatedAt := now }

end ImplementationExample

namespace TeslaTokenService

/-- The statement of `DeleteToken`,
`s.db.Where("user_id = ?", userID).Delete(&model.TeslaToken{})`.  The model has a
`gorm.DeletedAt` field, so the delete is a soft one: every live row of the user gets
`deleted_at` set to the current time and stays in the table.  The result is
`RowsAffected`, or the message of the error. -/
def dbDelete (env : Env) (w : World) (userID : String) : Except String Nat × World :=
  let w1 := { w with statements := w.statements + 1 }
  match env.dbFault w.statements with
  | some msg => (.error msg, w1)
  | none =>
    (.ok (w.tokens.countP (fun r => r.live && r.UserID == userID)),
      { w1 with tokens := w1.tokens.map (fun r =>
          if r.live && r.UserID == userID then { r with DeletedAt := some env.now } else r) })

/-- The method `TokenService.DeleteToken`. -/
def DeleteToken (env : Env) (w : World) (userID : String) : Option ServiceError × World :=
  match dbDelete env w userID with
  | (.error msg, w1) =>
    (some (.db msg), logTokenUsage env w1 userID "delete" "" "" false msg)
  | (.ok rowsAffected, w1) =>
    if rowsAffected = 0 then
      (some (.tokenNotFound userID),
        logTokenUsage env w1 userID "delete" "" "" false "Token not found")
    else
      (none, logTokenUsage env w1 userID "delete" "" "" true "Token deleted successfully")

/-- The order of `Order("created_at DESC")`: an entry stands before every entry
created earlier. -/
def newestFirst (a b : TokenUsageLog) : Prop := b.CreatedAt ≤ a.CreatedAt

instance : DecidableRel newestFirst := fun a b =>
  inferInstanceAs (Decidable (b.CreatedAt ≤ a.CreatedAt))

instance : IsTotal TokenUsageLog newestFirst := ⟨fun a b => Int.le_total b.CreatedAt a.CreatedAt⟩

instance : IsTrans TokenUsageLog newestFirst := ⟨fun _ _ _ hab hbc => Int.le_trans hbc hab⟩

/-- The method `TokenService.GetTokenUsageLogs`: the entries of the user by
`created_at` descending, cut to `limit` entries only when `limit > 0`.  Entries of
equal `created_at` come in an order the database does not fix; the one of an
insertion sort is taken. -/
def GetTokenUsageLogs (env : Env) (w : World) (userID : String) (limit : Int) :
    Except ServiceError (List TokenUsageLog) × World :=
  let w1 := { w with statements := w.statements + 1 }
  match env.dbFault w.statements with
  | some msg => (.error (.db msg), w1)
  | none =>
    let rows := (w.logs.filter (fun e => e.UserID == userID)).insertionSort newestFirst
    (.ok (if limit > 0 then rows.take limit.toNat else rows), w1)

/-- The limit `TokenHandler.GetTokenLogs` passes to the service:
`c.DefaultQuery("limit", "100")` through `strconv.Atoi`, and `100` when `Atoi`
fails.  The query parameter is `none` when the request has none, `some none` when
`Atoi` rejects its value and `some (some n)` when `Atoi` reads it as `n`. -/
def TokenHandler.limitOf : Option (Option Int) → Int
  | none => 100
  | some none => 100
  | some (some n) => n

/-- The method `TokenHandler.GetTokenLogs`, as far as the service is concerned: an
empty `user_id` is refused (`none`), otherwise the logs are read with the limit of
the query. -/
def TokenHandler.GetTokenLogs (env : Env) (w : World) (userID : String)
    (limit : Option (Option Int)) :
    Option (Except ServiceError (List TokenUsageLog) × World) :=
  if userID = "" then none
  else some (GetTokenUsageLogs env w userID (TokenHandler.limitOf limit))

/-- The method `TokenService.CleanupExpiredTokens`: the soft delete of every live row
whose `expires_at` is before `time.Now().Add(-7 * 24 * time.Hour)`. -/
def CleanupExpiredTokens (env : Env) (w : World) : Option ServiceError × World :=
  let expiredTime := env.now + -7 * 24 * Hour
  let w1 := { w with statements := w.statements + 1 }
  match env.dbFault w.statements with
  | some msg => (some (.db msg), w1)
  | none =>
    (none, { w1 with tokens := w1.tokens.map (fun r =>
      if r.live && decide (r.ExpiresAt < expiredTime) then
        { r with DeletedAt := some env.now }
      else r) })

end TeslaTokenService

namespace ImplementationExample

open Crypto

/-- The method `TokenService.GetToken`. -/
def GetToken (s : TokenService) (env : Env) (w : World) (accountID : String) :
    Except ServiceError TokenResponse × World :=
  match dbFirst env w accountID with
  | (.error .recordNotFound, w1) => (.error (.tokenNotFound accountID), w1)
  | (.error (.fault msg), w1) => (.error (.database msg), w1)
  | (.ok token, w1) =>
    match Decrypt s.aead s.encryptor token.AccessToken with
    | (_, some err) => (.error (.decryptAccessToken err), w1)
    | (accessToken, none) =>
      match Decrypt s.aead s.encryptor token.RefreshToken with
      | (_, some err) => (.error (.decryptRefreshToken err), w1)
      | (refreshToken, none) =>
        (.ok { AccountID := token.AccountID, AccessToken := accessToken,
               RefreshToken := refreshToken, ExpiresAt := token.ExpiresAt,
               TokenType := token.TokenType }, w1)

/-- The method `TokenService.refreshWithTeslaAPI`: the decoded response, or the
message of the error (the text of a decoding error is not modelled). -/
def refreshWithTeslaAPI (env : Env) (w : World) (refreshToken : GoString) :
    Except String TeslaTokenResponse × World :=
  let w1 := { w with requests := w.requests ++ [Request.refresh refreshToken] }
  match env.upstream w.requests.length (.refresh refreshToken) with
  | .transportError msg => (.error msg, w1)
  | .status code body =>
    if code ≠ 200 then (.error ("token refresh failed with status: " ++ toString code), w1)
    else
      match body with
      | none => (.error "json: cannot decode the response", w1)
      | some tokenResp => (.ok tokenResp, w1)

/-- The method `TokenService.RefreshToken`. -/
def RefreshToken (s : TokenService) (env : Env) (w : World) (accountID : String) :
    Except ServiceError TokenResponse × World :=
  match GetToken s env w accountID with
  | (.error err, w1) => (.error err, w1)
  | (.ok tokenResp, w1) =>
    match refreshWithTeslaAPI env w1 tokenResp.RefreshToken with
    | (.error msg, w2) =>
      (.error (.refreshFailed msg), logAudit env w2 accountID "refreshed" false msg)
    | (.ok teslaResp, w2) =>
      match SaveToken s env w2
          { AccountID := accountID, AccessToken := teslaResp.AccessToken,
            RefreshToken := teslaResp.RefreshToken, ExpiresIn := teslaResp.ExpiresIn,
            TokenType := teslaResp.TokenType, Scope := teslaResp.Scope } with
      | (.error err, w3) => (.error err, w3)
      | (.ok _, w3) => GetToken s env (logAudit env w3 accountID "refreshed" true "") accountID

end ImplementationExample

namespace TeslaTokenService

/-- A refresh answer of the upstream with a validity of `10 ^ 10` seconds (about 317
years): status 200, the access token `"b"`, no refresh token. -/
def longLivedAnswer : Response :=
  .status 200 (some { AccessToken := [98], RefreshToken := [], ExpiresIn := 10000000000,
                      TokenType := "Bearer" })

end TeslaTokenService

namespace TeslaTokenService

/-- A store whose audit table holds 101 entries of the user `u1`, created at the
instants `1, ..., 101`. -/
def busyWorld : World :=
  { tokens := []
    logs := (List.range 101).map (fun i =>
      { ID := i + 1, UserID := "u1", Action := "validate", IPAddress := "", UserAgent := "",
        Success := true, ErrorMessage := "Token is valid", CreatedAt := i + 1 })
    statements := 0
    requests := [] }

end TeslaTokenService

namespace TeslaTokenService

/-- An environment at the instant `now` whose store refuses every statement with
`connection refused` and whose upstream answers every request with status 200 and
an empty body. -/
def brokenStoreEnv (now : Time) : Env :=
  { now := now
    dbFault := fun _ => some "connection refused"
    upstream := fun _ _ => .status 200 none
    newRequestError := none }

/-- The token the handler builds for the user `u1` from the access token `"b"`, the
refresh token `"s"` and the expiry `expiresAt`: a second save of the user of
`sampleToken`. -/
def laterToken (expiresAt : Time) : TeslaToken :=
  { ID := 0, UserID := "u1", AccessToken := [98], RefreshToken := [115], TokenType := "Bearer",
    ExpiresAt := expiresAt, CreatedAt := 0, UpdatedAt := 0, DeletedAt := none }

end TeslaTokenService

namespace ImplementationExample

open Crypto

/-- An environment at the instant `now` whose store has no faults, whose upstream
answers every validation with status 200 and every refresh with status 200 and the
tokens `"b"` and `"s"` for one hour, and whose entropy source always delivers
`sampleNonce`. -/
def grantingEnv (now : Time) : Env :=
  { now := now
    dbFault := fun _ => none
    upstream := fun _ req =>
      match req with
      | .validate _ => .status 200 none
      | .refresh _ =>
        .status 200 (some { AccessToken := [98], RefreshToken := [115], ExpiresIn := 3600,
                            TokenType := "Bearer", Scope := "" })
    rand := fun _ => some sampleNonce }

end ImplementationExample

namespace TeslaTokenService

/-- The number of calls of `RefreshTeslaToken` that `ValidateTeslaToken` makes from
its step 3 on (lines 106 to 153): one, at line 121, when the probe of `token` comes
back without an error and with `valid = false`; none when the probe fails or says
`valid = true`. -/
def ValidateTeslaToken.probeStepRefreshCalls (env : Env) (w : World) (token : TeslaToken) :
    Nat :=
  match validateTokenWithTeslaAPI env w token.AccessToken with
  | ((_, some _), _) => 0
  | ((false, none), _) => 1
  | ((true, none), _) => 0

/-- The number of calls of `RefreshTeslaToken` in one run of `ValidateTeslaToken`:
none when the first read fails; one, at line 93, when the record read is expired,
and then, when that refresh and the read after it succeed, those of step 3 for the
record read again; otherwise those of step 3 for the record read. -/
def ValidateTeslaToken.refreshCalls (env : Env) (w : World) (userID : String) : Nat :=
  match dbFirst env w userID 0 with
  | (.error _, _) => 0
  | (.ok token, w1) =>
    if token.IsExpired env.now then
      match RefreshTeslaToken env w1 userID with
      | (some _, _) => 1
      | (none, w2) =>
        match dbFirst env w2 userID token.ID with
        | (.error _, _) => 1
        | (.ok token1, w3) => 1 + ValidateTeslaToken.probeStepRefreshCalls env w3 token1
    else ValidateTeslaToken.probeStepRefreshCalls env w1 token

end TeslaTokenService

namespace ImplementationExample

open Crypto

/-- An environment at the instant `now` whose store has no faults, whose upstream
answers every validation with status 200 and every refresh with status 200, the
access token `"b"` for one hour and no refresh token, and whose entropy source
always delivers `sampleNonce`. -/
def tokenlessEnv (now : Time) : Env :=
  { now := now
    dbFault := fun _ => none
    upstream := fun _ req =>
      match req with
      | .validate _ => .status 200 none
      | .refresh _ =>
        .status 200 (some { AccessToken := [98], RefreshToken := [], ExpiresIn := 3600,
                            TokenType := "Bearer", Scope := "" })
    rand := fun _ => some sampleNonce }

end ImplementationExample

namespace Crypto

/-- AES-GCM as an `AEAD` together with what its construction fixes about tampering.
`Seal` encrypts in counter mode, so the first `len(plaintext)` bytes of its output
are the plaintext XORed with a key stream of the key and the nonce, and appends the
tag, which is a hash of these bytes XORed with the block cipher's image of the
nonce.  `Open` recomputes the tag over the ciphertext it is given, compares it with
the tag it is given, and only then decrypts.  So whatever `Open` accepts under a key
and a nonce is exactly what `Seal` gives under them for the plaintext `Open`
returns (`Open_sealed`); the encrypted bytes determine the plaintext (`Seal_body`);
and, the block cipher being a permutation, one output of `Seal` cannot belong to two
nonces (`Seal_nonce`).  The hash of GCM is a polynomial in the hash subkey, the
block cipher's image of the zero block, whose coefficients are the blocks of the
encrypted bytes: when these differ in one byte only, the hashes differ by a power of
the subkey times a block that is not zero, so the tags differ unless the subkey is
zero (`Seal_single`).  `weakKey key` says that the hash subkey of `key` is zero. -/
structure AuthenticAEAD extends AEAD where
  weakKey : List Byte → Bool
  Open_sealed : ∀ key nonce ciphertext plaintext, validAESKeyLength key.length = true →
    nonce.length = nonceSize → Open key nonce ciphertext = some plaintext →
    Seal key nonce plaintext = ciphertext
  Seal_body : ∀ key nonce p q, validAESKeyLength key.length = true →
    nonce.length = nonceSize → p.length = q.length →
    (Seal key nonce p).take p.length = (Seal key nonce q).take q.length → p = q
  Seal_nonce : ∀ key nonce nonce' p q, validAESKeyLength key.length = true →
    nonce.length = nonceSize → nonce'.length = nonceSize →
    Seal key nonce p = Seal key nonce' q → nonce = nonce'
  Seal_single : ∀ key nonce p q l1 x y l2, validAESKeyLength key.length = true →
    nonce.length = nonceSize → weakKey key = false → x ≠ y →
    (Seal key nonce p).take p.length = l1 ++ x :: l2 →
    (Seal key nonce q).take q.length = l1 ++ y :: l2 →
    (Seal key nonce p).drop p.length ≠ (Seal key nonce q).drop q.length

/-- The first twelve bytes of a nonce, filled up with zeros. -/
def nonce12 (nonce : List Byte) : List Byte := (nonce ++ List.replicate 12 0).take 12

/-- A cipher with the interface and the laws of `AuthenticAEAD` that can be
evaluated: the plaintext followed by a tag of the twelve nonce bytes and four copies
of `checksum`.  It stands in for AES-GCM where tampering is run on concrete
inputs. -/
def checksumGCM : AuthenticAEAD where
  weakKey _ := false
  Seal key nonce plaintext :=
    plaintext ++ (nonce12 nonce ++ List.replicate 4 (checksum key nonce plaintext))
  Open key nonce ciphertext :=
    if ciphertext.length < 16 then none
    else
      let plaintext := ciphertext.take (ciphertext.length - 16)
      if ciphertext.drop (ciphertext.length - 16) =
          nonce12 nonce ++ List.replicate 4 (checksum key nonce plaintext) then some plaintext
      else none
  Open_Seal := by
    intro key nonce plaintext _ _
    have h12 : (nonce12 nonce).length = 12 := by simp [nonce12]
    simp [h12]
  Seal_length := by
    intro key nonce plaintext
    have h12 : (nonce12 nonce).length = 12 := by simp [nonce12]
    simp [tagSize, h12]
  Open_short := by
    intro key nonce ciphertext h
    simp only [tagSize] at h
    simp [h]
  Open_sealed := by
    intro key nonce ciphertext plaintext _ _ h
    simp only at h ⊢
    split at h
    · cases h
    · split at h
      · rename_i hlen htag
        simp only [Option.some.injEq] at h
        subst h
        rw [← htag]
        exact List.take_append_drop _ _
      · cases h
  Seal_body := by
    intro key nonce p q _ _ _ h
    simpa using h
  Seal_nonce := by
    intro key nonce nonce' p q _ hn hn' h
    simp only [nonceSize] at hn hn'
    have h12 : (nonce12 nonce).length = 12 := by simp [nonce12]
    have h12' : (nonce12 nonce').length = 12 := by simp [nonce12]
    have hlen := congrArg List.length h
    simp only [List.length_append, List.length_replicate, h12, h12'] at hlen
    have hpq : p.length = q.length := by omega
    have h2 := (List.append_inj h hpq).2
    have h3 := (List.append_inj h2 (by rw [h12, h12'])).1
    have e1 : nonce12 nonce = nonce := by
      unfold nonce12
      rw [List.take_append_of_le_length (by omega), List.take_of_length_le (by omega)]
    have e2 : nonce12 nonce' = nonce' := by
      unfold nonce12
      rw [List.take_append_of_le_length (by omega), List.take_of_length_le (by omega)]
    rw [e1, e2] at h3
    exact h3
  Seal_single := by
    intro key nonce p q l1 x y l2 _ _ _ hxy hp hq
    simp only [List.take_left'] at hp hq
    subst hp
    subst hq
    simp only [List.drop_left']
    intro h
    have h4 := (List.append_inj h rfl).2
    have h5 : checksum key nonce (l1 ++ x :: l2) = checksum key nonce (l1 ++ y :: l2) := by
      have := congrArg (fun l => l.head?) h4
      simpa using this
    unfold checksum Base64.toByte at h5
    have h6 := congrArg Fin.val h5
    simp only [Fin.ofNat, List.map_append, List.map_cons, List.sum_append, List.sum_cons,
      List.length_append, List.length_cons] at h6
    have hx := x.isLt
    have hy := y.isLt
    have hne : x.val ≠ y.val := fun h0 => hxy (Fin.ext h0)
    omega

/-- The blob `Encrypt` returns for the string `"A"` under `checksumGCM` with
`sampleKey` and `sampleNonce`. -/
def sealedBlob : GoString :=
  (Encrypt checksumGCM.toAEAD sampleEncryptor (some sampleNonce) [65]).1

end Crypto

set_option maxRecDepth 100000

/-! ## Theorems -/

namespace Base64

theorem decodeMap_encodeStd (i : Nat) (h : i < 64) : decodeMap (encodeStd i) = some i := by
  interval_cases i <;> rfl

theorem decodeMap_padChar : decodeMap padChar = none := by decide

theorem toByte_val (a : Byte) : toByte a.val = a := by
  apply Fin.ext
  simp [toByte, Fin.ofNat, Nat.mod_eq_of_lt a.isLt]

/-- One full quantum: the four characters of three bytes decode to these bytes. -/
theorem decodeLoop_quantum (a b c : Byte) (rest : List Byte) :
    decodeLoop (EncodeToString (a :: b :: c :: rest)) [] =
      (decodeLoop (EncodeToString rest) []).map (fun out => a :: b :: c :: out) := by
  have ha := a.isLt
  have hb := b.isLt
  have hc := c.isLt
  simp only [EncodeToString]
  simp only [decodeLoop, decodeMap_encodeStd _ (Nat.mod_lt _ (by decide : 0 < 64)),
    List.nil_append, List.cons_append]
  have h1 : ((a.val * 65536 + b.val * 256 + c.val) / 262144 % 64 * 262144 +
      (a.val * 65536 + b.val * 256 + c.val) / 4096 % 64 * 4096 +
      (a.val * 65536 + b.val * 256 + c.val) / 64 % 64 * 64 +
      (a.val * 65536 + b.val * 256 + c.val) % 64) = a.val * 65536 + b.val * 256 + c.val := by
    omega
  rw [h1]
  have e1 : toByte ((a.val * 65536 + b.val * 256 + c.val) / 65536) = a := by
    rw [show (a.val * 65536 + b.val * 256 + c.val) / 65536 = a.val by omega]
    exact toByte_val a
  have e2 : toByte ((a.val * 65536 + b.val * 256 + c.val) / 256) = b := by
    apply Fin.ext; simp [toByte, Fin.ofNat]; omega
  have e3 : toByte (a.val * 65536 + b.val * 256 + c.val) = c := by
    apply Fin.ext; simp [toByte, Fin.ofNat]; omega
  rw [e1, e2, e3]

/-- The padded quantum of two bytes. -/
theorem decodeLoop_two (a b : Byte) : decodeLoop (EncodeToString [a, b]) [] = some [a, b] := by
  have ha := a.isLt
  have hb := b.isLt
  simp only [EncodeToString]
  simp only [decodeLoop, decodeMap_encodeStd _ (Nat.mod_lt _ (by decide : 0 < 64)),
    List.nil_append, List.cons_append, decodeMap_padChar, skipNewlines]
  have p10 : ¬ (padChar.val = 10 ∨ padChar.val = 13) := by decide
  simp only [p10, if_false, ne_eq, not_true_eq_false, if_true]
  have e1 : toByte (((a.val * 65536 + b.val * 256) / 262144 % 64 * 262144 +
      (a.val * 65536 + b.val * 256) / 4096 % 64 * 4096 +
      (a.val * 65536 + b.val * 256) / 64 % 64 * 64) / 65536) = a := by
    apply Fin.ext; simp [toByte, Fin.ofNat]; omega
  have e2 : toByte (((a.val * 65536 + b.val * 256) / 262144 % 64 * 262144 +
      (a.val * 65536 + b.val * 256) / 4096 % 64 * 4096 +
      (a.val * 65536 + b.val * 256) / 64 % 64 * 64) / 256) = b := by
    apply Fin.ext; simp [toByte, Fin.ofNat]; omega
  rw [e1, e2]

/-- The padded quantum of one byte. -/
theorem decodeLoop_one (a : Byte) : decodeLoop (EncodeToString [a]) [] = some [a] := by
  have ha := a.isLt
  simp only [EncodeToString]
  simp only [decodeLoop, decodeMap_encodeStd _ (Nat.mod_lt _ (by decide : 0 < 64)),
    List.nil_append, List.cons_append, decodeMap_padChar, skipNewlines]
  have p10 : ¬ (padChar.val = 10 ∨ padChar.val = 13) := by decide
  simp only [p10, if_false, ne_eq, not_true_eq_false, if_true, and_self]
  have e1 : toByte (((a.val * 65536) / 262144 % 64 * 262144 +
      (a.val * 65536) / 4096 % 64 * 4096) / 65536) = a := by
    apply Fin.ext; simp [toByte, Fin.ofNat]; omega
  rw [e1]
  simp [skipNewlines]

/-- Decoding inverts encoding. -/
theorem DecodeString_EncodeToString (bs : List Byte) :
    DecodeString (EncodeToString bs) = some bs := by
  unfold DecodeString
  induction bs using EncodeToString.induct with
  | case1 a b c rest ih => rw [decodeLoop_quantum, ih]; rfl
  | case2 a b => exact decodeLoop_two a b
  | case3 a => exact decodeLoop_one a
  | case4 => rfl

/-- The encoding is at least four thirds as long as its input. -/
theorem EncodeToString_length (bs : List Byte) :
    bs.length * 4 ≤ (EncodeToString bs).length * 3 := by
  induction bs using EncodeToString.induct with
  | case1 a b c rest ih => simp only [EncodeToString, List.length_cons]; omega
  | case2 a b => simp [EncodeToString]
  | case3 a => simp [EncodeToString]
  | case4 => simp [EncodeToString]

end Base64

namespace Crypto

open Base64

/-- What `Encrypt` returns without an error, and that `Decrypt` inverts it. -/
theorem Decrypt_of_Encrypt (A : AEAD) (e : TokenEncryptor) (rnd : Option (Fin 12 → Byte))
    (s blob : GoString) (h : Encrypt A e rnd s = (blob, none)) :
    s ≠ [] ∧ Decrypt A e blob = (s, none) ∧ s.length < blob.length := by
  unfold Encrypt at h
  by_cases hs : s = []
  · simp [hs] at h
  by_cases hk : validAESKeyLength e.key.length = false
  · simp [hs, hk] at h
  cases rnd with
  | none => simp [hs, hk] at h
  | some f =>
    have hlen : (List.ofFn f).length = 12 := List.length_ofFn f
    have hk1 : validAESKeyLength e.key.length = true := by simpa using hk
    simp only [hs, hk1, if_false, Prod.mk.injEq, and_true] at h
    simp only [Bool.true_eq_false, if_false, Prod.mk.injEq, and_true] at h
    subst h
    have hlen4 := EncodeToString_length (List.ofFn f ++ A.Seal e.key (List.ofFn f) s)
    simp only [List.length_append, hlen, A.Seal_length, tagSize] at hlen4
    have hne : EncodeToString (List.ofFn f ++ A.Seal e.key (List.ofFn f) s) ≠ [] := by
      intro hb
      rw [hb] at hlen4
      simp at hlen4
    refine ⟨hs, ?_, by omega⟩
    unfold Decrypt
    simp only [hne, if_false, DecodeString_EncodeToString, hk1]
    have h12 : ¬ (List.ofFn f ++ A.Seal e.key (List.ofFn f) s).length < nonceSize := by
      simp [nonceSize]
    simp only [h12, if_false, Bool.true_eq_false]
    have ht : (List.ofFn f ++ A.Seal e.key (List.ofFn f) s).take nonceSize = List.ofFn f := by
      rw [show nonceSize = (List.ofFn f).length from hlen.symm]; exact List.take_left' rfl
    have hd : (List.ofFn f ++ A.Seal e.key (List.ofFn f) s).drop nonceSize =
        A.Seal e.key (List.ofFn f) s := by
      rw [show nonceSize = (List.ofFn f).length from hlen.symm]; exact List.drop_left' rfl
    rw [ht, hd, A.Open_Seal _ _ _ hk1 hlen]

/-- C1. For every non-empty string `s`, every 32-byte key `k` and every nonce the
entropy source delivers, `NewTokenEncryptor k` gives an encryptor, `Encrypt s`
returns a blob without an error, and `Decrypt` of that blob under the same key
returns exactly `s` without an error. -/
theorem C1_decrypt_encrypt_roundtrip (A : AEAD) (k : GoString) (f : Fin 12 → Byte)
    (s : GoString) (hk : k.length = 32) (hs : s ≠ []) :
    ∃ e, NewTokenEncryptor k = .ok e ∧ (Encrypt A e (some f) s).2 = none ∧
      Decrypt A e (Encrypt A e (some f) s).1 = (s, none) := by
  refine ⟨{ key := k }, ?_, ?_, ?_⟩
  · simp [NewTokenEncryptor, hk]
  · simp [Encrypt, hs, hk, validAESKeyLength]
  · have h : Encrypt A { key := k } (some f) s =
        ((Encrypt A { key := k } (some f) s).1, none) := by
      simp [Encrypt, hs, hk, validAESKeyLength]
    exact (Decrypt_of_Encrypt A _ _ _ _ h).2.1

/-- C1 at the key `sampleKey`, the nonce `sampleNonce` and the string `"Hi"`, with
`checksumAEAD` as the cipher. -/
theorem C1_decrypt_encrypt_roundtrip_witness :
    sampleKey.length = 32 ∧ ([72, 105] : GoString) ≠ [] ∧
    ∃ e, NewTokenEncryptor sampleKey = .ok e ∧
      (Encrypt checksumAEAD e (some sampleNonce) [72, 105]).2 = none ∧
      Decrypt checksumAEAD e (Encrypt checksumAEAD e (some sampleNonce) [72, 105]).1 =
        ([72, 105], none) :=
  ⟨by decide, by decide,
    C1_decrypt_encrypt_roundtrip checksumAEAD sampleKey sampleNonce [72, 105]
      (by decide) (by decide)⟩


/-- C2 fails as stated.  The blob of `"A"` has 40 characters.  Changing its character
38 from `Q` to `R` touches only the two bits of the last quantum that carry no
data: `Decrypt` of the changed blob succeeds and returns `"A"`.  Changing its
character 0 from `A` to `!` makes `Decrypt` fail with the base64 error, not with the
decryption error. -/
theorem C2_counterexample :
    Encrypt checksumAEAD sampleEncryptor (some sampleNonce) [65] = (sampleBlob, none) ∧
    sampleBlob.length = 40 ∧ sampleBlob.get? 38 = some 81 ∧
    Decrypt checksumAEAD sampleEncryptor (sampleBlob.set 38 82) = ([65], none) ∧
    sampleBlob.get? 0 = some 65 ∧
    Decrypt checksumAEAD sampleEncryptor (sampleBlob.set 0 33) = ([], some .decodeBase64) := by
  decide

end Crypto
namespace TeslaTokenService

/-- The row a read finds is a live row of the user. -/
theorem dbFirst_ok_spec (env : Env) (w : World) (userID : String) (destID : Nat)
    (token : TeslaToken) (h : (dbFirst env w userID destID).1 = .ok token) :
    env.dbFault w.statements = none ∧
    w.tokens.find? (fun r => r.live && r.UserID == userID && (destID == 0 || r.ID == destID))
      = some token ∧
    (dbFirst env w userID destID).2 = { w with statements := w.statements + 1 } := by
  unfold dbFirst at h ⊢
  cases hf : env.dbFault w.statements with
  | some msg => simp [hf] at h
  | none =>
    simp only [hf] at h ⊢
    cases hq : w.tokens.find?
        (fun r => r.live && r.UserID == userID && (destID == 0 || r.ID == destID)) with
    | none => simp [hq] at h
    | some r =>
      simp only [hq] at h ⊢
      simp only [Except.ok.injEq] at h
      subst h
      simp

theorem logTokenUsage_frame (env : Env) (w : World) (userID action ip ua : String)
    (success : Bool) (msg : String) :
    (logTokenUsage env w userID action ip ua success msg).tokens = w.tokens ∧
    (logTokenUsage env w userID action ip ua success msg).requests = w.requests := by
  unfold logTokenUsage dbCreateLog
  cases env.dbFault w.statements <;> simp

/-- The requests `RefreshTeslaToken` sends when the store has no faults and holds a
record of the user: exactly one, the refresh of the stored refresh token. -/
theorem RefreshTeslaToken_requests (env : Env) (w : World) (userID : String)
    (token : TeslaToken) (hdb : ∀ n, env.dbFault n = none)
    (hfind : w.tokens.find? (fun r => r.live && r.UserID == userID && (0 == 0 || r.ID == 0))
      = some token) :
    (RefreshTeslaToken env w userID).2.requests = w.requests ++ [.refresh token.RefreshToken] := by
  unfold RefreshTeslaToken dbFirst httpDo
  simp only [hdb, hfind]
  cases env.upstream w.requests.length (.refresh token.RefreshToken) with
  | transportError msg => simp [(logTokenUsage_frame _ _ _ _ _ _ _ _).2]
  | status code body =>
    by_cases hc : code = 200
    · cases body with
      | none => simp [hc, (logTokenUsage_frame _ _ _ _ _ _ _ _).2]
      | some resp => simp [hc, dbSave, hdb, (logTokenUsage_frame _ _ _ _ _ _ _ _).2]
    · simp [hc, (logTokenUsage_frame _ _ _ _ _ _ _ _).2]

theorem dbFirst_frame (env : Env) (w : World) (userID : String) (destID : Nat) :
    (dbFirst env w userID destID).2 = { w with statements := w.statements + 1 } := by
  unfold dbFirst
  cases env.dbFault w.statements with
  | some msg => rfl
  | none =>
    simp only
    cases w.tokens.find?
      (fun r => r.live && r.UserID == userID && (destID == 0 || r.ID == destID)) <;> rfl

/-- C4 as amended.  Let the store have no faults and `token` be the record
`GetValidToken` reads.  When `now > expires_at - 5 min` (every expired record
included) it sends the refresh request for the stored refresh token upstream, and
only that request.  When `now ≤ expires_at - 5 min`, the boundary instant included,
it sends nothing upstream, leaves both tables as they are and returns the stored
record. -/
theorem C4_refresh_when_strictly_inside_margin (env : Env) (w : World) (userID : String)
    (token : TeslaToken) (hdb : ∀ n, env.dbFault n = none)
    (hrec : (dbFirst env w userID 0).1 = .ok token) :
    (env.now > token.ExpiresAt - 5 * Minute →
      (GetValidToken env w userID).2.requests = w.requests ++ [.refresh token.RefreshToken]) ∧
    (env.now ≤ token.ExpiresAt - 5 * Minute →
      (GetValidToken env w userID).1 = .ok token ∧
      (GetValidToken env w userID).2.requests = w.requests ∧
      (GetValidToken env w userID).2.tokens = w.tokens ∧
      (GetValidToken env w userID).2.logs = w.logs) := by
  obtain ⟨-, hfind, hw⟩ := dbFirst_ok_spec env w userID 0 token hrec
  have h1 : dbFirst env w userID 0 = (.ok token, { w with statements := w.statements + 1 }) :=
    Prod.ext hrec hw
  constructor
  · intro hnow
    have hdue : (token.IsExpiringSoon env.now || token.IsExpired env.now) = true := by
      simp only [TeslaToken.IsExpiringSoon, TeslaToken.IsExpired, Bool.or_eq_true,
        decide_eq_true_eq]
      left; linarith
    unfold GetValidToken
    simp only [h1, hdue, if_true]
    have hreq := RefreshTeslaToken_requests env { w with statements := w.statements + 1 }
      userID token hdb hfind
    cases hr : RefreshTeslaToken env { w with statements := w.statements + 1 } userID with
    | mk res w2 =>
      rw [hr] at hreq
      cases res with
      | some err => simpa using hreq
      | none =>
        simp only
        have hfr := dbFirst_frame env w2 userID token.ID
        cases hd : dbFirst env w2 userID token.ID with
        | mk r w3 =>
          rw [hd] at hfr
          simp only at hfr
          cases r <;> simp [hfr] <;> simpa using hreq
  · intro hnow
    have hdue : (token.IsExpiringSoon env.now || token.IsExpired env.now) = false := by
      simp only [TeslaToken.IsExpiringSoon, TeslaToken.IsExpired, Bool.or_eq_false_iff,
        decide_eq_false_iff_not]
      have : (0 : Int) ≤ 5 * Minute := by decide
      constructor <;> linarith
    unfold GetValidToken
    simp [h1, hdue]


/-- The condition of a read: a live row of the user, with the key `destID` when it
is not zero. -/
theorem find_after_save (rows : List TeslaToken) (userID : String) (token token1 : TeslaToken)
    (destID : Nat) (hd : destID = 0 ∨ destID = token.ID)
    (hfind : rows.find? (fun r => r.live && r.UserID == userID && (0 == 0 || r.ID == 0))
      = some token)
    (hid : token1.ID = token.ID) (huser : token1.UserID = token.UserID)
    (hlive : token1.DeletedAt = token.DeletedAt) :
    (rows.map (fun r => if r.ID = token.ID then token1 else r)).find?
      (fun r => r.live && r.UserID == userID && (destID == 0 || r.ID == destID)) = some token1 := by
  have hp := List.find?_some hfind
  simp only [beq_self_eq_true, Bool.true_or, Bool.and_true, Bool.and_eq_true, beq_iff_eq] at hp
  have hp1 : (token1.live && token1.UserID == userID && (destID == 0 || token1.ID == destID))
      = true := by
    simp only [TeslaToken.live, hlive, huser, hid, Bool.and_eq_true, beq_iff_eq, Bool.or_eq_true]
    refine ⟨⟨hp.1, hp.2⟩, ?_⟩
    rcases hd with h | h
    · left; exact h
    · right; exact h.symm
  induction rows with
  | nil => simp at hfind
  | cons r rest ih =>
    simp only [List.map_cons]
    by_cases hr : r.ID = token.ID
    · simp only [hr, if_true, List.find?_cons, hp1]
    · simp only [hr, if_false]
      rw [List.find?_cons] at hfind
      cases hpr : (r.live && r.UserID == userID && (0 == 0 || r.ID == 0)) with
      | true =>
        rw [hpr] at hfind
        simp only [Option.some.injEq] at hfind
        exact absurd (by rw [hfind]) hr
      | false =>
        rw [hpr] at hfind
        have hpr' : (r.live && r.UserID == userID && (destID == 0 || r.ID == destID)) = false := by
          simp only [beq_self_eq_true, Bool.true_or, Bool.and_true] at hpr
          rcases hd with h | h
          · simp only [h, beq_self_eq_true, Bool.true_or, Bool.and_true]; exact hpr
          · rw [Bool.and_eq_false_iff]; left; exact hpr
        rw [List.find?_cons, hpr']
        exact ih hfind


theorem logTokenUsage_tokens (env : Env) (w : World) (userID action ip ua : String)
    (success : Bool) (msg : String) :
    (logTokenUsage env w userID action ip ua success msg).tokens = w.tokens :=
  (logTokenUsage_frame env w userID action ip ua success msg).1

theorem logTokenUsage_requests (env : Env) (w : World) (userID action ip ua : String)
    (success : Bool) (msg : String) :
    (logTokenUsage env w userID action ip ua success msg).requests = w.requests :=
  (logTokenUsage_frame env w userID action ip ua success msg).2

/-- The two ways `RefreshTeslaToken` ends.  With an error the table of tokens is as
before and at most the one refresh request was sent; without an error the request
for the stored refresh token was sent, the upstream answered it with status 200
and a body that decodes, and the row of the user holds the refreshed token. -/
theorem RefreshTeslaToken_cases (env : Env) (w : World) (userID : String) :
    ((RefreshTeslaToken env w userID).1 ≠ none ∧
      (RefreshTeslaToken env w userID).2.tokens = w.tokens ∧
      ((RefreshTeslaToken env w userID).2.requests = w.requests ∨
        ∃ r, (RefreshTeslaToken env w userID).2.requests = w.requests ++ [.refresh r])) ∨
    (∃ token resp, (RefreshTeslaToken env w userID).1 = none ∧
      w.tokens.find? (fun r => r.live && r.UserID == userID && (0 == 0 || r.ID == 0))
        = some token ∧
      (RefreshTeslaToken env w userID).2.requests =
        w.requests ++ [.refresh token.RefreshToken] ∧
      env.upstream w.requests.length (.refresh token.RefreshToken) = .status 200 (some resp) ∧
      (RefreshTeslaToken env w userID).2.tokens =
        w.tokens.map (fun r => if r.ID = token.ID then token.refreshed resp env.now else r)) := by
  unfold RefreshTeslaToken
  cases h1 : dbFirst env w userID 0 with
  | mk r1 w1 =>
    have hw1 := dbFirst_frame env w userID 0
    rw [h1] at hw1
    simp only at hw1
    cases r1 with
    | error err => left; simp [hw1]
    | ok token =>
      have hfind := (dbFirst_ok_spec env w userID 0 token (by rw [h1])).2.1
      simp only [httpDo, hw1]
      cases hup : env.upstream w.requests.length (.refresh token.RefreshToken) with
      | transportError msg =>
        left
        simp [logTokenUsage_tokens, logTokenUsage_requests]
      | status code body =>
        by_cases hc : code = 200
        · cases body with
          | none => left; simp [hc, logTokenUsage_tokens, logTokenUsage_requests]
          | some resp =>
            simp only [hc, ne_eq, not_true_eq_false, if_false]
            unfold dbSave
            cases hf : env.dbFault (w.statements + 1) with
            | some msg => left; simp [logTokenUsage_tokens, logTokenUsage_requests]
            | none =>
              right
              refine ⟨token, resp, ?_⟩
              subst hc
              have hid : (token.refreshed resp env.now).ID = token.ID := rfl
              simp only [logTokenUsage_tokens, logTokenUsage_requests, hfind, true_and, hid]
              refine ⟨hup, ?_⟩
              apply List.map_congr_left
              intro r _
              by_cases hr : r.ID = token.ID
              · simp [hr, TeslaToken.refreshed]
              · simp [hr]
        · left; simp [hc, logTokenUsage_tokens, logTokenUsage_requests]


/-- C5. Let `token` be the record `GetValidToken` reads and let it be due for refresh.
`GetValidToken` then runs `RefreshTeslaToken` once on the world after the read.  If
that returns an error, `GetValidToken` returns an error (wrapping it) and no record.
If it succeeds, `GetValidToken` returns what the read of the store after the refresh
returns.  Either way at most one request, a refresh, goes upstream, and a record
that is returned is the stored record with the fields of the upstream's answer. -/
theorem C5_due_record_refreshed_once (env : Env) (w w1 : World) (userID : String)
    (token : TeslaToken) (hrec : dbFirst env w userID 0 = (.ok token, w1))
    (hdue : (token.IsExpiringSoon env.now || token.IsExpired env.now) = true) :
    (∀ err w2, RefreshTeslaToken env w1 userID = (some err, w2) →
      GetValidToken env w userID = (.error (.refreshFailed err), w2)) ∧
    (∀ w2, RefreshTeslaToken env w1 userID = (none, w2) →
      GetValidToken env w userID = dbFirst env w2 userID token.ID) ∧
    ((GetValidToken env w userID).2.requests = w.requests ∨
      ∃ r, (GetValidToken env w userID).2.requests = w.requests ++ [.refresh r]) ∧
    (∀ rec, (GetValidToken env w userID).1 = .ok rec →
      ∃ resp, env.upstream w.requests.length (.refresh token.RefreshToken)
          = .status 200 (some resp) ∧
        rec = token.refreshed resp env.now) := by
  have hfind := (dbFirst_ok_spec env w userID 0 token (by rw [hrec])).2.1
  have hw1 : w1 = { w with statements := w.statements + 1 } := by
    have := dbFirst_frame env w userID 0
    rw [hrec] at this
    exact this
  have hA : ∀ err w2, RefreshTeslaToken env w1 userID = (some err, w2) →
      GetValidToken env w userID = (.error (.refreshFailed err), w2) := by
    intro err w2 h
    unfold GetValidToken
    simp only [hrec, hdue, if_true, h]
  have hB : ∀ w2, RefreshTeslaToken env w1 userID = (none, w2) →
      GetValidToken env w userID = dbFirst env w2 userID token.ID := by
    intro w2 h
    unfold GetValidToken
    simp only [hrec, hdue, if_true, h]
    cases hd : dbFirst env w2 userID token.ID with
    | mk r w3 => cases r <;> rfl
  refine ⟨hA, hB, ?_, ?_⟩
  · cases hr : RefreshTeslaToken env w1 userID with
    | mk res w2 =>
      have hc := RefreshTeslaToken_cases env w1 userID
      rw [hr] at hc
      have hreq : w2.requests = w.requests ∨ ∃ r, w2.requests = w.requests ++ [.refresh r] := by
        rcases hc with ⟨-, -, h | h⟩ | ⟨tok, resp, -, -, h, -⟩
        · left; rw [h, hw1]
        · right; rw [hw1] at h; exact h
        · right; rw [hw1] at h; exact ⟨_, h⟩
      cases res with
      | some err => rw [hA err w2 hr]; exact hreq
      | none =>
        rw [hB w2 hr, dbFirst_frame]
        exact hreq
  · intro rec hok
    cases hr : RefreshTeslaToken env w1 userID with
    | mk res w2 =>
      cases res with
      | some err => rw [hA err w2 hr] at hok; cases hok
      | none =>
        rw [hB w2 hr] at hok
        have hc := RefreshTeslaToken_cases env w1 userID
        rw [hr] at hc
        rcases hc with ⟨h, -⟩ | ⟨tok, resp, -, hf, -, hup, htok⟩
        · exact absurd rfl h
        · rw [hw1] at hf hup
          simp only at hf hup
          rw [hfind] at hf
          cases hf
          refine ⟨resp, hup, ?_⟩
          have h2 := (dbFirst_ok_spec env w2 userID token.ID rec hok).2.1
          rw [htok, hw1] at h2
          simp only at h2
          rw [find_after_save w.tokens userID token (token.refreshed resp env.now) token.ID
            (Or.inr rfl) hfind rfl rfl rfl] at h2
          cases h2
          rfl

/-- A refresh that the upstream answers with status 200 and a body that decodes
succeeds when the store has no faults. -/
theorem RefreshTeslaToken_ok (env : Env) (w : World) (userID : String) (token : TeslaToken)
    (resp : TeslaTokenRefreshResponse) (hdb : ∀ n, env.dbFault n = none)
    (hfind : w.tokens.find? (fun r => r.live && r.UserID == userID && (0 == 0 || r.ID == 0))
      = some token)
    (hup : env.upstream w.requests.length (.refresh token.RefreshToken)
      = .status 200 (some resp)) :
    (RefreshTeslaToken env w userID).1 = none := by
  unfold RefreshTeslaToken dbFirst httpDo
  simp only [hdb, hfind, hup]
  simp [dbSave, hdb]

/-- C9. Let the store have no faults, `token` be the stored record and the upstream
answer the refresh with status 200 and a body that decodes to `resp`.  Then
`RefreshTeslaToken` succeeds, and the record stored afterwards has the refresh
token of before when `resp` carries none (an empty one), and the refresh token of
`resp` when that is not empty. -/
theorem C9_refresh_token_kept_or_replaced (env : Env) (w : World) (userID : String)
    (token : TeslaToken) (resp : TeslaTokenRefreshResponse)
    (hdb : ∀ n, env.dbFault n = none)
    (hrec : (dbFirst env w userID 0).1 = .ok token)
    (hup : env.upstream w.requests.length (.refresh token.RefreshToken)
      = .status 200 (some resp)) :
    (RefreshTeslaToken env w userID).1 = none ∧
    ∃ rec, (dbFirst env (RefreshTeslaToken env w userID).2 userID 0).1 = .ok rec ∧
      (resp.RefreshToken = [] → rec.RefreshToken = token.RefreshToken) ∧
      (resp.RefreshToken ≠ [] → rec.RefreshToken = resp.RefreshToken) := by
  have hfind := (dbFirst_ok_spec env w userID 0 token hrec).2.1
  have hok := RefreshTeslaToken_ok env w userID token resp hdb hfind hup
  refine ⟨hok, token.refreshed resp env.now, ?_, ?_, ?_⟩
  · rcases RefreshTeslaToken_cases env w userID with ⟨h, -⟩ | ⟨tok, resp', -, hf, -, hup', htok⟩
    · exact absurd hok h
    · rw [hfind] at hf
      cases hf
      rw [hup] at hup'
      cases hup'
      unfold dbFirst
      simp only [hdb, htok]
      rw [find_after_save w.tokens userID token (token.refreshed resp env.now) 0
        (Or.inl rfl) hfind rfl rfl rfl]
  · intro h; simp [TeslaToken.refreshed, h]
  · intro h; simp [TeslaToken.refreshed, h]

/-- C10, what the code does.  Let the store have no faults, `token` be the stored
record and the upstream answer the refresh with a transport failure or a status
other than 200.  `RefreshTeslaToken` returns an error (carrying the status code),
leaves the table of tokens as it is, sends exactly one request and appends exactly
one audit entry with the action `refresh`; but the entry is stored with
`success = true`, not `false`: the flag `false` that `logTokenUsage` passes is the
zero value of a field tagged `default:true`. -/
theorem C10_failed_refresh_logged_with_success_true (env : Env) (w : World) (userID : String)
    (token : TeslaToken) (answer : Response)
    (hdb : ∀ n, env.dbFault n = none)
    (hrec : (dbFirst env w userID 0).1 = .ok token)
    (hup : env.upstream w.requests.length (.refresh token.RefreshToken) = answer)
    (hfail : ∀ body, answer ≠ .status 200 body) :
    (RefreshTeslaToken env w userID).1 =
      some (match answer with
        | .transportError msg => .http msg
        | .status code _ => .refreshStatus code) ∧
    (RefreshTeslaToken env w userID).2.tokens = w.tokens ∧
    (RefreshTeslaToken env w userID).2.requests = w.requests ++ [.refresh token.RefreshToken] ∧
    ∃ entry, (RefreshTeslaToken env w userID).2.logs = w.logs ++ [entry] ∧
      entry.UserID = userID ∧ entry.Action = "refresh" ∧ entry.Success = true := by
  have hfind := (dbFirst_ok_spec env w userID 0 token hrec).2.1
  unfold RefreshTeslaToken dbFirst httpDo
  simp only [hdb, hfind, hup]
  cases answer with
  | transportError msg => simp [logTokenUsage, dbCreateLog, hdb]
  | status code body =>
    have hc : code ≠ 200 := by
      intro h; exact hfail body (by rw [h])
    simp [hc, logTokenUsage, dbCreateLog, hdb]


/-- C4 fails at the boundary.  The stored record expires at `2000 + 5 min` and
`GetValidToken` runs at the instant `2000`, which is `expires_at - 5 min`: it sends
no request upstream and returns the stored record as it is. -/
theorem C4_counterexample :
    (sampleWorld 1000 (2000 + 5 * Minute)).tokens = [sampleRow 1000 (2000 + 5 * Minute)] ∧
    (steadyEnv 2000 200 (sampleRefreshAnswer [])).now =
      (sampleRow 1000 (2000 + 5 * Minute)).ExpiresAt - 5 * Minute ∧
    (GetValidToken (steadyEnv 2000 200 (sampleRefreshAnswer []))
      (sampleWorld 1000 (2000 + 5 * Minute)) "u1").1 =
        .ok (sampleRow 1000 (2000 + 5 * Minute)) ∧
    (GetValidToken (steadyEnv 2000 200 (sampleRefreshAnswer []))
      (sampleWorld 1000 (2000 + 5 * Minute)) "u1").2.requests = [] := by
  decide

/-- C4 as amended, at a record inside the margin (`expires_at = 5000` and
`now = 2000`, in nanoseconds). -/
theorem C4_refresh_when_strictly_inside_margin_witness :
    (∀ n, (steadyEnv 2000 200 (sampleRefreshAnswer [])).dbFault n = none) ∧
    (dbFirst (steadyEnv 2000 200 (sampleRefreshAnswer [])) (sampleWorld 1000 5000) "u1" 0).1 =
      .ok (sampleRow 1000 5000) ∧
    ((steadyEnv 2000 200 (sampleRefreshAnswer [])).now >
        (sampleRow 1000 5000).ExpiresAt - 5 * Minute →
      (GetValidToken (steadyEnv 2000 200 (sampleRefreshAnswer []))
        (sampleWorld 1000 5000) "u1").2.requests =
        (sampleWorld 1000 5000).requests ++ [.refresh (sampleRow 1000 5000).RefreshToken]) ∧
    ((steadyEnv 2000 200 (sampleRefreshAnswer [])).now ≤
        (sampleRow 1000 5000).ExpiresAt - 5 * Minute →
      (GetValidToken (steadyEnv 2000 200 (sampleRefreshAnswer []))
        (sampleWorld 1000 5000) "u1").1 = .ok (sampleRow 1000 5000) ∧
      (GetValidToken (steadyEnv 2000 200 (sampleRefreshAnswer []))
        (sampleWorld 1000 5000) "u1").2.requests = (sampleWorld 1000 5000).requests ∧
      (GetValidToken (steadyEnv 2000 200 (sampleRefreshAnswer []))
        (sampleWorld 1000 5000) "u1").2.tokens = (sampleWorld 1000 5000).tokens ∧
      (GetValidToken (steadyEnv 2000 200 (sampleRefreshAnswer []))
        (sampleWorld 1000 5000) "u1").2.logs = (sampleWorld 1000 5000).logs) :=
  ⟨fun _ => rfl, by decide,
    C4_refresh_when_strictly_inside_margin (steadyEnv 2000 200 (sampleRefreshAnswer []))
      (sampleWorld 1000 5000) "u1" (sampleRow 1000 5000) (fun _ => rfl) (by decide)⟩

/-- C5 at a record inside the margin whose refresh the upstream grants. -/
theorem C5_due_record_refreshed_once_witness :
    dbFirst (steadyEnv 2000 200 (sampleRefreshAnswer [])) (sampleWorld 1000 5000) "u1" 0 =
      (.ok (sampleRow 1000 5000), { sampleWorld 1000 5000 with statements := 4 }) ∧
    ((sampleRow 1000 5000).IsExpiringSoon (steadyEnv 2000 200 (sampleRefreshAnswer [])).now ||
      (sampleRow 1000 5000).IsExpired (steadyEnv 2000 200 (sampleRefreshAnswer [])).now) = true ∧
    ((GetValidToken (steadyEnv 2000 200 (sampleRefreshAnswer []))
        (sampleWorld 1000 5000) "u1").2.requests = (sampleWorld 1000 5000).requests ∨
      ∃ r, (GetValidToken (steadyEnv 2000 200 (sampleRefreshAnswer []))
        (sampleWorld 1000 5000) "u1").2.requests =
          (sampleWorld 1000 5000).requests ++ [.refresh r]) ∧
    (∀ rec, (GetValidToken (steadyEnv 2000 200 (sampleRefreshAnswer []))
        (sampleWorld 1000 5000) "u1").1 = .ok rec →
      ∃ resp, (steadyEnv 2000 200 (sampleRefreshAnswer [])).upstream
          (sampleWorld 1000 5000).requests.length
          (.refresh (sampleRow 1000 5000).RefreshToken) = .status 200 (some resp) ∧
        rec = (sampleRow 1000 5000).refreshed resp
          (steadyEnv 2000 200 (sampleRefreshAnswer [])).now) :=
  ⟨by decide, by decide,
    (C5_due_record_refreshed_once (steadyEnv 2000 200 (sampleRefreshAnswer []))
      (sampleWorld 1000 5000) { sampleWorld 1000 5000 with statements := 4 } "u1"
      (sampleRow 1000 5000) (by decide) (by decide)).2.2⟩

/-- C9 at an answer without a refresh token: the stored refresh token stays `"r"`. -/
theorem C9_refresh_token_kept_or_replaced_witness :
    (∀ n, (steadyEnv 2000 200 (sampleRefreshAnswer [])).dbFault n = none) ∧
    (dbFirst (steadyEnv 2000 200 (sampleRefreshAnswer [])) (sampleWorld 1000 5000) "u1" 0).1 =
      .ok (sampleRow 1000 5000) ∧
    (RefreshTeslaToken (steadyEnv 2000 200 (sampleRefreshAnswer []))
      (sampleWorld 1000 5000) "u1").1 = none ∧
    ∃ rec, (dbFirst (steadyEnv 2000 200 (sampleRefreshAnswer []))
        (RefreshTeslaToken (steadyEnv 2000 200 (sampleRefreshAnswer []))
          (sampleWorld 1000 5000) "u1").2 "u1" 0).1 = .ok rec ∧
      (([] : GoString) = [] → rec.RefreshToken = (sampleRow 1000 5000).RefreshToken) ∧
      (([] : GoString) ≠ [] → rec.RefreshToken = []) :=
  ⟨fun _ => rfl, by decide,
    C9_refresh_token_kept_or_replaced (steadyEnv 2000 200 (sampleRefreshAnswer []))
      (sampleWorld 1000 5000) "u1" (sampleRow 1000 5000)
      { AccessToken := [98], RefreshToken := [], ExpiresIn := 3600, TokenType := "Bearer" }
      (fun _ => rfl) (by decide) (by decide)⟩

end TeslaTokenService

namespace ImplementationExample
open Crypto

theorem logAudit_frame (env : Env) (w : World) (accountID action : String) (success : Bool)
    (msg : String) :
    (logAudit env w accountID action success msg).tokens = w.tokens ∧
    (logAudit env w accountID action success msg).requests = w.requests := by
  unfold logAudit
  cases env.dbFault w.statements <;> simp

/-- A successful `encrypt` is a successful `Encrypt` and touches neither table. -/
theorem encrypt_ok (s : TokenService) (env : Env) (w w1 : World) (plaintext blob : GoString)
    (h : encrypt s env w plaintext = ((blob, none), w1)) :
    (∃ rnd, Encrypt s.aead s.encryptor rnd plaintext = (blob, none)) ∧
    w1.tokens = w.tokens ∧ w1.statements = w.statements ∧ w1.requests = w.requests := by
  unfold encrypt at h
  split at h
  · simp only [Prod.mk.injEq] at h
    obtain ⟨h1, h2⟩ := h
    subst h2
    exact ⟨⟨none, h1⟩, rfl, rfl, rfl⟩
  · simp only [Prod.mk.injEq] at h
    obtain ⟨h1, h2⟩ := h
    subst h2
    exact ⟨⟨_, h1⟩, rfl, rfl, rfl⟩

/-- What a row holds when its token fields are the cipher blobs of a request. -/
theorem blob_facts (s : TokenService) (rnd : Option (Fin 12 → Byte)) (plaintext blob : GoString)
    (h : Encrypt s.aead s.encryptor rnd plaintext = (blob, none)) :
    Decrypt s.aead s.encryptor blob = (plaintext, none) ∧ blob ≠ plaintext := by
  obtain ⟨-, hd, hl⟩ := Decrypt_of_Encrypt s.aead s.encryptor rnd plaintext blob h
  refine ⟨hd, ?_⟩
  intro he
  rw [he] at hl
  exact Nat.lt_irrefl _ hl

/-- C3 as amended, for the implementation-example.  After every successful
`SaveToken` the table holds a row of the account whose `access_token` and
`refresh_token` are blobs that `Decrypt` maps back to the request's tokens and that
differ from these tokens, and every row of the table that was not there before the
call is such a row. -/
theorem C3_example_save_stores_cipher_blobs (s : TokenService) (env : Env) (w w' : World)
    (req : TokenRequest) (resp : TokenResponse)
    (h : SaveToken s env w req = (.ok resp, w')) :
    (∃ row ∈ w'.tokens, row.AccountID = req.AccountID ∧
      Decrypt s.aead s.encryptor row.AccessToken = (req.AccessToken, none) ∧
      Decrypt s.aead s.encryptor row.RefreshToken = (req.RefreshToken, none) ∧
      row.AccessToken ≠ req.AccessToken ∧ row.RefreshToken ≠ req.RefreshToken) ∧
    (∀ row ∈ w'.tokens, row ∈ w.tokens ∨
      (Decrypt s.aead s.encryptor row.AccessToken = (req.AccessToken, none) ∧
       Decrypt s.aead s.encryptor row.RefreshToken = (req.RefreshToken, none) ∧
       row.AccessToken ≠ req.AccessToken ∧ row.RefreshToken ≠ req.RefreshToken)) := by
  unfold SaveToken at h
  cases h1 : encrypt s env w req.AccessToken with
  | mk r1 w1 =>
    obtain ⟨blobA, e1⟩ := r1
    cases e1 with
    | some err => simp [h1] at h
    | none =>
      obtain ⟨⟨rndA, hencA⟩, hw1, -, -⟩ := encrypt_ok s env w w1 _ _ h1
      obtain ⟨hdA, hneA⟩ := blob_facts s rndA _ _ hencA
      simp only [h1] at h
      cases h2 : encrypt s env w1 req.RefreshToken with
      | mk r2 w2 =>
        obtain ⟨blobR, e2⟩ := r2
        cases e2 with
        | some err => simp [h2] at h
        | none =>
          obtain ⟨⟨rndR, hencR⟩, hw2, -, -⟩ := encrypt_ok s env w1 w2 _ _ h2
          obtain ⟨hdR, hneR⟩ := blob_facts s rndR _ _ hencR
          simp only [h2] at h
          have htok2 : w2.tokens = w.tokens := by rw [hw2, hw1]
          unfold dbFirst at h
          cases hf : env.dbFault w2.statements with
          | some msg => simp [hf] at h
          | none =>
            simp only [hf] at h
            cases hq : w2.tokens.find? (fun r => r.AccountID == req.AccountID) with
            | none =>
              simp only [hq] at h
              unfold dbCreate at h
              simp only at h
              cases hf2 : env.dbFault (w2.statements + 1) with
              | some msg => simp [hf2] at h
              | none =>
                simp only [hf2] at h
                by_cases hany : (w2.tokens.any fun r => r.AccountID == req.AccountID) = true
                · rw [if_pos hany] at h
                  simp at h
                · rw [if_neg hany] at h
                  simp only [Prod.mk.injEq] at h
                  obtain ⟨-, hw'⟩ := h
                  subst hw'
                  simp only [(logAudit_frame _ _ _ _ _ _).1, htok2]
                  constructor
                  · exact ⟨_, List.mem_append_right _ (List.mem_singleton_self _), rfl,
                      hdA, hdR, hneA, hneR⟩
                  · intro row hrow
                    rcases List.mem_append.mp hrow with hm | hm
                    · exact Or.inl hm
                    · rw [List.mem_singleton] at hm
                      subst hm
                      exact Or.inr ⟨hdA, hdR, hneA, hneR⟩
            | some token =>
              simp only [hq] at h
              unfold dbSave at h
              simp only at h
              cases hf2 : env.dbFault (w2.statements + 1) with
              | some msg => simp [hf2] at h
              | none =>
                simp only [hf2, Prod.mk.injEq] at h
                obtain ⟨-, hw'⟩ := h
                subst hw'
                have hmem : token ∈ w.tokens := by
                  rw [← htok2]; exact List.mem_of_find?_eq_some hq
                have hacc : token.AccountID = req.AccountID := by
                  have := List.find?_some hq
                  simpa using this
                simp only [(logAudit_frame _ _ _ _ _ _).1, htok2]
                constructor
                · refine ⟨_, List.mem_map_of_mem _ hmem, ?_⟩
                  simp only [if_true]
                  exact ⟨hacc, hdA, hdR, hneA, hneR⟩
                · intro row hrow
                  obtain ⟨r, hr, hrr⟩ := List.mem_map.mp hrow
                  by_cases hid : r.ID = token.ID
                  · simp only [hid, if_true] at hrr
                    subst hrr
                    exact Or.inr ⟨hdA, hdR, hneA, hneR⟩
                  · simp only [hid, if_false] at hrr
                    subst hrr
                    exact Or.inl hr


/-- C3 as amended, at the first save of `sampleRequest` into an empty store. -/
theorem C3_example_save_stores_cipher_blobs_witness :
    SaveToken sampleService (steadyEnv 1000 200) emptyWorld sampleRequest =
      (.ok { AccountID := "acc1", AccessToken := [], RefreshToken := [],
             ExpiresAt := 1000 + 3600 * Second, TokenType := "Bearer" }, sampleWorld 1000) ∧
    (sampleWorld 1000).tokens = [sampleRow 1000] ∧
    ((∃ row ∈ (sampleWorld 1000).tokens, row.AccountID = sampleRequest.AccountID ∧
      Decrypt sampleService.aead sampleService.encryptor row.AccessToken =
        (sampleRequest.AccessToken, none) ∧
      Decrypt sampleService.aead sampleService.encryptor row.RefreshToken =
        (sampleRequest.RefreshToken, none) ∧
      row.AccessToken ≠ sampleRequest.AccessToken ∧
      row.RefreshToken ≠ sampleRequest.RefreshToken) ∧
    (∀ row ∈ (sampleWorld 1000).tokens, row ∈ emptyWorld.tokens ∨
      (Decrypt sampleService.aead sampleService.encryptor row.AccessToken =
        (sampleRequest.AccessToken, none) ∧
       Decrypt sampleService.aead sampleService.encryptor row.RefreshToken =
        (sampleRequest.RefreshToken, none) ∧
       row.AccessToken ≠ sampleRequest.AccessToken ∧
       row.RefreshToken ≠ sampleRequest.RefreshToken))) :=
  ⟨by decide, by decide,
    C3_example_save_stores_cipher_blobs sampleService (steadyEnv 1000 200) emptyWorld
      (sampleWorld 1000) sampleRequest
      { AccountID := "acc1", AccessToken := [], RefreshToken := [],
        ExpiresAt := 1000 + 3600 * Second, TokenType := "Bearer" } (by decide)⟩

/-- C8. In `ValidateToken` of the implementation-example, for every stored record
whose access token decrypts and every presented access token that differs from
the decrypted one, the response is `valid = false` and no request is sent upstream,
whether or not the record is expired. -/
theorem C8_mismatch_invalid_without_upstream_call (s : TokenService) (env : Env) (w : World)
    (req : ValidateRequest) (token : Token) (stored : GoString)
    (hrec : (dbFirst env w req.AccountID).1 = .ok token)
    (hdec : Decrypt s.aead s.encryptor token.AccessToken = (stored, none))
    (hne : req.AccessToken ≠ stored) :
    (ValidateToken s env w req).1 =
      .ok { Valid := false, ExpiresAt := 0, RemainingSeconds := 0 } ∧
    (ValidateToken s env w req).2.requests = w.requests := by
  unfold ValidateToken
  unfold dbFirst at hrec ⊢
  cases hf : env.dbFault w.statements with
  | some msg => simp [hf] at hrec
  | none =>
    simp only [hf] at hrec ⊢
    cases hq : w.tokens.find? (fun r => r.AccountID == req.AccountID) with
    | none => simp [hq] at hrec
    | some r =>
      simp only [hq, Except.ok.injEq] at hrec ⊢
      subst hrec
      simp only [hdec]
      have hne' : stored ≠ req.AccessToken := fun h => hne h.symm
      simp only [ne_eq, hne', not_false_eq_true, if_true, (logAudit_frame _ _ _ _ _ _).2,
        and_self]

/-- C8 at the record of `sampleRequest` (access token `"a"`) and the presented token
`"x"`. -/
theorem C8_mismatch_invalid_without_upstream_call_witness :
    (dbFirst (steadyEnv 2000 200) (sampleWorld 1000) "acc1").1 = .ok (sampleRow 1000) ∧
    Decrypt sampleService.aead sampleService.encryptor (sampleRow 1000).AccessToken =
      ([97], none) ∧
    ([120] : GoString) ≠ [97] ∧
    (ValidateToken sampleService (steadyEnv 2000 200) (sampleWorld 1000)
        { AccountID := "acc1", AccessToken := [120] }).1 =
      .ok { Valid := false, ExpiresAt := 0, RemainingSeconds := 0 } ∧
    (ValidateToken sampleService (steadyEnv 2000 200) (sampleWorld 1000)
        { AccountID := "acc1", AccessToken := [120] }).2.requests = (sampleWorld 1000).requests :=
  ⟨by decide, by decide, by decide,
    C8_mismatch_invalid_without_upstream_call sampleService (steadyEnv 2000 200)
      (sampleWorld 1000) { AccountID := "acc1", AccessToken := [120] } (sampleRow 1000) [97]
      (by decide) (by decide) (by decide)⟩

end ImplementationExample

namespace TeslaTokenService

/-- C3 fails for `tesla-token-service`, which has no cipher.  `SaveToken` of the
access token `"a"` and the refresh token `"r"` into an empty store succeeds and
the row it writes holds exactly these strings; a successful `RefreshTeslaToken`
then writes the upstream's `"b"` and `"s"` as they came. -/
theorem C3_counterexample :
    (SaveToken (steadyEnv 1000 200 (.status 401 none)) emptyWorld (sampleToken 5000)).1 = none ∧
    (SaveToken (steadyEnv 1000 200 (.status 401 none)) emptyWorld (sampleToken 5000)).2.tokens =
      [sampleRow 1000 5000] ∧
    (sampleRow 1000 5000).AccessToken = (sampleToken 5000).AccessToken ∧
    (sampleRow 1000 5000).RefreshToken = (sampleToken 5000).RefreshToken ∧
    (RefreshTeslaToken (steadyEnv 2000 200 (sampleRefreshAnswer [115])) (sampleWorld 1000 5000)
      "u1").1 = none ∧
    (RefreshTeslaToken (steadyEnv 2000 200 (sampleRefreshAnswer [115])) (sampleWorld 1000 5000)
      "u1").2.tokens.map (fun r => (r.AccessToken, r.RefreshToken)) = [([98], [115])] := by
  decide


theorem storedRecord_eq (w : World) (userID : String) :
    storedRecord w userID =
      w.tokens.find? (fun r => r.live && r.UserID == userID && (0 == 0 || r.ID == 0)) := by
  unfold storedRecord
  congr 1
  funext r
  simp

/-- The requests `probeStep` sends for the stored record, the flag it returns, and,
where its last request is a probe, the record it leaves in the store. -/
theorem probeStep_trace (env : Env) (w : World) (userID : String) (token : TeslaToken)
    (hstored : w.tokens.find? (fun r => r.live && r.UserID == userID && (0 == 0 || r.ID == 0))
      = some token) :
    ((ValidateTeslaToken.probeStep env w userID token).2.requests = w.requests ∧
      returnsValid (ValidateTeslaToken.probeStep env w userID token).1 = false) ∨
    ((ValidateTeslaToken.probeStep env w userID token).2.requests =
        w.requests ++ [.probe token.AccessToken] ∧
      returnsValid (ValidateTeslaToken.probeStep env w userID token).1 =
        (env.upstream w.requests.length (.probe token.AccessToken)).isOK ∧
      storedRecord (ValidateTeslaToken.probeStep env w userID token).2 userID = some token) ∨
    (∃ r, (ValidateTeslaToken.probeStep env w userID token).2.requests =
        w.requests ++ [.probe token.AccessToken, .refresh r] ∧
      (env.upstream w.requests.length (.probe token.AccessToken)).isOK = false ∧
      returnsValid (ValidateTeslaToken.probeStep env w userID token).1 = false) ∨
    (∃ r resp, (ValidateTeslaToken.probeStep env w userID token).2.requests =
        w.requests ++ [.probe token.AccessToken, .refresh r, .probe resp.AccessToken] ∧
      (env.upstream w.requests.length (.probe token.AccessToken)).isOK = false ∧
      env.upstream (w.requests.length + 1) (.refresh r) = .status 200 (some resp) ∧
      returnsValid (ValidateTeslaToken.probeStep env w userID token).1 =
        (env.upstream (w.requests.length + 2) (.probe resp.AccessToken)).isOK ∧
      storedRecord (ValidateTeslaToken.probeStep env w userID token).2 userID =
        some (token.refreshed resp env.now)) := by
  have hst' : w.tokens.find? (fun r => r.live && r.UserID == userID) = some token := by
    have h := storedRecord_eq w userID
    unfold storedRecord at h
    rw [h]
    exact hstored
  generalize hres : ValidateTeslaToken.probeStep env w userID token = res
  unfold ValidateTeslaToken.probeStep validateTokenWithTeslaAPI at hres
  cases hnr : env.newRequestError with
  | some msg =>
    left
    simp only [hnr] at hres
    subst hres
    simp [logTokenUsage_requests, returnsValid, invalidResponse]
  | none =>
    simp only [hnr, httpDo] at hres
    cases hup : env.upstream w.requests.length (.probe token.AccessToken) with
    | transportError msg =>
      right; left
      simp only [hup] at hres
      subst hres
      simp [logTokenUsage_requests, logTokenUsage_tokens, storedRecord, hst',
        returnsValid, invalidResponse, Response.isOK]
    | status code body =>
      simp only [hup] at hres
      by_cases hc : code = 200
      · right; left
        simp only [hc, decide_True] at hres
        subst hres
        simp [hc, logTokenUsage_requests, logTokenUsage_tokens, storedRecord, hst',
          returnsValid, Response.isOK]
      · simp only [hc, decide_False] at hres
        have hcases := RefreshTeslaToken_cases env
          { w with requests := w.requests ++ [.probe token.AccessToken] } userID
        cases hr : RefreshTeslaToken env
            { w with requests := w.requests ++ [.probe token.AccessToken] } userID with
        | mk e w2 =>
          rw [hr] at hcases
          simp only [hr] at hres
          cases e with
          | some err =>
            simp only at hres
            subst hres
            rcases hcases with ⟨-, htok, hreq | ⟨r, hreq⟩⟩ | ⟨_, _, habs, _⟩
            · right; left
              simp only at hreq htok
              simp [logTokenUsage_requests, logTokenUsage_tokens, storedRecord, htok,
                hst', hreq, returnsValid, invalidResponse, Response.isOK, hc]
            · right; right; left
              simp only at hreq
              refine ⟨r, ?_, ?_, ?_⟩
              · simp [logTokenUsage_requests, hreq]
              · simp [Response.isOK, hc]
              · simp [returnsValid, invalidResponse]
            · cases habs
          | none =>
            simp only at hres
            rcases hcases with ⟨habs, _⟩ | ⟨tok, resp, -, hf, hreq, hup2, htok⟩
            · exact absurd rfl habs
            · simp only at hf hreq hup2 htok
              rw [hstored] at hf
              cases hf
              have hfr := dbFirst_frame env w2 userID token.ID
              cases hd : dbFirst env w2 userID token.ID with
              | mk r3 w3 =>
                rw [hd] at hfr
                simp only at hfr
                simp only [hd] at hres
                cases r3 with
                | error e3 =>
                  simp only at hres
                  subst hres
                  right; right; left
                  refine ⟨token.RefreshToken, ?_, ?_, ?_⟩
                  · simp [logTokenUsage_requests, hfr, hreq]
                  · simp [Response.isOK, hc]
                  · simp [returnsValid, invalidResponse]
                | ok token1 =>
                  have h2 := (dbFirst_ok_spec env w2 userID token.ID token1 (by rw [hd])).2.1
                  rw [htok, find_after_save w.tokens userID token (token.refreshed resp env.now)
                    token.ID (Or.inr rfl) hstored rfl rfl rfl] at h2
                  cases h2
                  have hlen : w3.requests.length = w.requests.length + 2 := by
                    rw [hfr]; simp [hreq]
                  have hacc : (token.refreshed resp env.now).AccessToken = resp.AccessToken := rfl
                  have hfin : w3.tokens.find?
                      (fun r => r.live && r.UserID == userID && (0 == 0 || r.ID == 0)) =
                      some (token.refreshed resp env.now) := by
                    rw [hfr]
                    simp only [htok]
                    exact find_after_save w.tokens userID token (token.refreshed resp env.now)
                      0 (Or.inl rfl) hstored rfl rfl rfl
                  right; right; right
                  refine ⟨token.RefreshToken, resp, ?_, ?_, ?_, ?_, ?_⟩
                  · subst hres
                    simp only [hacc, hlen]
                    cases env.upstream (w.requests.length + 2) (.probe resp.AccessToken) with
                    | transportError msg => simp [logTokenUsage_requests, hfr, hreq]
                    | status c2 b2 =>
                      by_cases hc2 : c2 = 200
                      · simp [hc2, logTokenUsage_requests, hfr, hreq]
                      · simp [hc2, logTokenUsage_requests, hfr, hreq]
                  · simp [Response.isOK, hc]
                  · simpa using hup2
                  · subst hres
                    simp only [hacc, hlen]
                    cases env.upstream (w.requests.length + 2) (.probe resp.AccessToken) with
                    | transportError msg => simp [returnsValid, invalidResponse, Response.isOK]
                    | status c2 b2 =>
                      by_cases hc2 : c2 = 200
                      · simp [hc2, returnsValid, Response.isOK]
                      · simp [hc2, returnsValid, invalidResponse, Response.isOK]
                  · subst hres
                    rw [storedRecord_eq]
                    simp only [hacc, hlen]
                    cases env.upstream (w.requests.length + 2) (.probe resp.AccessToken) with
                    | transportError msg => simpa [logTokenUsage_tokens] using hfin
                    | status c2 b2 =>
                      by_cases hc2 : c2 = 200
                      · simpa [hc2, logTokenUsage_tokens] using hfin
                      · simpa [hc2, logTokenUsage_tokens] using hfin


/-- How `ValidateTeslaToken` reaches its step 3: not at all (then it sent at most
one refresh request and does not return `valid = true`), with the record it read
when that record is not expired, or after one successful refresh with the record
that refresh stored. -/
theorem ValidateTeslaToken_trace (env : Env) (w : World) (userID : String) :
    (((ValidateTeslaToken env w userID).2.requests = w.requests ∨
        ∃ r, (ValidateTeslaToken env w userID).2.requests = w.requests ++ [.refresh r]) ∧
      returnsValid (ValidateTeslaToken env w userID).1 = false) ∨
    (∃ rec w1, (dbFirst env w userID 0).1 = .ok rec ∧ rec.IsExpired env.now = false ∧
      w1.requests = w.requests ∧
      w1.tokens.find? (fun r => r.live && r.UserID == userID && (0 == 0 || r.ID == 0))
        = some rec ∧
      ValidateTeslaToken env w userID = ValidateTeslaToken.probeStep env w1 userID rec) ∨
    (∃ rec r resp w3 token1, (dbFirst env w userID 0).1 = .ok rec ∧
      rec.IsExpired env.now = true ∧
      env.upstream w.requests.length (.refresh r) = .status 200 (some resp) ∧
      w3.requests = w.requests ++ [.refresh r] ∧
      token1.AccessToken = resp.AccessToken ∧
      w3.tokens.find? (fun r => r.live && r.UserID == userID && (0 == 0 || r.ID == 0))
        = some token1 ∧
      ValidateTeslaToken env w userID = ValidateTeslaToken.probeStep env w3 userID token1) := by
  generalize hres : ValidateTeslaToken env w userID = res
  unfold ValidateTeslaToken at hres
  have hfr := dbFirst_frame env w userID 0
  cases h1 : dbFirst env w userID 0 with
  | mk r1 w1 =>
    rw [h1] at hfr
    simp only at hfr
    simp only [h1] at hres
    cases r1 with
    | error err =>
      left
      cases err <;> simp only at hres <;> subst hres <;>
        simp [hfr, logTokenUsage_requests, returnsValid, invalidResponse]
    | ok token =>
      have hfind := (dbFirst_ok_spec env w userID 0 token (by rw [h1])).2.1
      simp only at hres
      cases hexp : token.IsExpired env.now with
      | false =>
        right; left
        simp only [hexp, Bool.false_eq_true, if_false] at hres
        refine ⟨token, w1, rfl, hexp, ?_, ?_, hres.symm⟩
        · rw [hfr]
        · rw [hfr]; exact hfind
      | true =>
        simp only [hexp, if_true] at hres
        have hcases := RefreshTeslaToken_cases env w1 userID
        cases hr : RefreshTeslaToken env w1 userID with
        | mk e w2 =>
          rw [hr] at hcases
          simp only [hr] at hres
          cases e with
          | some err =>
            left
            simp only at hres
            subst hres
            rcases hcases with ⟨-, -, hreq | ⟨r, hreq⟩⟩ | ⟨_, _, habs, _⟩
            · simp only at hreq
              simp [logTokenUsage_requests, hreq, hfr, returnsValid, invalidResponse]
            · simp only at hreq
              refine ⟨Or.inr ⟨r, ?_⟩, ?_⟩
              · simp [logTokenUsage_requests, hreq, hfr]
              · simp [returnsValid, invalidResponse]
            · cases habs
          | none =>
            simp only at hres
            rcases hcases with ⟨habs, _⟩ | ⟨tok, resp, -, hf, hreq, hup2, htok⟩
            · exact absurd rfl habs
            · simp only at hf hreq hup2 htok
              rw [hfr] at hf hreq hup2 htok
              simp only at hf hreq hup2 htok
              rw [hfind] at hf
              cases hf
              have hfr2 := dbFirst_frame env w2 userID token.ID
              cases hd : dbFirst env w2 userID token.ID with
              | mk r3 w3 =>
                rw [hd] at hfr2
                simp only at hfr2
                simp only [hd] at hres
                cases r3 with
                | error e3 =>
                  left
                  simp only at hres
                  subst hres
                  refine ⟨Or.inr ⟨token.RefreshToken, ?_⟩, ?_⟩
                  · simp [hfr2, hreq]
                  · simp [returnsValid]
                | ok token1 =>
                  have h2 := (dbFirst_ok_spec env w2 userID token.ID token1 (by rw [hd])).2.1
                  rw [htok, find_after_save w.tokens userID token (token.refreshed resp env.now)
                    token.ID (Or.inr rfl) hfind rfl rfl rfl] at h2
                  cases h2
                  right; right
                  simp only at hres
                  refine ⟨token, token.RefreshToken, resp, w3, token.refreshed resp env.now,
                    rfl, hexp, hup2, ?_, rfl, ?_, hres.symm⟩
                  · rw [hfr2]; exact hreq
                  · rw [hfr2]
                    simp only [htok]
                    exact find_after_save w.tokens userID token (token.refreshed resp env.now)
                      0 (Or.inl rfl) hfind rfl rfl rfl


/-- The eight traces of `ValidateTeslaToken`: the requests it sends, in order, with
the answers that led there, the flag it returns and, where the last request is a
probe, the access token of the record it leaves in the store. -/
theorem ValidateTeslaToken_shapes (env : Env) (w : World) (userID : String) :
    ∃ new, (ValidateTeslaToken env w userID).2.requests = w.requests ++ new ∧
      ((new = [] ∧ returnsValid (ValidateTeslaToken env w userID).1 = false) ∨
       (∃ r, new = [.refresh r] ∧ returnsValid (ValidateTeslaToken env w userID).1 = false) ∨
       (∃ rec, (dbFirst env w userID 0).1 = .ok rec ∧
          new = [.probe rec.AccessToken] ∧
          returnsValid (ValidateTeslaToken env w userID).1 =
            (env.upstream w.requests.length (.probe rec.AccessToken)).isOK ∧
          ∃ last, storedRecord (ValidateTeslaToken env w userID).2 userID = some last ∧
            last.AccessToken = rec.AccessToken) ∨
       (∃ rec r, (dbFirst env w userID 0).1 = .ok rec ∧
          new = [.probe rec.AccessToken, .refresh r] ∧
          (env.upstream w.requests.length (.probe rec.AccessToken)).isOK = false ∧
          returnsValid (ValidateTeslaToken env w userID).1 = false) ∨
       (∃ rec r resp, (dbFirst env w userID 0).1 = .ok rec ∧
          new = [.probe rec.AccessToken, .refresh r, .probe resp.AccessToken] ∧
          (env.upstream w.requests.length (.probe rec.AccessToken)).isOK = false ∧
          env.upstream (w.requests.length + 1) (.refresh r) = .status 200 (some resp) ∧
          returnsValid (ValidateTeslaToken env w userID).1 =
            (env.upstream (w.requests.length + 2) (.probe resp.AccessToken)).isOK ∧
          ∃ last, storedRecord (ValidateTeslaToken env w userID).2 userID = some last ∧
            last.AccessToken = resp.AccessToken) ∨
       (∃ r resp, env.upstream w.requests.length (.refresh r) = .status 200 (some resp) ∧
          new = [.refresh r, .probe resp.AccessToken] ∧
          returnsValid (ValidateTeslaToken env w userID).1 =
            (env.upstream (w.requests.length + 1) (.probe resp.AccessToken)).isOK ∧
          ∃ last, storedRecord (ValidateTeslaToken env w userID).2 userID = some last ∧
            last.AccessToken = resp.AccessToken) ∨
       (∃ r resp r1, env.upstream w.requests.length (.refresh r) = .status 200 (some resp) ∧
          new = [.refresh r, .probe resp.AccessToken, .refresh r1] ∧
          (env.upstream (w.requests.length + 1) (.probe resp.AccessToken)).isOK = false ∧
          returnsValid (ValidateTeslaToken env w userID).1 = false) ∨
       (∃ r resp r1 resp1,
          env.upstream w.requests.length (.refresh r) = .status 200 (some resp) ∧
          new = [.refresh r, .probe resp.AccessToken, .refresh r1, .probe resp1.AccessToken] ∧
          (env.upstream (w.requests.length + 1) (.probe resp.AccessToken)).isOK = false ∧
          env.upstream (w.requests.length + 2) (.refresh r1) = .status 200 (some resp1) ∧
          returnsValid (ValidateTeslaToken env w userID).1 =
            (env.upstream (w.requests.length + 3) (.probe resp1.AccessToken)).isOK ∧
          ∃ last, storedRecord (ValidateTeslaToken env w userID).2 userID = some last ∧
            last.AccessToken = resp1.AccessToken)) := by
  rcases ValidateTeslaToken_trace env w userID with
    ⟨hreq | ⟨r, hreq⟩, hv⟩ | ⟨rec, w1, hrec, -, hw1, hst, heq⟩ |
    ⟨rec, r, resp, w3, token1, hrec, -, hup, hw3, hacc, hst, heq⟩
  · exact ⟨[], by simpa using hreq, Or.inl ⟨rfl, hv⟩⟩
  · exact ⟨[.refresh r], hreq, Or.inr (Or.inl ⟨r, rfl, hv⟩)⟩
  · rw [heq]
    rcases probeStep_trace env w1 userID rec hst with
      ⟨h1, h2⟩ | ⟨h1, h2, h5⟩ | ⟨r, h1, h2, h3⟩ | ⟨r, resp, h1, h2, h3, h4, h5⟩
    · rw [hw1] at h1
      exact ⟨[], by simpa using h1, Or.inl ⟨rfl, h2⟩⟩
    · rw [hw1] at h1 h2
      exact ⟨_, h1, Or.inr (Or.inr (Or.inl ⟨rec, hrec, rfl, h2, rec, h5, rfl⟩))⟩
    · rw [hw1] at h1 h2
      exact ⟨_, h1, Or.inr (Or.inr (Or.inr (Or.inl ⟨rec, r, hrec, rfl, h2, h3⟩)))⟩
    · rw [hw1] at h1 h2 h3 h4
      exact ⟨_, h1, Or.inr (Or.inr (Or.inr (Or.inr (Or.inl
        ⟨rec, r, resp, hrec, rfl, h2, h3, h4, _, h5, rfl⟩))))⟩
  · rw [heq]
    have hlen : w3.requests.length = w.requests.length + 1 := by rw [hw3]; simp
    rcases probeStep_trace env w3 userID token1 hst with
      ⟨h1, h2⟩ | ⟨h1, h2, h5⟩ | ⟨r1, h1, h2, h3⟩ | ⟨r1, resp1, h1, h2, h3, h4, h5⟩
    · rw [hw3] at h1
      exact ⟨_, h1, Or.inr (Or.inl ⟨r, rfl, h2⟩)⟩
    · rw [hlen, hacc] at h2
      rw [hw3, hacc, List.append_assoc] at h1
      exact ⟨_, h1, Or.inr (Or.inr (Or.inr (Or.inr (Or.inr (Or.inl
        ⟨r, resp, hup, rfl, h2, token1, h5, hacc⟩)))))⟩
    · rw [hlen, hacc] at h2
      rw [hw3, hacc, List.append_assoc] at h1
      exact ⟨_, h1, Or.inr (Or.inr (Or.inr (Or.inr (Or.inr (Or.inr (Or.inl
        ⟨r, resp, r1, hup, rfl, h2, h3⟩))))))⟩
    · rw [hlen, hacc] at h2
      rw [hlen] at h3 h4
      rw [hw3, hacc, List.append_assoc] at h1
      exact ⟨_, h1, Or.inr (Or.inr (Or.inr (Or.inr (Or.inr (Or.inr (Or.inr
        ⟨r, resp, r1, resp1, hup, rfl, h2, h3, h4, _, h5, rfl⟩))))))⟩


/-- The flag `ValidateTeslaToken` returns, read off the requests it sent: `valid =
true` exactly when the last probe was answered with status 200; without a probe the
flag is `false`; every probe carries the access token of the record read at the
start or of the refresh just granted; and after a last probe the store holds the
probed access token. -/
theorem ValidateTeslaToken_valid_iff (env : Env) (w : World) (userID : String) :
    (returnsValid (ValidateTeslaToken env w userID).1 = true ↔
      ∃ answer, (probeAnswersFrom env w.requests.length
          ((ValidateTeslaToken env w userID).2.requests.drop w.requests.length)).getLast?
          = some answer ∧ answer.isOK = true) ∧
    (probeAnswersFrom env w.requests.length
        ((ValidateTeslaToken env w userID).2.requests.drop w.requests.length) = [] →
      returnsValid (ValidateTeslaToken env w userID).1 = false) ∧
    (∀ j a, ((ValidateTeslaToken env w userID).2.requests.drop w.requests.length)[j]?
        = some (.probe a) →
      (j = 0 ∧ ∃ rec, (dbFirst env w userID 0).1 = .ok rec ∧ rec.AccessToken = a) ∨
      (∃ i r resp, j = i + 1 ∧
        ((ValidateTeslaToken env w userID).2.requests.drop w.requests.length)[i]?
          = some (.refresh r) ∧
        env.upstream (w.requests.length + i) (.refresh r) = .status 200 (some resp) ∧
        resp.AccessToken = a)) ∧
    (∀ a, ((ValidateTeslaToken env w userID).2.requests.drop w.requests.length).getLast?
        = some (.probe a) →
      ∃ last, storedRecord (ValidateTeslaToken env w userID).2 userID = some last ∧
        last.AccessToken = a) := by
  obtain ⟨new, hreq, hshape⟩ := ValidateTeslaToken_shapes env w userID
  rw [hreq, List.drop_left]
  rcases hshape with ⟨hn, hv⟩ | ⟨r, hn, hv⟩ | ⟨rec, hrec, hn, hv, hl⟩ |
    ⟨rec, r, hrec, hn, h0, hv⟩ | ⟨rec, r, resp, hrec, hn, h0, hup, hv, hl⟩ |
    ⟨r, resp, hup, hn, hv, hl⟩ | ⟨r, resp, r1, hup, hn, h1, hv⟩ |
    ⟨r, resp, r1, resp1, hup, hn, h1, hup1, hv, hl⟩
  · subst hn
    simp [probeAnswersFrom, hv]
  · subst hn
    refine ⟨by simp [probeAnswersFrom, hv], by simp [hv], ?_, by simp⟩
    intro j a hj
    rcases j with _ | _ | j <;> simp at hj
  · subst hn
    refine ⟨by simp [probeAnswersFrom, hv], by simp [probeAnswersFrom], ?_, ?_⟩
    · intro j a hj
      rcases j with _ | j
      · simp at hj
        exact Or.inl ⟨rfl, rec, hrec, hj⟩
      · simp at hj
    · intro a ha
      simp at ha
      subst ha
      exact hl
  · subst hn
    refine ⟨by simp [probeAnswersFrom, hv, h0], by simp [probeAnswersFrom], ?_, by simp⟩
    intro j a hj
    rcases j with _ | _ | j
    · simp at hj
      exact Or.inl ⟨rfl, rec, hrec, hj⟩
    · simp at hj
    · simp at hj
  · subst hn
    refine ⟨by simp [probeAnswersFrom, hv], by simp [probeAnswersFrom], ?_, ?_⟩
    · intro j a hj
      rcases j with _ | _ | _ | j
      · simp at hj
        exact Or.inl ⟨rfl, rec, hrec, hj⟩
      · simp at hj
      · simp at hj
        exact Or.inr ⟨1, r, resp, rfl, by simp, hup, hj⟩
      · simp at hj
    · intro a ha
      simp at ha
      subst ha
      exact hl
  · subst hn
    refine ⟨by simp [probeAnswersFrom, hv], by simp [probeAnswersFrom], ?_, ?_⟩
    · intro j a hj
      rcases j with _ | _ | j
      · simp at hj
      · simp at hj
        exact Or.inr ⟨0, r, resp, rfl, by simp, hup, hj⟩
      · simp at hj
    · intro a ha
      simp at ha
      subst ha
      exact hl
  · subst hn
    refine ⟨by simp [probeAnswersFrom, hv, h1], by simp [probeAnswersFrom], ?_, by simp⟩
    intro j a hj
    rcases j with _ | _ | _ | j
    · simp at hj
    · simp at hj
      exact Or.inr ⟨0, r, resp, rfl, by simp, hup, hj⟩
    · simp at hj
    · simp at hj
  · subst hn
    refine ⟨by simp [probeAnswersFrom, hv], by simp [probeAnswersFrom], ?_, ?_⟩
    · intro j a hj
      rcases j with _ | _ | _ | _ | j
      · simp at hj
      · simp at hj
        exact Or.inr ⟨0, r, resp, rfl, by simp, hup, hj⟩
      · simp at hj
      · simp at hj
        exact Or.inr ⟨2, r1, resp1, rfl, by simp, hup1, hj⟩
      · simp at hj
    · intro a ha
      simp at ha
      subst ha
      exact hl


/-- C7. In a call of `ValidateTeslaToken`, whatever the first probe was answered (a
status other than 200 in particular), the requests sent after the first probe are
at most one refresh and at most one probe; that second probe is the last request
of the call, and when it is not answered with status 200 the call returns
`valid = false`. -/
theorem C7_one_refresh_one_reprobe (env : Env) (w : World) (userID : String)
    (pre post : List Request) (a : GoString)
    (hsplit : (ValidateTeslaToken env w userID).2.requests =
      w.requests ++ (pre ++ .probe a :: post))
    (hfirst : pre.all (fun r => !r.isProbe) = true) :
    post.countP Request.isRefresh ≤ 1 ∧ post.countP Request.isProbe ≤ 1 ∧
    (∀ k a1, post[k]? = some (.probe a1) →
      k + 1 = post.length ∧
      ((env.upstream (w.requests.length + pre.length + 1 + k) (.probe a1)).isOK = false →
        returnsValid (ValidateTeslaToken env w userID).1 = false)) := by
  obtain ⟨new, hreq, hshape⟩ := ValidateTeslaToken_shapes env w userID
  rw [hreq] at hsplit
  have hnew := List.append_cancel_left hsplit
  rcases hshape with ⟨hn, hv⟩ | ⟨r, hn, hv⟩ | ⟨rec, hrec, hn, hv, -⟩ |
    ⟨rec, r, hrec, hn, h0, hv⟩ | ⟨rec, r, resp, hrec, hn, h0, hup, hv, -⟩ |
    ⟨r, resp, hup, hn, hv, -⟩ | ⟨r, resp, r1, hup, hn, h1, hv⟩ |
    ⟨r, resp, r1, resp1, hup, hn, h1, hup1, hv, -⟩
  all_goals subst hn
  · rcases pre with _ | ⟨p, pre⟩ <;> simp at hnew
  · rcases pre with _ | ⟨p, _ | ⟨q, pre⟩⟩ <;> simp at hnew
  · rcases pre with _ | ⟨p, _ | ⟨q, pre⟩⟩ <;> simp at hnew
    obtain ⟨-, hp⟩ := hnew
    subst hp
    simp
  · rcases pre with _ | ⟨p, _ | ⟨q, _ | ⟨q1, pre⟩⟩⟩ <;> simp at hnew
    obtain ⟨-, hp⟩ := hnew
    subst hp
    refine ⟨by simp [Request.isRefresh], by simp [Request.isProbe], ?_⟩
    intro k a1 hk
    rcases k with _ | k <;> simp at hk
  · rcases pre with _ | ⟨p, _ | ⟨q, _ | ⟨q1, _ | ⟨q2, pre⟩⟩⟩⟩ <;> simp at hnew
    · obtain ⟨-, hp⟩ := hnew
      subst hp
      refine ⟨by simp [Request.isRefresh], by simp [Request.isProbe], ?_⟩
      intro k a1 hk
      rcases k with _ | _ | k <;> simp at hk
      subst hk
      refine ⟨rfl, ?_⟩
      intro hbad
      simp only [List.length_nil, Nat.add_zero] at hbad
      rw [hv]
      exact hbad
    · obtain ⟨hp, -, -, -⟩ := hnew
      subst hp
      simp [Request.isProbe] at hfirst
  · rcases pre with _ | ⟨p, _ | ⟨q, _ | ⟨q1, pre⟩⟩⟩ <;> simp at hnew
    obtain ⟨-, -, hp⟩ := hnew
    subst hp
    simp
  · rcases pre with _ | ⟨p, _ | ⟨q, _ | ⟨q1, _ | ⟨q2, pre⟩⟩⟩⟩ <;> simp at hnew
    obtain ⟨-, -, hp⟩ := hnew
    subst hp
    refine ⟨by simp [Request.isRefresh], by simp [Request.isProbe], ?_⟩
    intro k a1 hk
    rcases k with _ | k <;> simp at hk
  · rcases pre with _ | ⟨p, _ | ⟨q, _ | ⟨q1, _ | ⟨q2, _ | ⟨q3, pre⟩⟩⟩⟩⟩ <;> simp at hnew
    · obtain ⟨-, -, hp⟩ := hnew
      subst hp
      refine ⟨by simp [Request.isRefresh], by simp [Request.isProbe], ?_⟩
      intro k a1 hk
      rcases k with _ | _ | k <;> simp at hk
      subst hk
      refine ⟨rfl, ?_⟩
      intro hbad
      simp only [List.length_singleton] at hbad
      rw [hv]
      exact hbad
    · obtain ⟨-, hp, -⟩ := hnew
      subst hp
      simp [Request.isProbe] at hfirst


/-- C7 at an upstream that answers every probe with 401 and grants the refresh: the
requests are probe, refresh, probe and the call returns `valid = false`. -/
theorem C7_one_refresh_one_reprobe_witness :
    (ValidateTeslaToken (steadyEnv 2000 401 (sampleRefreshAnswer []))
        (sampleWorld 1000 5000) "u1").2.requests =
      (sampleWorld 1000 5000).requests ++ ([] ++ .probe [97] :: [.refresh [114], .probe [98]]) ∧
    ([] : List Request).all (fun r => !r.isProbe) = true ∧
    returnsValid (ValidateTeslaToken (steadyEnv 2000 401 (sampleRefreshAnswer []))
        (sampleWorld 1000 5000) "u1").1 = false ∧
    [Request.refresh [114], Request.probe [98]].countP Request.isRefresh ≤ 1 ∧
    [Request.refresh [114], Request.probe [98]].countP Request.isProbe ≤ 1 ∧
    (∀ k a1, [Request.refresh [114], Request.probe [98]][k]? = some (.probe a1) →
      k + 1 = [Request.refresh [114], Request.probe [98]].length ∧
      (((steadyEnv 2000 401 (sampleRefreshAnswer [])).upstream
          ((sampleWorld 1000 5000).requests.length + ([] : List Request).length + 1 + k)
          (.probe a1)).isOK = false →
        returnsValid (ValidateTeslaToken (steadyEnv 2000 401 (sampleRefreshAnswer []))
          (sampleWorld 1000 5000) "u1").1 = false)) :=
  ⟨by decide, by decide, by decide,
    C7_one_refresh_one_reprobe (steadyEnv 2000 401 (sampleRefreshAnswer []))
      (sampleWorld 1000 5000) "u1" [] [.refresh [114], .probe [98]] [97]
      (by decide) (by decide)⟩

/-- C10 at an upstream that answers the refresh with 401: the entry appended for
the failed refresh has `success = true`. -/
theorem C10_failed_refresh_logged_with_success_true_witness :
    (∀ n, (steadyEnv 2000 200 (.status 401 none)).dbFault n = none) ∧
    (dbFirst (steadyEnv 2000 200 (.status 401 none)) (sampleWorld 1000 5000) "u1" 0).1 =
      .ok (sampleRow 1000 5000) ∧
    (steadyEnv 2000 200 (.status 401 none)).upstream (sampleWorld 1000 5000).requests.length
      (.refresh (sampleRow 1000 5000).RefreshToken) = .status 401 none ∧
    (∀ body, Response.status 401 none ≠ .status 200 body) ∧
    (RefreshTeslaToken (steadyEnv 2000 200 (.status 401 none)) (sampleWorld 1000 5000) "u1").1 =
      some (.refreshStatus 401) ∧
    (RefreshTeslaToken (steadyEnv 2000 200 (.status 401 none))
      (sampleWorld 1000 5000) "u1").2.tokens = (sampleWorld 1000 5000).tokens ∧
    (RefreshTeslaToken (steadyEnv 2000 200 (.status 401 none))
      (sampleWorld 1000 5000) "u1").2.requests =
        (sampleWorld 1000 5000).requests ++ [.refresh (sampleRow 1000 5000).RefreshToken] ∧
    ∃ entry, (RefreshTeslaToken (steadyEnv 2000 200 (.status 401 none))
        (sampleWorld 1000 5000) "u1").2.logs = (sampleWorld 1000 5000).logs ++ [entry] ∧
      entry.UserID = "u1" ∧ entry.Action = "refresh" ∧ entry.Success = true :=
  ⟨fun _ => rfl, by decide, by decide, (fun body h => by cases h),
    C10_failed_refresh_logged_with_success_true (steadyEnv 2000 200 (.status 401 none))
      (sampleWorld 1000 5000) "u1" (sampleRow 1000 5000) (.status 401 none)
      (fun _ => rfl) (by decide) (by decide) (fun body h => by cases h)⟩

end TeslaTokenService

namespace Crypto
open Base64

/-- C20 fails between 12 and 27 bytes.  The blob that encodes 12 zero bytes decodes
to fewer than `12 + 16` bytes, and `Decrypt` fails on it with the decryption error,
not with "ciphertext too short". -/
theorem C20_counterexample :
    DecodeString (EncodeToString (List.replicate 12 0)) = some (List.replicate 12 0) ∧
    (List.replicate 12 (0 : Byte)).length < nonceSize + tagSize ∧
    Decrypt checksumAEAD sampleEncryptor (EncodeToString (List.replicate 12 0)) =
      ([], some .decryptFailed) := by
  decide

/-- C20 as amended.  Let the key have a valid length and the non-empty `blob` decode
to `data`.  When `data` is shorter than the nonce (12 bytes), `Decrypt` fails with
"ciphertext too short".  When `data` has at least 12 but fewer than `12 + 16` bytes,
`Decrypt` fails with the decryption error.  And whenever `Decrypt` fails, on any
input, the plaintext it returns is the empty string. -/
theorem C20_short_blob_errors (A : AEAD) (e : TokenEncryptor) (blob data : GoString)
    (hkey : validAESKeyLength e.key.length = true) (hblob : blob ≠ [])
    (hdata : DecodeString blob = some data) :
    (data.length < nonceSize → Decrypt A e blob = ([], some .ciphertextTooShort)) ∧
    (nonceSize ≤ data.length → data.length < nonceSize + tagSize →
      Decrypt A e blob = ([], some .decryptFailed)) ∧
    (∀ anyBlob, (Decrypt A e anyBlob).2 ≠ none → (Decrypt A e anyBlob).1 = []) := by
  refine ⟨?_, ?_, ?_⟩
  · intro h
    simp [Decrypt, hblob, hdata, hkey, h]
  · intro h1 h2
    have hopen : A.Open e.key (data.take nonceSize) (data.drop nonceSize) = none := by
      apply A.Open_short
      simp only [List.length_drop]
      omega
    have h3 : ¬ data.length < nonceSize := by omega
    simp [Decrypt, hblob, hdata, hkey, h3, hopen]
  · intro anyBlob
    unfold Decrypt
    by_cases hb : anyBlob = []
    · simp [hb]
    · simp only [hb, if_false]
      cases DecodeString anyBlob with
      | none => simp
      | some d =>
        simp only
        by_cases hk : validAESKeyLength e.key.length = false
        · simp [hk]
        · simp only [hk, if_false]
          by_cases hl : d.length < nonceSize
          · simp [hl]
          · simp only [hl, if_false]
            cases A.Open e.key (d.take nonceSize) (d.drop nonceSize) <;> simp

/-- C20 as amended, at the blob that encodes 12 zero bytes. -/
theorem C20_short_blob_errors_witness :
    validAESKeyLength sampleEncryptor.key.length = true ∧
    EncodeToString (List.replicate 12 (0 : Byte)) ≠ [] ∧
    DecodeString (EncodeToString (List.replicate 12 0)) = some (List.replicate 12 0) ∧
    (nonceSize ≤ (List.replicate 12 (0 : Byte)).length →
      (List.replicate 12 (0 : Byte)).length < nonceSize + tagSize →
      Decrypt checksumAEAD sampleEncryptor (EncodeToString (List.replicate 12 0)) =
        ([], some .decryptFailed)) :=
  ⟨by decide, by decide, by decide,
    (C20_short_blob_errors checksumAEAD sampleEncryptor (EncodeToString (List.replicate 12 0))
      (List.replicate 12 0) (by decide) (by decide) (by decide)).2.1⟩

end Crypto

namespace TeslaTokenService

theorem wrapInt64_seconds (n : Int) (h1 : -9223372036 ≤ n) (h2 : n ≤ 9223372036) :
    wrapInt64 (n * Second) = n * Second := by
  unfold wrapInt64 Second
  omega

/-- C11 fails for a long validity.  The upstream answers the refresh of the record of
`u1` at the instant `2000` with `expires_in = 10 ^ 10` seconds.  The refresh
succeeds, and the product `time.Duration(10 ^ 10) * time.Second` leaves the 64-bit
range: the stored `expires_at` is `2 ^ 64` nanoseconds earlier than
`now + expires_in` seconds. -/
theorem C11_counterexample :
    (RefreshTeslaToken (steadyEnv 2000 200 longLivedAnswer) (sampleWorld 1000 5000) "u1").1
      = none ∧
    (RefreshTeslaToken (steadyEnv 2000 200 longLivedAnswer)
      (sampleWorld 1000 5000) "u1").2.tokens.map (·.ExpiresAt) =
        [2000 + 10000000000 * Second - 18446744073709551616] ∧
    (2000 + 10000000000 * Second - 18446744073709551616 : Int) ≠
      2000 + 10000000000 * Second := by
  decide

/-- C11 as amended.  Let the store have no faults, `token` be the record of the user
and the upstream answer the refresh request for its refresh token with status 200
and a body `resp` whose `expires_in` lies between `-9223372036` and `9223372036`
seconds.  Then `RefreshTeslaToken` succeeds; the record a read of the user finds
afterwards has the access token and the token type of `resp`, expires at
`now + expires_in` seconds and keeps the user and the key of `token`; and the audit
table has gained exactly one entry, of the user, with action `refresh` and success
`true`. -/
theorem C11_refresh_stores_response (env : Env) (w : World) (userID : String)
    (token : TeslaToken) (resp : TeslaTokenRefreshResponse)
    (hdb : ∀ n, env.dbFault n = none)
    (hrec : (dbFirst env w userID 0).1 = .ok token)
    (hup : env.upstream w.requests.length (.refresh token.RefreshToken)
      = .status 200 (some resp))
    (hlo : -9223372036 ≤ resp.ExpiresIn) (hhi : resp.ExpiresIn ≤ 9223372036) :
    (RefreshTeslaToken env w userID).1 = none ∧
    (∃ rec, (dbFirst env (RefreshTeslaToken env w userID).2 userID 0).1 = .ok rec ∧
      rec.AccessToken = resp.AccessToken ∧ rec.TokenType = resp.TokenType ∧
      rec.ExpiresAt = env.now + resp.ExpiresIn * Second ∧
      rec.UserID = token.UserID ∧ rec.ID = token.ID) ∧
    ∃ entry, (RefreshTeslaToken env w userID).2.logs = w.logs ++ [entry] ∧
      entry.UserID = userID ∧ entry.Action = "refresh" ∧ entry.Success = true := by
  have hfind := (dbFirst_ok_spec env w userID 0 token hrec).2.1
  have hok := RefreshTeslaToken_ok env w userID token resp hdb hfind hup
  refine ⟨hok, ⟨token.refreshed resp env.now, ?_, rfl, rfl, ?_, rfl, rfl⟩, ?_⟩
  · rcases RefreshTeslaToken_cases env w userID with ⟨h, -⟩ | ⟨tok, resp', -, hf, -, hup', htok⟩
    · exact absurd hok h
    · rw [hfind] at hf
      cases hf
      rw [hup] at hup'
      cases hup'
      unfold dbFirst
      simp only [hdb, htok]
      rw [find_after_save w.tokens userID token (token.refreshed resp env.now) 0
        (Or.inl rfl) hfind rfl rfl rfl]
  · simp only [TeslaToken.refreshed]
    rw [wrapInt64_seconds _ hlo hhi]
  · unfold RefreshTeslaToken dbFirst httpDo
    simp only [hdb, hfind, hup]
    simp [dbSave, hdb, logTokenUsage, dbCreateLog]

/-- C11 as amended, at the record of `u1` saved at the instant `1000` and refreshed
at the instant `2000` with the answer `sampleRefreshAnswer []` (one hour). -/
theorem C11_refresh_stores_response_witness :
    (∀ n, (steadyEnv 2000 200 (sampleRefreshAnswer [])).dbFault n = none) ∧
    (dbFirst (steadyEnv 2000 200 (sampleRefreshAnswer [])) (sampleWorld 1000 5000) "u1" 0).1 =
      .ok (sampleRow 1000 5000) ∧
    (RefreshTeslaToken (steadyEnv 2000 200 (sampleRefreshAnswer []))
      (sampleWorld 1000 5000) "u1").1 = none ∧
    (∃ rec, (dbFirst (steadyEnv 2000 200 (sampleRefreshAnswer []))
        (RefreshTeslaToken (steadyEnv 2000 200 (sampleRefreshAnswer []))
          (sampleWorld 1000 5000) "u1").2 "u1" 0).1 = .ok rec ∧
      rec.AccessToken = [98] ∧ rec.TokenType = "Bearer" ∧
      rec.ExpiresAt = (steadyEnv 2000 200 (sampleRefreshAnswer [])).now + 3600 * Second ∧
      rec.UserID = (sampleRow 1000 5000).UserID ∧ rec.ID = (sampleRow 1000 5000).ID) ∧
    ∃ entry, (RefreshTeslaToken (steadyEnv 2000 200 (sampleRefreshAnswer []))
        (sampleWorld 1000 5000) "u1").2.logs = (sampleWorld 1000 5000).logs ++ [entry] ∧
      entry.UserID = "u1" ∧ entry.Action = "refresh" ∧ entry.Success = true :=
  ⟨fun _ => rfl, by decide,
    C11_refresh_stores_response (steadyEnv 2000 200 (sampleRefreshAnswer []))
      (sampleWorld 1000 5000) "u1" (sampleRow 1000 5000)
      { AccessToken := [98], RefreshToken := [], ExpiresIn := 3600, TokenType := "Bearer" }
      (fun _ => rfl) (by decide) (by decide) (by decide) (by decide)⟩


/-- The live rows after a soft delete of the live rows that satisfy `c`. -/
theorem filter_live_softDelete (rows : List TeslaToken) (c : TeslaToken → Bool) (now : Time) :
    (rows.map (fun r => if r.live && c r then { r with DeletedAt := some now } else r)).filter
      TeslaToken.live = rows.filter (fun r => r.live && !c r) := by
  induction rows with
  | nil => rfl
  | cons r rest ih =>
    have hm : TeslaToken.live { r with DeletedAt := some now } = false := rfl
    simp only [List.map_cons, List.filter_cons, ih]
    cases hl : r.live <;> cases hc : c r <;> simp [hl, hc, hm]

/-- A row a soft delete does not select stays in the table as it is. -/
theorem mem_softDelete_of_not (rows : List TeslaToken) (c : TeslaToken → Bool) (now : Time)
    (r : TeslaToken) (hr : r ∈ rows) (hc : (r.live && c r) = false) :
    r ∈ rows.map (fun r => if r.live && c r then { r with DeletedAt := some now } else r) := by
  refine List.mem_map.mpr ⟨r, hr, ?_⟩
  simp [hc]

/-- A row a soft delete selects stays in the table with its mark. -/
theorem mem_softDelete_of (rows : List TeslaToken) (c : TeslaToken → Bool) (now : Time)
    (r : TeslaToken) (hr : r ∈ rows) (hc : (r.live && c r) = true) :
    { r with DeletedAt := some now } ∈
      rows.map (fun r => if r.live && c r then { r with DeletedAt := some now } else r) := by
  refine List.mem_map.mpr ⟨r, hr, ?_⟩
  simp [hc]

/-- C16.  When the statement is executed, `CleanupExpiredTokens` at the instant `now`
returns no error and leaves the audit table as it is; the live rows afterwards are
exactly the live rows whose `expires_at` is at or after `now - 7 days`, in their
order; every row with `expires_at` at or after that cutoff is in the table
unchanged; every live row that expired strictly before the cutoff is there with its
deletion mark set to `now`; and no row is added or dropped. -/
theorem C16_cleanup_removes_exactly_expired (env : Env) (w : World)
    (hdb : env.dbFault w.statements = none) :
    (CleanupExpiredTokens env w).1 = none ∧
    (CleanupExpiredTokens env w).2.logs = w.logs ∧
    (CleanupExpiredTokens env w).2.tokens.filter TeslaToken.live =
      w.tokens.filter (fun r => r.live && decide (env.now - 7 * 24 * Hour ≤ r.ExpiresAt)) ∧
    (∀ r ∈ w.tokens, env.now - 7 * 24 * Hour ≤ r.ExpiresAt →
      r ∈ (CleanupExpiredTokens env w).2.tokens) ∧
    (∀ r ∈ w.tokens, r.live = true → r.ExpiresAt < env.now - 7 * 24 * Hour →
      { r with DeletedAt := some env.now } ∈ (CleanupExpiredTokens env w).2.tokens) ∧
    (CleanupExpiredTokens env w).2.tokens.length = w.tokens.length := by
  have hcut : env.now + -7 * 24 * Hour = env.now - 7 * 24 * Hour := by
    simp only [Time] at *
    ring
  unfold CleanupExpiredTokens
  simp only [hdb, hcut]
  generalize env.now - 7 * 24 * Hour = cut
  refine ⟨trivial, trivial, ?_, ?_, ?_, by simp⟩
  · rw [filter_live_softDelete w.tokens (fun r => decide (r.ExpiresAt < cut)) env.now]
    apply List.filter_congr
    intro r _
    by_cases he : r.ExpiresAt < cut
    · have he' : ¬ (cut ≤ r.ExpiresAt) := not_le.mpr he
      simp [he, he']
    · have he' : cut ≤ r.ExpiresAt := not_lt.mp he
      simp [he, he']
  · intro r hr he
    apply mem_softDelete_of_not w.tokens (fun r => decide (r.ExpiresAt < cut)) env.now r hr
    have he' : ¬ (r.ExpiresAt < cut) := not_lt.mpr he
    simp [he']
  · intro r hr hl he
    apply mem_softDelete_of w.tokens (fun r => decide (r.ExpiresAt < cut)) env.now r hr
    simp [hl, he]


/-- After the soft delete of a user's live rows none of them is live. -/
theorem countP_live_softDelete (rows : List TeslaToken) (userID : String) (now : Time) :
    (rows.map (fun r => if r.live && r.UserID == userID then
        { r with DeletedAt := some now } else r)).countP
      (fun r => r.live && r.UserID == userID) = 0 := by
  rw [List.countP_eq_zero]
  intro r hr
  obtain ⟨r0, -, h0⟩ := List.mem_map.mp hr
  by_cases hc : (r0.live && r0.UserID == userID) = true
  · simp only [hc, if_true] at h0
    subst h0
    simp [TeslaToken.live]
  · simp only [hc] at h0
    simp only [Bool.false_eq_true, if_false] at h0
    subst h0
    exact hc

/-- A soft delete that selects no row leaves the table as it is. -/
theorem softDelete_of_countP_zero (rows : List TeslaToken) (c : TeslaToken → Bool) (now : Time)
    (h : rows.countP (fun r => r.live && c r) = 0) :
    rows.map (fun r => if r.live && c r then { r with DeletedAt := some now } else r) = rows := by
  rw [List.countP_eq_zero] at h
  conv_rhs => rw [← List.map_id rows]
  apply List.map_congr_left
  intro r hr
  have := h r hr
  simp only [Bool.not_eq_true] at this
  simp [this]

/-- What `DeleteToken` does when the user has a live row and the store no fault. -/
theorem DeleteToken_found (env : Env) (w : World) (userID : String)
    (hdb : ∀ n, env.dbFault n = none)
    (hpos : w.tokens.countP (fun r => r.live && r.UserID == userID) ≠ 0) :
    DeleteToken env w userID =
      (none, logTokenUsage env
        { w with statements := w.statements + 1
                 tokens := w.tokens.map (fun r => if r.live && r.UserID == userID then
                   { r with DeletedAt := some env.now } else r) }
        userID "delete" "" "" true "Token deleted successfully") := by
  unfold DeleteToken dbDelete
  simp only [hdb, hpos, if_false]

/-- What `DeleteToken` does when the user has no live row and the store no fault. -/
theorem DeleteToken_absent (env : Env) (w : World) (userID : String)
    (hdb : ∀ n, env.dbFault n = none)
    (hzero : w.tokens.countP (fun r => r.live && r.UserID == userID) = 0) :
    DeleteToken env w userID =
      (some (.tokenNotFound userID), logTokenUsage env
        { w with statements := w.statements + 1 }
        userID "delete" "" "" false "Token not found") := by
  unfold DeleteToken dbDelete
  simp only [hdb, hzero, if_true]
  rw [softDelete_of_countP_zero _ (fun r => r.UserID == userID) env.now hzero]

/-- C14, with the success flag the store holds.  Let the store have no faults and
the user have a live record.  Then `DeleteToken` succeeds, the user has no live
record afterwards, the rows of other users are still in the table and the live rows
are the live rows of the other users; a second `DeleteToken` returns the not-found
error and leaves the table of tokens as it is; each call appends exactly one entry
of the user with action `delete`.  The entry of the second call is stored with
success `true`, as that of the first: `false` is replaced by the default of the
column on insert. -/
theorem C14_second_delete_logged_with_success_true (env1 env2 : Env) (w : World)
    (userID : String) (token : TeslaToken)
    (hdb1 : ∀ n, env1.dbFault n = none) (hdb2 : ∀ n, env2.dbFault n = none)
    (hrec : storedRecord w userID = some token) :
    (DeleteToken env1 w userID).1 = none ∧
    storedRecord (DeleteToken env1 w userID).2 userID = none ∧
    (∀ r ∈ w.tokens, r.UserID ≠ userID → r ∈ (DeleteToken env1 w userID).2.tokens) ∧
    (DeleteToken env1 w userID).2.tokens.filter TeslaToken.live =
      w.tokens.filter (fun r => r.live && !(r.UserID == userID)) ∧
    (DeleteToken env2 (DeleteToken env1 w userID).2 userID).1 = some (.tokenNotFound userID) ∧
    (DeleteToken env2 (DeleteToken env1 w userID).2 userID).2.tokens =
      (DeleteToken env1 w userID).2.tokens ∧
    ∃ e1 e2, (DeleteToken env1 w userID).2.logs = w.logs ++ [e1] ∧
      (DeleteToken env2 (DeleteToken env1 w userID).2 userID).2.logs = w.logs ++ [e1, e2] ∧
      e1.UserID = userID ∧ e1.Action = "delete" ∧ e1.Success = true ∧
      e2.UserID = userID ∧ e2.Action = "delete" ∧ e2.Success = true := by
  have hpos : w.tokens.countP (fun r => r.live && r.UserID == userID) ≠ 0 := by
    intro h0
    rw [List.countP_eq_zero] at h0
    unfold storedRecord at hrec
    have hm := List.mem_of_find?_eq_some hrec
    have hp := List.find?_some hrec
    exact h0 token hm hp
  have h1 := DeleteToken_found env1 w userID hdb1 hpos
  have htok1 : (DeleteToken env1 w userID).2.tokens = w.tokens.map (fun r =>
      if r.live && r.UserID == userID then { r with DeletedAt := some env1.now } else r) := by
    rw [h1]; simp [logTokenUsage_tokens]
  have hzero : (DeleteToken env1 w userID).2.tokens.countP
      (fun r => r.live && r.UserID == userID) = 0 := by
    rw [htok1]; exact countP_live_softDelete w.tokens userID env1.now
  have h2 := DeleteToken_absent env2 (DeleteToken env1 w userID).2 userID hdb2 hzero
  refine ⟨by rw [h1], ?_, ?_, ?_, by rw [h2], ?_, ?_⟩
  · unfold storedRecord
    rw [List.find?_eq_none]
    have := List.countP_eq_zero.mp hzero
    intro r hr
    exact this r hr
  · intro r hr hne
    rw [htok1]
    apply mem_softDelete_of_not w.tokens (fun r => r.UserID == userID) env1.now r hr
    simp [hne]
  · rw [htok1]
    exact filter_live_softDelete w.tokens (fun r => r.UserID == userID) env1.now
  · rw [h2]; simp [logTokenUsage_tokens]
  · rw [h2, h1]
    simp [logTokenUsage, dbCreateLog, hdb1, hdb2]


/-- C15 fails for a limit that is not positive.  The audit table holds 101 entries
of `u1`.  The handler, asked with `limit=0`, passes `0` on and gets all 101;
`GetTokenUsageLogs` with the limit `-5` returns all 101 as well. -/
theorem C15_counterexample :
    (TokenHandler.GetTokenLogs (steadyEnv 2000 200 (.status 401 none)) busyWorld "u1"
      (some (some 0))).map (fun r => r.1.toOption.map List.length) = some (some 101) ∧
    (GetTokenUsageLogs (steadyEnv 2000 200 (.status 401 none)) busyWorld "u1" (-5)).1.toOption.map
      List.length = some 101 := by
  decide

/-- C15 as amended.  When the query is executed, `GetTokenUsageLogs` returns entries
of the audit table that belong to the user, ordered newest first by creation time.
For a positive limit these are the first `limit` entries of that order, so never
more than `limit`; for a limit that is zero or negative they are all the entries of
the user, without a bound. -/
theorem C15_logs_of_user_newest_first (env : Env) (w : World) (userID : String) (limit : Int)
    (hdb : env.dbFault w.statements = none) :
    ∃ rows, (GetTokenUsageLogs env w userID limit).1 = .ok rows ∧
      (∀ e ∈ rows, e ∈ w.logs ∧ e.UserID = userID) ∧
      rows.Sorted newestFirst ∧
      (0 < limit → rows.length ≤ limit.toNat ∧
        rows = ((w.logs.filter (fun e => e.UserID == userID)).insertionSort newestFirst).take
          limit.toNat) ∧
      (limit ≤ 0 → rows.Perm (w.logs.filter (fun e => e.UserID == userID))) := by
  have hperm := List.perm_insertionSort newestFirst (w.logs.filter (fun e => e.UserID == userID))
  have hsorted := List.sorted_insertionSort newestFirst
    (w.logs.filter (fun e => e.UserID == userID))
  have hmem : ∀ e ∈ (w.logs.filter (fun e => e.UserID == userID)).insertionSort newestFirst,
      e ∈ w.logs ∧ e.UserID = userID := by
    intro e he
    have := (hperm.mem_iff).mp he
    rw [List.mem_filter] at this
    exact ⟨this.1, by simpa using this.2⟩
  unfold GetTokenUsageLogs
  simp only [hdb]
  by_cases hl : 0 < limit
  · refine ⟨_, rfl, ?_, ?_, ?_, ?_⟩
    · intro e he
      simp only [gt_iff_lt, hl, if_true] at he
      exact hmem e (List.mem_of_mem_take he)
    · simp only [gt_iff_lt, hl, if_true]
      exact hsorted.sublist (List.take_sublist _ _)
    · intro _
      simp only [gt_iff_lt, hl, if_true, and_true]
      exact List.length_take_le _ _
    · intro h
      omega
  · refine ⟨_, rfl, ?_, ?_, ?_, ?_⟩
    · intro e he
      simp only [gt_iff_lt, hl, if_false] at he
      exact hmem e he
    · simp only [gt_iff_lt, hl, if_false]
      exact hsorted
    · intro h
      exact absurd h hl
    · intro _
      simp only [gt_iff_lt, hl, if_false]
      exact hperm


/-- What `logTokenUsage` does to the audit table: nothing when the insert fails,
otherwise one entry more, with the user and the action given and with the flag
`true` since `false` takes the default of the column. -/
theorem logTokenUsage_logs (env : Env) (w : World) (userID action ip ua : String)
    (success : Bool) (msg : String) :
    (logTokenUsage env w userID action ip ua success msg).statements = w.statements + 1 ∧
    ((env.dbFault w.statements ≠ none ∧
        (logTokenUsage env w userID action ip ua success msg).logs = w.logs) ∨
      (env.dbFault w.statements = none ∧
        ∃ e, (logTokenUsage env w userID action ip ua success msg).logs = w.logs ++ [e] ∧
          e.UserID = userID ∧ e.Action = action ∧ e.Success = true ∧ e.ErrorMessage = msg)) := by
  unfold logTokenUsage dbCreateLog
  cases hf : env.dbFault w.statements with
  | some m => simp
  | none => cases success <;> simp

/-- The audit entries `RefreshTeslaToken` appends: at most one, with the action
`refresh`. -/
theorem RefreshTeslaToken_logs (env : Env) (w : World) (userID : String) :
    ∃ pre, (RefreshTeslaToken env w userID).2.logs = w.logs ++ pre ∧
      (∀ p ∈ pre, p.Action = "refresh" ∧ p.UserID = userID) ∧ pre.length ≤ 1 := by
  have key : ∀ (w0 : World) (flag : Bool) (msg : String), w0.logs = w.logs →
      ∃ pre, (logTokenUsage env w0 userID "refresh" "" "" flag msg).logs = w.logs ++ pre ∧
        (∀ p ∈ pre, p.Action = "refresh" ∧ p.UserID = userID) ∧ pre.length ≤ 1 := by
    intro w0 flag msg h0
    rcases (logTokenUsage_logs env w0 userID "refresh" "" "" flag msg).2 with
      ⟨-, h⟩ | ⟨-, e, h, hu, ha, -, -⟩
    · exact ⟨[], by rw [h, h0]; simp, by simp, by simp⟩
    · refine ⟨[e], by rw [h, h0], ?_, by simp⟩
      intro p hp
      rw [List.mem_singleton] at hp
      subst hp
      exact ⟨ha, hu⟩
  unfold RefreshTeslaToken
  have hfr := dbFirst_frame env w userID 0
  cases h1 : dbFirst env w userID 0 with
  | mk r1 w1 =>
    rw [h1] at hfr
    simp only at hfr
    cases r1 with
    | error err => exact ⟨[], by simp [hfr], by simp, by simp⟩
    | ok token =>
      simp only [httpDo]
      cases env.upstream w1.requests.length (.refresh token.RefreshToken) with
      | transportError msg => exact key _ _ _ (by simp [hfr])
      | status code body =>
        by_cases hc : code = 200
        · cases body with
          | none =>
            simp only [hc, ne_eq, not_true_eq_false, if_false]
            exact key _ _ _ (by simp [hfr])
          | some resp =>
            simp only [hc, ne_eq, not_true_eq_false, if_false]
            unfold dbSave
            cases env.dbFault w1.statements with
            | some m => exact key _ _ _ (by simp [hfr])
            | none => exact key _ _ _ (by simp [hfr])
        · simp only [hc, ne_eq, not_false_eq_true, if_true]
          exact key _ _ _ (by simp [hfr])


/-- Every path of `probeStep` returns a response and ends with the insert of one
`validate` entry whose flag, as passed, is the returned `valid`; before it at most
one `refresh` entry was appended. -/
theorem probeStep_ends (env : Env) (w : World) (userID : String) (token : TeslaToken) :
    ∃ wlast flag msg resp pre,
      ValidateTeslaToken.probeStep env w userID token =
        (.ok resp, logTokenUsage env wlast userID "validate" "" "" flag msg) ∧
      wlast.logs = w.logs ++ pre ∧
      (∀ p ∈ pre, p.Action = "refresh" ∧ p.UserID = userID) ∧ pre.length ≤ 1 ∧
      resp.Valid = flag := by
  unfold ValidateTeslaToken.probeStep validateTokenWithTeslaAPI
  cases env.newRequestError with
  | some m =>
    exact ⟨_, _, _, _, [], rfl, by simp, by simp, by simp, rfl⟩
  | none =>
    simp only [httpDo]
    cases env.upstream w.requests.length (.probe token.AccessToken) with
    | transportError m =>
      exact ⟨_, _, _, _, [], rfl, by simp, by simp, by simp, rfl⟩
    | status code body =>
      by_cases hc : code = 200
      · simp only [hc, decide_True]
        exact ⟨_, _, _, _, [], rfl, by simp, by simp, by simp, rfl⟩
      · simp only [hc, decide_False]
        obtain ⟨pre, hpre, hall, hlen⟩ := RefreshTeslaToken_logs env
          { w with requests := w.requests ++ [.probe token.AccessToken] } userID
        cases hr : RefreshTeslaToken env
            { w with requests := w.requests ++ [.probe token.AccessToken] } userID with
        | mk e w2 =>
          rw [hr] at hpre
          simp only at hpre
          cases e with
          | some err =>
            exact ⟨_, _, _, _, pre, rfl, hpre, hall, hlen, rfl⟩
          | none =>
            simp only
            have hfr := dbFirst_frame env w2 userID token.ID
            cases hd : dbFirst env w2 userID token.ID with
            | mk r3 w3 =>
              rw [hd] at hfr
              simp only at hfr
              have hl3 : w3.logs = w.logs ++ pre := by rw [hfr]; exact hpre
              cases r3 with
              | error e3 =>
                exact ⟨_, _, _, _, pre, rfl, hl3, hall, hlen, rfl⟩
              | ok token1 =>
                simp only
                cases env.upstream w3.requests.length (.probe token1.AccessToken) with
                | transportError m =>
                  exact ⟨_, _, _, _, pre, rfl, by simpa using hl3, hall, hlen, rfl⟩
                | status c2 b2 =>
                  by_cases hc2 : c2 = 200
                  · simp only [hc2, decide_True]
                    exact ⟨_, _, _, _, pre, rfl, by simpa using hl3, hall, hlen, rfl⟩
                  · simp only [hc2, decide_False]
                    exact ⟨_, _, _, _, pre, rfl, by simpa using hl3, hall, hlen, rfl⟩

/-- Every path of `ValidateTeslaToken` either returns an error, having appended at
most one `refresh` entry and nothing else, or returns a response and ends with the
insert of one `validate` entry whose flag, as passed, is the returned `valid`,
after at most two `refresh` entries. -/
theorem ValidateTeslaToken_ends (env : Env) (w : World) (userID : String) :
    (∃ err pre, (ValidateTeslaToken env w userID).1 = .error err ∧
      (ValidateTeslaToken env w userID).2.logs = w.logs ++ pre ∧
      (∀ p ∈ pre, p.Action = "refresh" ∧ p.UserID = userID)) ∨
    (∃ wlast flag msg resp pre,
      ValidateTeslaToken env w userID =
        (.ok resp, logTokenUsage env wlast userID "validate" "" "" flag msg) ∧
      wlast.logs = w.logs ++ pre ∧
      (∀ p ∈ pre, p.Action = "refresh" ∧ p.UserID = userID) ∧ pre.length ≤ 2 ∧
      resp.Valid = flag) := by
  unfold ValidateTeslaToken
  have hfr := dbFirst_frame env w userID 0
  cases h1 : dbFirst env w userID 0 with
  | mk r1 w1 =>
    rw [h1] at hfr
    simp only at hfr
    have hl1 : w1.logs = w.logs := by rw [hfr]
    cases r1 with
    | error err =>
      cases err with
      | recordNotFound =>
        right
        exact ⟨_, _, _, _, [], rfl, by simp [hl1], by simp, by simp, rfl⟩
      | db m => left; exact ⟨_, [], rfl, by simp [hl1], by simp⟩
      | tokenNotFound u => left; exact ⟨_, [], rfl, by simp [hl1], by simp⟩
      | refreshFailed c => left; exact ⟨_, [], rfl, by simp [hl1], by simp⟩
      | http m => left; exact ⟨_, [], rfl, by simp [hl1], by simp⟩
      | refreshStatus c => left; exact ⟨_, [], rfl, by simp [hl1], by simp⟩
      | decode => left; exact ⟨_, [], rfl, by simp [hl1], by simp⟩
    | ok token =>
      simp only
      cases hexp : token.IsExpired env.now with
      | false =>
        right
        simp only [Bool.false_eq_true, if_false]
        obtain ⟨wlast, flag, msg, resp, pre, heq, hl, hall, hlen, hv⟩ :=
          probeStep_ends env w1 userID token
        exact ⟨wlast, flag, msg, resp, pre, heq, by rw [hl, hl1], hall, by omega, hv⟩
      | true =>
        simp only [if_true]
        obtain ⟨pre, hpre, hall, hlen⟩ := RefreshTeslaToken_logs env w1 userID
        cases hr : RefreshTeslaToken env w1 userID with
        | mk e w2 =>
          rw [hr] at hpre
          simp only at hpre
          rw [hl1] at hpre
          cases e with
          | some err =>
            right
            exact ⟨_, _, _, _, pre, rfl, hpre, hall, by omega, rfl⟩
          | none =>
            simp only
            have hfr2 := dbFirst_frame env w2 userID token.ID
            cases hd : dbFirst env w2 userID token.ID with
            | mk r3 w3 =>
              rw [hd] at hfr2
              simp only at hfr2
              have hl3 : w3.logs = w.logs ++ pre := by rw [hfr2]; exact hpre
              cases r3 with
              | error e3 => left; exact ⟨_, pre, rfl, hl3, hall⟩
              | ok token1 =>
                right
                simp only
                obtain ⟨wlast, flag, msg, resp, pre2, heq, hl, hall2, hlen2, hv⟩ :=
                  probeStep_ends env w3 userID token1
                refine ⟨wlast, flag, msg, resp, pre ++ pre2, heq, ?_, ?_, ?_, hv⟩
                · rw [hl, hl3, List.append_assoc]
                · intro p hp
                  rcases List.mem_append.mp hp with h | h
                  · exact hall p h
                  · exact hall2 p h
                · simp only [List.length_append]; omega

end TeslaTokenService

namespace ImplementationExample
open Crypto

/-- What `logAudit` does to the audit table: nothing when the insert fails, otherwise
one entry more, with the account and the action given and with the flag `true`. -/
theorem logAudit_logs (env : Env) (w : World) (accountID action : String) (success : Bool)
    (msg : String) :
    (env.dbFault w.statements ≠ none ∧ (logAudit env w accountID action success msg).logs = w.logs) ∨
    (env.dbFault w.statements = none ∧
      ∃ e, (logAudit env w accountID action success msg).logs = w.logs ++ [e] ∧
        e.AccountID = accountID ∧ e.Action = action ∧ e.Success = true) := by
  unfold logAudit
  cases hf : env.dbFault w.statements with
  | some m => simp
  | none => cases success <;> simp

theorem dbFirst_reads (env : Env) (w : World) (accountID : String) :
    (dbFirst env w accountID).2 = { w with statements := w.statements + 1 } := by
  unfold dbFirst
  cases env.dbFault w.statements with
  | some msg => rfl
  | none =>
    simp only
    cases w.tokens.find? (fun r => r.AccountID == accountID) <;> rfl

theorem encrypt_logs (s : TokenService) (env : Env) (w : World) (plaintext : GoString) :
    (encrypt s env w plaintext).2.logs = w.logs ∧
    (encrypt s env w plaintext).2.statements = w.statements ∧
    (encrypt s env w plaintext).2.tokens = w.tokens ∧
    (encrypt s env w plaintext).2.requests = w.requests := by
  unfold encrypt
  split <;> simp

/-- The method `GetToken` only reads. -/
theorem GetToken_frame (s : TokenService) (env : Env) (w : World) (accountID : String) :
    (GetToken s env w accountID).2 = { w with statements := w.statements + 1 } := by
  unfold GetToken
  have hfr := dbFirst_reads env w accountID
  cases h1 : dbFirst env w accountID with
  | mk r1 w1 =>
    rw [h1] at hfr
    simp only at hfr
    cases r1 with
    | error err => cases err <;> exact hfr
    | ok token =>
      simp only
      cases Decrypt s.aead s.encryptor token.AccessToken with
      | mk p1 e1 =>
        cases e1 with
        | some err => exact hfr
        | none =>
          simp only
          cases Decrypt s.aead s.encryptor token.RefreshToken with
          | mk p2 e2 =>
            cases e2 with
            | some err => exact hfr
            | none => exact hfr

/-- A failing `SaveToken` appends nothing; a successful one ends with the insert of
one `created` entry and returns no token. -/
theorem SaveToken_audit (s : TokenService) (env : Env) (w : World) (req : TokenRequest) :
    (∃ err, (SaveToken s env w req).1 = .error err ∧ (SaveToken s env w req).2.logs = w.logs) ∨
    (∃ resp wlast, SaveToken s env w req =
        (.ok resp, logAudit env wlast req.AccountID "created" true "") ∧
      wlast.logs = w.logs ∧ resp.AccessToken = [] ∧ resp.RefreshToken = []) := by
  unfold SaveToken
  have he1 := encrypt_logs s env w req.AccessToken
  cases h1 : encrypt s env w req.AccessToken with
  | mk r1 w1 =>
    rw [h1] at he1
    simp only at he1
    obtain ⟨blobA, e1⟩ := r1
    cases e1 with
    | some err => left; exact ⟨_, rfl, he1.1⟩
    | none =>
      simp only
      have he2 := encrypt_logs s env w1 req.RefreshToken
      cases h2 : encrypt s env w1 req.RefreshToken with
      | mk r2 w2 =>
        rw [h2] at he2
        simp only at he2
        obtain ⟨blobR, e2⟩ := r2
        have hl2 : w2.logs = w.logs := by rw [he2.1, he1.1]
        cases e2 with
        | some err => left; exact ⟨_, rfl, hl2⟩
        | none =>
          simp only
          have hfr := dbFirst_reads env w2 req.AccountID
          cases h3 : dbFirst env w2 req.AccountID with
          | mk r3 w3 =>
            rw [h3] at hfr
            simp only at hfr
            have hl3 : w3.logs = w.logs := by rw [hfr]; exact hl2
            cases r3 with
            | error err =>
              cases err with
              | fault m => left; exact ⟨_, rfl, hl3⟩
              | recordNotFound =>
                simp only
                unfold dbCreate
                cases env.dbFault w3.statements with
                | some m => left; exact ⟨_, rfl, by simpa using hl3⟩
                | none =>
                  simp only
                  by_cases hany : (w3.tokens.any fun r => r.AccountID == req.AccountID) = true
                  · rw [if_pos hany]
                    left; exact ⟨_, rfl, by simpa using hl3⟩
                  · rw [if_neg hany]
                    right
                    exact ⟨_, _, rfl, by simpa using hl3, rfl, rfl⟩
            | ok token =>
              simp only
              unfold dbSave
              cases env.dbFault w3.statements with
              | some m => left; exact ⟨_, rfl, by simpa using hl3⟩
              | none =>
                right
                exact ⟨_, _, rfl, by simpa using hl3, rfl, rfl⟩

/-- The paths of `ValidateToken`: an error or an absent record, with nothing
appended; or a response and at the end the insert of one `validated` entry whose
flag, as passed, is the returned `valid`. -/
theorem ValidateToken_ends (s : TokenService) (env : Env) (w : World) (req : ValidateRequest) :
    ((∃ err, (ValidateToken s env w req).1 = .error err) ∧
      (ValidateToken s env w req).2.logs = w.logs) ∨
    ((dbFirst env w req.AccountID).1 = .error .recordNotFound ∧
      (ValidateToken s env w req).1 = .ok { Valid := false, ExpiresAt := 0, RemainingSeconds := 0 } ∧
      (ValidateToken s env w req).2.logs = w.logs) ∨
    (∃ token stored resp wlast flag msg,
      (dbFirst env w req.AccountID).1 = .ok token ∧
      Decrypt s.aead s.encryptor token.AccessToken = (stored, none) ∧
      ValidateToken s env w req =
        (.ok resp, logAudit env wlast req.AccountID "validated" flag msg) ∧
      wlast.logs = w.logs ∧ wlast.statements = w.statements + 1 ∧ resp.Valid = flag) := by
  unfold ValidateToken
  have hfr := dbFirst_reads env w req.AccountID
  cases h1 : dbFirst env w req.AccountID with
  | mk r1 w1 =>
    rw [h1] at hfr
    simp only at hfr
    have hl1 : w1.logs = w.logs := by rw [hfr]
    have hs1 : w1.statements = w.statements + 1 := by rw [hfr]
    cases r1 with
    | error err =>
      cases err with
      | recordNotFound => right; left; exact ⟨rfl, rfl, hl1⟩
      | fault m => left; exact ⟨⟨_, rfl⟩, hl1⟩
    | ok token =>
      simp only
      cases hd : Decrypt s.aead s.encryptor token.AccessToken with
      | mk stored e1 =>
        cases e1 with
        | some err => left; exact ⟨⟨_, rfl⟩, hl1⟩
        | none =>
          right; right
          simp only
          by_cases hne : stored ≠ req.AccessToken
          · rw [if_pos hne]
            exact ⟨token, stored, _, _, _, _, rfl, hd, rfl, hl1, hs1, rfl⟩
          · rw [if_neg hne]
            cases hexp : token.IsExpired env.now with
            | true =>
              simp only [if_true]
              exact ⟨token, stored, _, _, _, _, rfl, hd, rfl, hl1, hs1, rfl⟩
            | false =>
              simp only [Bool.false_eq_true, if_false]
              unfold validateWithTeslaAPI
              cases env.upstream w1.requests.length (.validate req.AccessToken) with
              | transportError m =>
                exact ⟨token, stored, _, _, _, _, rfl, hd, rfl, by simpa using hl1,
                  by simpa using hs1, rfl⟩
              | status code body =>
                simp only
                by_cases h401 : code = 401
                · rw [if_pos h401]
                  exact ⟨token, stored, _, _, _, _, rfl, hd, rfl, by simpa using hl1,
                    by simpa using hs1, rfl⟩
                · rw [if_neg h401]
                  by_cases h200 : code ≠ 200
                  · rw [if_pos h200]
                    exact ⟨token, stored, _, _, _, _, rfl, hd, rfl, by simpa using hl1,
                      by simpa using hs1, rfl⟩
                  · rw [if_neg h200]
                    exact ⟨token, stored, _, _, _, _, rfl, hd, rfl, by simpa using hl1,
                      by simpa using hs1, rfl⟩

end ImplementationExample

namespace TeslaTokenService

/-- The upsert of `SaveToken` does not touch the audit table; when it succeeds it has
sent two statements. -/
theorem dbFirstOrCreate_frame (env : Env) (w : World) (token : TeslaToken) :
    (dbFirstOrCreate env w token).2.logs = w.logs ∧
    (dbFirstOrCreate env w token).2.requests = w.requests ∧
    ((dbFirstOrCreate env w token).1 = none →
      (dbFirstOrCreate env w token).2.statements = w.statements + 2) := by
  unfold dbFirstOrCreate
  cases env.dbFault w.statements with
  | some m => simp
  | none =>
    simp only
    cases w.tokens.find? (fun r => r.live && r.UserID == token.UserID &&
        (token.ID == 0 || r.ID == token.ID)) with
    | none =>
      simp only
      cases env.dbFault (w.statements + 1) with
      | some m => simp
      | none =>
        simp only
        repeat (split <;> simp)
    | some r =>
      simp only
      cases env.dbFault (w.statements + 1) with
      | some m => simp
      | none => simp

/-- A failing `SaveToken` appends nothing; a successful one ends with the insert of
one `create` entry. -/
theorem SaveToken_ends (env : Env) (w : World) (token : TeslaToken) :
    ((SaveToken env w token).1 ≠ none ∧ (SaveToken env w token).2.logs = w.logs) ∨
    (∃ wlast, SaveToken env w token =
        (none, logTokenUsage env wlast token.UserID "create" "" "" true "") ∧
      wlast.logs = w.logs ∧ wlast.statements = w.statements + 2) := by
  unfold SaveToken
  have hfr := dbFirstOrCreate_frame env w token
  cases h : dbFirstOrCreate env w token with
  | mk r w1 =>
    rw [h] at hfr
    simp only at hfr
    cases r with
    | some err => left; exact ⟨by simp, hfr.1⟩
    | none => right; exact ⟨w1, rfl, hfr.1, hfr.2.2 rfl⟩

/-- The audit entries `GetValidToken` appends: at most one, with the action
`refresh`. -/
theorem GetValidToken_logs (env : Env) (w : World) (userID : String) :
    ∃ pre, (GetValidToken env w userID).2.logs = w.logs ++ pre ∧
      (∀ p ∈ pre, p.Action = "refresh" ∧ p.UserID = userID) ∧ pre.length ≤ 1 := by
  unfold GetValidToken
  have hfr := dbFirst_frame env w userID 0
  cases h1 : dbFirst env w userID 0 with
  | mk r1 w1 =>
    rw [h1] at hfr
    simp only at hfr
    have hl1 : w1.logs = w.logs := by rw [hfr]
    cases r1 with
    | error err => cases err <;> exact ⟨[], by simp [hl1], by simp, by simp⟩
    | ok token =>
      simp only
      split
      · obtain ⟨pre, hpre, hall, hlen⟩ := RefreshTeslaToken_logs env w1 userID
        cases hr : RefreshTeslaToken env w1 userID with
        | mk e w2 =>
          rw [hr] at hpre
          simp only at hpre
          rw [hl1] at hpre
          cases e with
          | some err => exact ⟨pre, hpre, hall, hlen⟩
          | none =>
            simp only
            have hfr2 := dbFirst_frame env w2 userID token.ID
            cases hd : dbFirst env w2 userID token.ID with
            | mk r3 w3 =>
              rw [hd] at hfr2
              simp only at hfr2
              have hl3 : w3.logs = w.logs ++ pre := by rw [hfr2]; exact hpre
              cases r3 <;> exact ⟨pre, hl3, hall, hlen⟩
      · exact ⟨[], by simp [hl1], by simp, by simp⟩

/-- The audit entries `DeleteToken` appends: at most one, with the action `delete`. -/
theorem DeleteToken_logs (env : Env) (w : World) (userID : String) :
    ∃ pre, (DeleteToken env w userID).2.logs = w.logs ++ pre ∧
      (∀ p ∈ pre, p.Action = "delete" ∧ p.UserID = userID) ∧ pre.length ≤ 1 := by
  have key : ∀ (w0 : World) (flag : Bool) (msg : String), w0.logs = w.logs →
      ∃ pre, (logTokenUsage env w0 userID "delete" "" "" flag msg).logs = w.logs ++ pre ∧
        (∀ p ∈ pre, p.Action = "delete" ∧ p.UserID = userID) ∧ pre.length ≤ 1 := by
    intro w0 flag msg h0
    rcases (logTokenUsage_logs env w0 userID "delete" "" "" flag msg).2 with
      ⟨-, h⟩ | ⟨-, e, h, hu, ha, -, -⟩
    · exact ⟨[], by rw [h, h0]; simp, by simp, by simp⟩
    · refine ⟨[e], by rw [h, h0], ?_, by simp⟩
      intro p hp
      rw [List.mem_singleton] at hp
      subst hp
      exact ⟨ha, hu⟩
  unfold DeleteToken dbDelete
  cases env.dbFault w.statements with
  | some m => exact key _ _ _ rfl
  | none =>
    simp only
    split
    · exact key _ _ _ rfl
    · exact key _ _ _ rfl

end TeslaTokenService

namespace ImplementationExample
open Crypto

/-- The audit entries `RefreshToken` appends, and that their actions are `created`
and `refreshed` only. -/
theorem RefreshToken_logs (s : TokenService) (env : Env) (w : World) (accountID : String) :
    ∃ extra, (RefreshToken s env w accountID).2.logs = w.logs ++ extra ∧
      (extra = [] ∨ (∃ e, extra = [e] ∧ e.Action = "refreshed") ∨
        (∃ e, extra = [e] ∧ e.Action = "created" ∧ ∃ n, env.dbFault n ≠ none) ∨
        (∃ e1 e2, extra = [e1, e2] ∧ e1.Action = "created" ∧ e2.Action = "refreshed")) ∧
      ((∀ n, env.dbFault n = none) → ∀ resp, (RefreshToken s env w accountID).1 = .ok resp →
        ∃ e1 e2, extra = [e1, e2] ∧ e1.Action = "created" ∧ e2.Action = "refreshed") := by
  unfold RefreshToken
  have hg := GetToken_frame s env w accountID
  cases h1 : GetToken s env w accountID with
  | mk r1 w1 =>
    rw [h1] at hg
    simp only at hg
    have hl1 : w1.logs = w.logs := by rw [hg]
    cases r1 with
    | error err =>
      exact ⟨[], by simp [hl1], Or.inl rfl, fun _ resp h => by cases h⟩
    | ok tokenResp =>
      simp only
      unfold refreshWithTeslaAPI
      have hfail : ∀ (w0 : World) (msg : String), w0.logs = w.logs →
          ∃ extra, (logAudit env w0 accountID "refreshed" false msg).logs = w.logs ++ extra ∧
            (extra = [] ∨ (∃ e, extra = [e] ∧ e.Action = "refreshed") ∨
              (∃ e, extra = [e] ∧ e.Action = "created" ∧ ∃ n, env.dbFault n ≠ none) ∨
              (∃ e1 e2, extra = [e1, e2] ∧ e1.Action = "created" ∧ e2.Action = "refreshed")) := by
        intro w0 msg h0
        rcases logAudit_logs env w0 accountID "refreshed" false msg with ⟨-, h⟩ | ⟨-, e, h, -, ha, -⟩
        · exact ⟨[], by rw [h, h0]; simp, Or.inl rfl⟩
        · exact ⟨[e], by rw [h, h0], Or.inr (Or.inl ⟨e, rfl, ha⟩)⟩
      cases env.upstream w1.requests.length (.refresh tokenResp.RefreshToken) with
      | transportError msg =>
        obtain ⟨extra, h, hx⟩ := hfail
          { w1 with requests := w1.requests ++ [.refresh tokenResp.RefreshToken] } msg hl1
        exact ⟨extra, h, hx, fun _ resp h => by cases h⟩
      | status code body =>
        simp only
        by_cases hc : code ≠ 200
        · rw [if_pos hc]
          obtain ⟨extra, h, hx⟩ := hfail
            { w1 with requests := w1.requests ++ [.refresh tokenResp.RefreshToken] } _ hl1
          exact ⟨extra, h, hx, fun _ resp h => by cases h⟩
        · rw [if_neg hc]
          cases body with
          | none =>
            obtain ⟨extra, h, hx⟩ := hfail
              { w1 with requests := w1.requests ++ [.refresh tokenResp.RefreshToken] } _ hl1
            exact ⟨extra, h, hx, fun _ resp h => by cases h⟩
          | some teslaResp =>
            simp only
            rcases SaveToken_audit s env
                { w1 with requests := w1.requests ++ [.refresh tokenResp.RefreshToken] }
                { AccountID := accountID, AccessToken := teslaResp.AccessToken,
                  RefreshToken := teslaResp.RefreshToken, ExpiresIn := teslaResp.ExpiresIn,
                  TokenType := teslaResp.TokenType, Scope := teslaResp.Scope } with
              ⟨err, he, hl⟩ | ⟨resp0, wlast, heq, hl, -, -⟩
            · cases hs : SaveToken s env
                  { w1 with requests := w1.requests ++ [.refresh tokenResp.RefreshToken] }
                  { AccountID := accountID, AccessToken := teslaResp.AccessToken,
                    RefreshToken := teslaResp.RefreshToken, ExpiresIn := teslaResp.ExpiresIn,
                    TokenType := teslaResp.TokenType, Scope := teslaResp.Scope } with
              | mk r3 w3 =>
                rw [hs] at he hl
                simp only at he hl
                subst he
                exact ⟨[], by simp [hl, hl1], Or.inl rfl, fun _ resp h => by cases h⟩
            · rw [heq]
              simp only
              rw [GetToken_frame]
              simp only
              rcases logAudit_logs env wlast accountID "created" true "" with
                ⟨hf1, h1'⟩ | ⟨-, e1, h1', -, ha1, -⟩
              · rcases logAudit_logs env (logAudit env wlast accountID "created" true "")
                    accountID "refreshed" true "" with ⟨hf2, h2'⟩ | ⟨-, e2, h2', -, ha2, -⟩
                · refine ⟨[], by rw [h2', h1', hl, hl1]; simp, Or.inl rfl, ?_⟩
                  intro hdb
                  exact absurd (hdb _) hf1
                · refine ⟨[e2], by rw [h2', h1', hl, hl1], Or.inr (Or.inl ⟨e2, rfl, ha2⟩), ?_⟩
                  intro hdb
                  exact absurd (hdb _) hf1
              · rcases logAudit_logs env (logAudit env wlast accountID "created" true "")
                    accountID "refreshed" true "" with ⟨hf2, h2'⟩ | ⟨-, e2, h2', -, ha2, -⟩
                · refine ⟨[e1], by rw [h2', h1', hl, hl1],
                    Or.inr (Or.inr (Or.inl ⟨e1, rfl, ha1, _, hf2⟩)), ?_⟩
                  intro hdb
                  exact absurd (hdb _) hf2
                · refine ⟨[e1, e2], by rw [h2', h1', hl, hl1]; simp,
                    Or.inr (Or.inr (Or.inr ⟨e1, e2, rfl, ha1, ha2⟩)), ?_⟩
                  intro _ resp _
                  exact ⟨e1, e2, rfl, ha1, ha2⟩

end ImplementationExample

namespace TeslaTokenService

/-- C12 does not hold for `SaveToken` of `tesla-token-service`.  Let `row` be the live
record of the user of `token` (what a first successful save left), let `token` have
no key yet, as the handler builds it, and let the two statements of the call be
executed.  Then `SaveToken token` reports success and the table of tokens is
exactly as before: the record of the user is still `row`, with the values of the
first save, whatever access token, refresh token, token type and expiry `token`
carries. -/
theorem C12_second_save_keeps_first_values (env : Env) (w : World) (token row : TeslaToken)
    (hdb0 : env.dbFault w.statements = none) (hdb1 : env.dbFault (w.statements + 1) = none)
    (hid : token.ID = 0) (hrec : storedRecord w token.UserID = some row) :
    (SaveToken env w token).1 = none ∧
    (SaveToken env w token).2.tokens = w.tokens ∧
    storedRecord (SaveToken env w token).2 token.UserID = some row := by
  have hfind : w.tokens.find? (fun r => r.live && r.UserID == token.UserID &&
      (token.ID == 0 || r.ID == token.ID)) = some row := by
    rw [hid, ← storedRecord_eq]
    exact hrec
  have hs : SaveToken env w token =
      (none, logTokenUsage env { w with statements := w.statements + 1 + 1 }
        token.UserID "create" "" "" true "") := by
    unfold SaveToken dbFirstOrCreate
    simp only [hdb0, hfind, hdb1]
  rw [hs]
  refine ⟨rfl, ?_, ?_⟩
  · rw [logTokenUsage_tokens]
  · unfold storedRecord
    rw [logTokenUsage_tokens]
    exact hrec

/-- C12 at two successive saves for `u1`: `sampleToken 5000` at the instant `1000`,
then `laterToken 9000` at the instant `2000`.  Both succeed, and the record still
holds the access token `"a"` and the expiry `5000` of the first save. -/
theorem C12_second_save_keeps_first_values_witness :
    (SaveToken (steadyEnv 1000 200 (.status 401 none)) emptyWorld (sampleToken 5000)).1 = none ∧
    (steadyEnv 2000 200 (.status 401 none)).dbFault (sampleWorld 1000 5000).statements = none ∧
    (laterToken 9000).ID = 0 ∧
    storedRecord (sampleWorld 1000 5000) (laterToken 9000).UserID = some (sampleRow 1000 5000) ∧
    (sampleRow 1000 5000).AccessToken ≠ (laterToken 9000).AccessToken ∧
    (sampleRow 1000 5000).ExpiresAt ≠ (laterToken 9000).ExpiresAt ∧
    ((SaveToken (steadyEnv 2000 200 (.status 401 none)) (sampleWorld 1000 5000)
        (laterToken 9000)).1 = none ∧
      (SaveToken (steadyEnv 2000 200 (.status 401 none)) (sampleWorld 1000 5000)
        (laterToken 9000)).2.tokens = (sampleWorld 1000 5000).tokens ∧
      storedRecord (SaveToken (steadyEnv 2000 200 (.status 401 none)) (sampleWorld 1000 5000)
        (laterToken 9000)).2 (laterToken 9000).UserID = some (sampleRow 1000 5000)) :=
  ⟨by decide, rfl, rfl, by decide, by decide, by decide,
    C12_second_save_keeps_first_values (steadyEnv 2000 200 (.status 401 none))
      (sampleWorld 1000 5000) (laterToken 9000) (sampleRow 1000 5000) rfl rfl rfl (by decide)⟩

end TeslaTokenService

namespace ImplementationExample
open Crypto

/-- The row a read by account finds after `Save` has written `new`, a row of that
account, over the row a read found before. -/
theorem find_after_dbSave (rows : List Token) (acc : String) (token new : Token)
    (hfind : rows.find? (fun r => r.AccountID == acc) = some token)
    (hacc : new.AccountID = acc) :
    (rows.map (fun r => if r.ID = token.ID then new else r)).find?
      (fun r => r.AccountID == acc) = some new := by
  induction rows with
  | nil => simp at hfind
  | cons r rest ih =>
    rw [List.map_cons]
    by_cases hr : r.AccountID = acc
    · have : r = token := by
        rw [List.find?_cons_of_pos _ (by simpa using hr)] at hfind
        exact Option.some.inj hfind
      subst this
      rw [if_pos rfl, List.find?_cons_of_pos _ (by simpa using hacc)]
    · rw [List.find?_cons_of_neg _ (by simpa using hr)] at hfind
      by_cases hid : r.ID = token.ID
      · rw [if_pos hid, List.find?_cons_of_pos _ (by simpa using hacc)]
      · rw [if_neg hid, List.find?_cons_of_neg _ (by simpa using hr)]
        exact ih hfind

/-- The row a read by account finds after `Create` has appended `new`, a row of an
account that had none. -/
theorem find_after_dbCreate (rows : List Token) (acc : String) (new : Token)
    (hfind : rows.find? (fun r => r.AccountID == acc) = none)
    (hacc : new.AccountID = acc) :
    (rows ++ [new]).find? (fun r => r.AccountID == acc) = some new := by
  rw [List.find?_append, hfind]
  simp [hacc]

/-- What a successful `SaveToken` leaves in the store: the row a read of the account
finds holds the cipher blobs of the two tokens, the expiry computed from the clock
and the token type of the request, or `Bearer` when the request has none and the row
is new.  The response carries no token and three statements were sent. -/
theorem SaveToken_stored (s : TokenService) (env : Env) (w w' : World)
    (req : TokenRequest) (resp : TokenResponse)
    (h : SaveToken s env w req = (.ok resp, w')) :
    ∃ row, w'.tokens.find? (fun r => r.AccountID == req.AccountID) = some row ∧
      row.AccountID = req.AccountID ∧
      Decrypt s.aead s.encryptor row.AccessToken = (req.AccessToken, none) ∧
      Decrypt s.aead s.encryptor row.RefreshToken = (req.RefreshToken, none) ∧
      row.ExpiresAt = env.now + wrapInt64 (req.ExpiresIn * Second) ∧
      row.TokenType =
        (if req.TokenType = "" ∧ w.tokens.find? (fun r => r.AccountID == req.AccountID) = none
          then "Bearer" else req.TokenType) ∧
      resp.AccessToken = [] ∧ resp.RefreshToken = [] := by
  unfold SaveToken at h
  cases h1 : encrypt s env w req.AccessToken with
  | mk r1 w1 =>
    obtain ⟨blobA, e1⟩ := r1
    cases e1 with
    | some err => simp [h1] at h
    | none =>
      obtain ⟨⟨rndA, hencA⟩, hw1, -, -⟩ := encrypt_ok s env w w1 _ _ h1
      obtain ⟨hdA, -⟩ := blob_facts s rndA _ _ hencA
      simp only [h1] at h
      cases h2 : encrypt s env w1 req.RefreshToken with
      | mk r2 w2 =>
        obtain ⟨blobR, e2⟩ := r2
        cases e2 with
        | some err => simp [h2] at h
        | none =>
          obtain ⟨⟨rndR, hencR⟩, hw2, -, -⟩ := encrypt_ok s env w1 w2 _ _ h2
          obtain ⟨hdR, -⟩ := blob_facts s rndR _ _ hencR
          simp only [h2] at h
          have htok2 : w2.tokens = w.tokens := by rw [hw2, hw1]
          unfold dbFirst at h
          cases hf : env.dbFault w2.statements with
          | some msg => simp [hf] at h
          | none =>
            simp only [hf] at h
            cases hq : w2.tokens.find? (fun r => r.AccountID == req.AccountID) with
            | none =>
              simp only [hq] at h
              unfold dbCreate at h
              simp only at h
              cases hf2 : env.dbFault (w2.statements + 1) with
              | some msg => simp [hf2] at h
              | none =>
                simp only [hf2] at h
                by_cases hany : (w2.tokens.any fun r => r.AccountID == req.AccountID) = true
                · rw [if_pos hany] at h
                  simp at h
                · rw [if_neg hany] at h
                  simp only [Prod.mk.injEq, Except.ok.injEq] at h
                  obtain ⟨hresp, hw'⟩ := h
                  subst hw'
                  subst hresp
                  rw [htok2] at hq
                  rw [(logAudit_frame _ _ _ _ _ _).1]
                  simp only [htok2]
                  exact ⟨_, find_after_dbCreate _ _ _ hq rfl, rfl, hdA, hdR, rfl,
                    by simp only [hq, and_true], trivial, trivial⟩
            | some token =>
              simp only [hq] at h
              unfold dbSave at h
              simp only at h
              cases hf2 : env.dbFault (w2.statements + 1) with
              | some msg => simp [hf2] at h
              | none =>
                simp only [hf2, Prod.mk.injEq, Except.ok.injEq] at h
                obtain ⟨hresp, hw'⟩ := h
                subst hw'
                subst hresp
                have hacc : token.AccountID = req.AccountID := by
                  have := List.find?_some hq
                  simpa using this
                rw [htok2] at hq
                rw [(logAudit_frame _ _ _ _ _ _).1]
                simp only [htok2]
                exact ⟨_, find_after_dbSave _ _ _ _ hq hacc, hacc, hdA, hdR, rfl,
                  by simp [hq], trivial, trivial⟩

/-- C13 fails for a request without a token type.  The first `SaveToken` of `acc1`
with `token_type = ""` succeeds, the column takes the default `Bearer` of its tag,
and `GetToken` returns `TokenType = "Bearer"`, which is not the request's. -/
theorem C13_counterexample :
    (SaveToken sampleService (steadyEnv 1000 200) emptyWorld
        { sampleRequest with TokenType := "" }).1 =
      .ok { AccountID := "acc1", AccessToken := [], RefreshToken := [],
            ExpiresAt := 1000 + 3600 * Second, TokenType := "Bearer" } ∧
    (GetToken sampleService (steadyEnv 2000 200)
        (SaveToken sampleService (steadyEnv 1000 200) emptyWorld
          { sampleRequest with TokenType := "" }).2 "acc1").1 =
      .ok { AccountID := "acc1", AccessToken := [97], RefreshToken := [114],
            ExpiresAt := 1000 + 3600 * Second, TokenType := "Bearer" } := by
  decide

/-- C13 as amended.  Let `SaveToken req` succeed at the instant `env.now` with the
response `resp`, let `expires_in` lie between `-9223372036` and `9223372036`
seconds, and let the read of a following `GetToken` be executed.  Then
`GetToken req.AccountID` succeeds without changing a table and returns the account,
the access token and the refresh token of `req`, `ExpiresAt = now + expires_in`
seconds, and as token type that of `req`, or `Bearer` when `req` has none and the
account had no record before the save; `resp` carries an empty access token and an
empty refresh token. -/
theorem C13_save_then_get_roundtrip (s : TokenService) (env env2 : Env) (w w' : World)
    (req : TokenRequest) (resp : TokenResponse)
    (h : SaveToken s env w req = (.ok resp, w'))
    (hread : env2.dbFault w'.statements = none)
    (hlo : -9223372036 ≤ req.ExpiresIn) (hhi : req.ExpiresIn ≤ 9223372036) :
    GetToken s env2 w' req.AccountID =
      (.ok { AccountID := req.AccountID, AccessToken := req.AccessToken,
             RefreshToken := req.RefreshToken,
             ExpiresAt := env.now + req.ExpiresIn * Second,
             TokenType :=
               if req.TokenType = "" ∧
                   w.tokens.find? (fun r => r.AccountID == req.AccountID) = none
               then "Bearer" else req.TokenType },
        { w' with statements := w'.statements + 1 }) ∧
    resp.AccessToken = [] ∧ resp.RefreshToken = [] := by
  obtain ⟨row, hfind, hacc, hdA, hdR, hexp, htype, hrA, hrR⟩ := SaveToken_stored s env w w' req resp h
  refine ⟨?_, hrA, hrR⟩
  unfold GetToken dbFirst
  simp only [hread, hfind, hdA, hdR, hacc, hexp, htype, TeslaTokenService.wrapInt64_seconds _ hlo hhi]

/-- C13 as amended, at the first save of `sampleRequest` at the instant `1000` and a
`GetToken` at the instant `2000`. -/
theorem C13_save_then_get_roundtrip_witness :
    SaveToken sampleService (steadyEnv 1000 200) emptyWorld sampleRequest =
      (.ok { AccountID := "acc1", AccessToken := [], RefreshToken := [],
             ExpiresAt := 1000 + 3600 * Second, TokenType := "Bearer" }, sampleWorld 1000) ∧
    (steadyEnv 2000 200).dbFault (sampleWorld 1000).statements = none ∧
    GetToken sampleService (steadyEnv 2000 200) (sampleWorld 1000) "acc1" =
      (.ok { AccountID := "acc1", AccessToken := [97], RefreshToken := [114],
             ExpiresAt := 1000 + 3600 * Second, TokenType := "Bearer" },
        { sampleWorld 1000 with statements := (sampleWorld 1000).statements + 1 }) :=
  ⟨by decide, rfl,
    (C13_save_then_get_roundtrip sampleService (steadyEnv 1000 200) (steadyEnv 2000 200)
      emptyWorld (sampleWorld 1000) sampleRequest
      { AccountID := "acc1", AccessToken := [], RefreshToken := [],
        ExpiresAt := 1000 + 3600 * Second, TokenType := "Bearer" }
      (by decide) rfl (by decide) (by decide)).1⟩

end ImplementationExample

namespace TeslaTokenService

/-- C17 fails on two paths.  `ValidateToken` of the implementation-example for an
account without a record returns `valid = false` and writes no audit entry.
`ValidateTeslaToken` on a store that refuses the read returns the error of the store
and writes no audit entry. -/
theorem C17_counterexample :
    (ImplementationExample.ValidateToken ImplementationExample.sampleService
        (ImplementationExample.steadyEnv 1000 200) ImplementationExample.emptyWorld
        { AccountID := "acc1", AccessToken := [97] }).1 =
      .ok { Valid := false, ExpiresAt := 0, RemainingSeconds := 0 } ∧
    (ImplementationExample.ValidateToken ImplementationExample.sampleService
        (ImplementationExample.steadyEnv 1000 200) ImplementationExample.emptyWorld
        { AccountID := "acc1", AccessToken := [97] }).2.logs = [] ∧
    (ValidateTeslaToken (brokenStoreEnv 1000) (sampleWorld 1000 5000) "u1").1 =
      .error (.db "connection refused") ∧
    (ValidateTeslaToken (brokenStoreEnv 1000) (sampleWorld 1000 5000) "u1").2.logs =
      (sampleWorld 1000 5000).logs := by
  decide

/-- C17 as amended.  `ValidateTeslaToken`: when it returns an error, the only
entries it has appended have the action `refresh`; when it returns a response and
the insert of its last entry is executed, it has appended, after at most two
`refresh` entries, exactly one entry with action `validate`, of the user, and that
entry has success `true` when the response has `valid = true`.  `ValidateToken` of
the implementation-example: when it returns an error (the read or the decryption
failed) or the account has no record, the audit table is as before; when it returns
a response for a record that exists and the insert is executed, it has appended
exactly one entry, with action `validated`, of the account, and with success `true`
when the response has `valid = true`. -/
theorem C17_validate_entry_on_answered_paths (env : Env) (w : World) (userID : String)
    (s : ImplementationExample.TokenService) (env' : ImplementationExample.Env)
    (w' : ImplementationExample.World) (req : ImplementationExample.ValidateRequest) :
    ((∀ err, (ValidateTeslaToken env w userID).1 = .error err →
        ∃ pre, (ValidateTeslaToken env w userID).2.logs = w.logs ++ pre ∧
          ∀ p ∈ pre, p.Action = "refresh") ∧
      (∀ resp, (ValidateTeslaToken env w userID).1 = .ok resp →
        env.dbFault ((ValidateTeslaToken env w userID).2.statements - 1) = none →
        ∃ pre e, (ValidateTeslaToken env w userID).2.logs = w.logs ++ pre ++ [e] ∧
          (∀ p ∈ pre, p.Action = "refresh") ∧ pre.length ≤ 2 ∧
          e.Action = "validate" ∧ e.UserID = userID ∧
          (resp.Valid = true → e.Success = true))) ∧
    ((∀ err, (ImplementationExample.ValidateToken s env' w' req).1 = .error err →
        (ImplementationExample.ValidateToken s env' w' req).2.logs = w'.logs) ∧
      ((ImplementationExample.dbFirst env' w' req.AccountID).1 = .error .recordNotFound →
        (ImplementationExample.ValidateToken s env' w' req).1 =
          .ok { Valid := false, ExpiresAt := 0, RemainingSeconds := 0 } ∧
        (ImplementationExample.ValidateToken s env' w' req).2.logs = w'.logs) ∧
      (∀ resp token, (ImplementationExample.ValidateToken s env' w' req).1 = .ok resp →
        (ImplementationExample.dbFirst env' w' req.AccountID).1 = .ok token →
        env'.dbFault (w'.statements + 1) = none →
        ∃ e, (ImplementationExample.ValidateToken s env' w' req).2.logs = w'.logs ++ [e] ∧
          e.Action = "validated" ∧ e.AccountID = req.AccountID ∧
          (resp.Valid = true → e.Success = true))) := by
  constructor
  · rcases ValidateTeslaToken_ends env w userID with
      ⟨err, pre, herr, hl, hall⟩ | ⟨wlast, flag, msg, resp, pre, heq, hl, hall, hlen, hv⟩
    · constructor
      · intro _ _
        exact ⟨pre, hl, fun p hp => (hall p hp).1⟩
      · intro resp hresp
        rw [herr] at hresp
        cases hresp
    · constructor
      · intro err herr
        rw [heq] at herr
        cases herr
      · intro resp0 hresp hdb
        rw [heq] at hresp hdb ⊢
        simp only [Except.ok.injEq] at hresp
        subst hresp
        obtain ⟨hst, hcases⟩ := logTokenUsage_logs env wlast userID "validate" "" "" flag msg
        simp only [hst, Nat.add_sub_cancel] at hdb
        rcases hcases with ⟨hne, -⟩ | ⟨-, e, h, hu, ha, hs, -⟩
        · exact absurd hdb hne
        · exact ⟨pre, e, by simp only [h, hl], fun p hp => (hall p hp).1, hlen, ha, hu,
            fun _ => hs⟩
  · rcases ImplementationExample.ValidateToken_ends s env' w' req with
      ⟨⟨err, herr⟩, hl⟩ | ⟨hfirst, hres, hl⟩ |
      ⟨token, stored, resp, wlast, flag, msg, hfirst, -, heq, hl, hst, hv⟩
    · refine ⟨fun _ _ => hl, fun _ => ?_, ?_⟩
      · rw [herr]
        refine ⟨?_, hl⟩
        exfalso
        rename_i hnf
        unfold ImplementationExample.ValidateToken at herr
        rw [show ImplementationExample.dbFirst env' w' req.AccountID =
          ((ImplementationExample.dbFirst env' w' req.AccountID).1,
            (ImplementationExample.dbFirst env' w' req.AccountID).2) from rfl, hnf] at herr
        simp at herr
      · intro resp token hresp
        rw [herr] at hresp
        cases hresp
    · refine ⟨fun err herr => ?_, fun _ => ⟨hres, hl⟩, ?_⟩
      · rw [hres] at herr
        cases herr
      · intro resp token _ htok
        rw [hfirst] at htok
        cases htok
    · refine ⟨fun err herr => ?_, fun hnf => ?_, ?_⟩
      · rw [heq] at herr
        cases herr
      · rw [hfirst] at hnf
        cases hnf
      · intro resp0 token0 hresp _ hdb
        rw [heq] at hresp ⊢
        simp only [Except.ok.injEq] at hresp
        subst hresp
        rw [← hst] at hdb
        rcases ImplementationExample.logAudit_logs env' wlast req.AccountID "validated" flag msg
          with ⟨hne, -⟩ | ⟨-, e, h, hacc, ha, hs⟩
        · exact absurd hdb hne
        · exact ⟨e, by rw [h, hl], ha, hacc, fun _ => hs⟩

end TeslaTokenService

namespace ImplementationExample
open Crypto

/-- A read of an account whose row holds cipher blobs of the encryptor succeeds. -/
theorem GetToken_ok (s : TokenService) (env : Env) (w : World) (accountID : String)
    (row : Token) (a r : GoString) (hdb : env.dbFault w.statements = none)
    (hfind : w.tokens.find? (fun r => r.AccountID == accountID) = some row)
    (hdA : Decrypt s.aead s.encryptor row.AccessToken = (a, none))
    (hdR : Decrypt s.aead s.encryptor row.RefreshToken = (r, none)) :
    ∃ resp, (GetToken s env w accountID).1 = .ok resp := by
  unfold GetToken dbFirst
  simp only [hdb, hfind, hdA, hdR]
  exact ⟨_, rfl⟩

/-- On a store without faults a failing `RefreshToken` has appended nothing or one
`refreshed` entry. -/
theorem RefreshToken_error_logs (s : TokenService) (env : Env) (w : World)
    (accountID : String) (err : ServiceError) (hdb : ∀ n, env.dbFault n = none)
    (herr : (RefreshToken s env w accountID).1 = .error err) :
    (RefreshToken s env w accountID).2.logs = w.logs ∨
    ∃ e, (RefreshToken s env w accountID).2.logs = w.logs ++ [e] ∧ e.Action = "refreshed" := by
  unfold RefreshToken at herr ⊢
  have hg := GetToken_frame s env w accountID
  cases h1 : GetToken s env w accountID with
  | mk r1 w1 =>
    rw [h1] at hg herr
    simp only at hg
    have hl1 : w1.logs = w.logs := by rw [hg]
    cases r1 with
    | error err0 => exact Or.inl hl1
    | ok tokenResp =>
      simp only at herr ⊢
      unfold refreshWithTeslaAPI at herr ⊢
      have hfail : ∀ (w0 : World) (msg : String), w0.logs = w.logs →
          (logAudit env w0 accountID "refreshed" false msg).logs = w.logs ∨
          ∃ e, (logAudit env w0 accountID "refreshed" false msg).logs = w.logs ++ [e] ∧
            e.Action = "refreshed" := by
        intro w0 msg h0
        rcases logAudit_logs env w0 accountID "refreshed" false msg with ⟨-, h⟩ | ⟨-, e, h, -, ha, -⟩
        · exact Or.inl (by rw [h, h0])
        · exact Or.inr ⟨e, by rw [h, h0], ha⟩
      cases hup : env.upstream w1.requests.length (.refresh tokenResp.RefreshToken) with
      | transportError msg => exact hfail _ msg hl1
      | status code body =>
        rw [hup] at herr
        simp only at herr ⊢
        by_cases hc : code ≠ 200
        · rw [if_pos hc]
          exact hfail _ _ hl1
        · rw [if_neg hc] at herr ⊢
          cases body with
          | none => exact hfail _ _ hl1
          | some teslaResp =>
            simp only at herr ⊢
            rcases SaveToken_audit s env
                { w1 with requests := w1.requests ++ [.refresh tokenResp.RefreshToken] }
                { AccountID := accountID, AccessToken := teslaResp.AccessToken,
                  RefreshToken := teslaResp.RefreshToken, ExpiresIn := teslaResp.ExpiresIn,
                  TokenType := teslaResp.TokenType, Scope := teslaResp.Scope } with
              ⟨err1, he, hl⟩ | ⟨resp0, wlast, heq, hl, -, -⟩
            · cases hs : SaveToken s env
                  { w1 with requests := w1.requests ++ [.refresh tokenResp.RefreshToken] }
                  { AccountID := accountID, AccessToken := teslaResp.AccessToken,
                    RefreshToken := teslaResp.RefreshToken, ExpiresIn := teslaResp.ExpiresIn,
                    TokenType := teslaResp.TokenType, Scope := teslaResp.Scope } with
              | mk r3 w3 =>
                rw [hs] at he hl
                simp only at he hl
                subst he
                exact Or.inl (by simp [hl, hl1])
            · exfalso
              obtain ⟨row, hfind, -, hdA, hdR, -⟩ := SaveToken_stored s env _ _ _ resp0 heq
              rw [heq] at herr
              simp only at herr
              obtain ⟨resp1, hok⟩ := GetToken_ok s env
                (logAudit env (logAudit env wlast accountID "created" true "") accountID
                  "refreshed" true "") accountID row _ _ (hdb _)
                (by rw [(logAudit_frame _ _ _ _ _ _).1]; exact hfind) hdA hdR
              rw [hok] at herr
              cases herr

end ImplementationExample

namespace TeslaTokenService

/-- A refresh for a user without a live record fails before anything is logged. -/
theorem RefreshTeslaToken_absent (env : Env) (w : World) (userID : String)
    (hrec : storedRecord w userID = none) :
    (RefreshTeslaToken env w userID).1 = some (.tokenNotFound userID) ∧
    (RefreshTeslaToken env w userID).2.logs = w.logs := by
  rw [storedRecord_eq] at hrec
  unfold RefreshTeslaToken dbFirst
  cases env.dbFault w.statements with
  | some m => exact ⟨rfl, rfl⟩
  | none =>
    simp only [hrec]
    exact ⟨trivial, trivial⟩

/-- A refresh for a user with a live record, on a store without faults, appends one
`refresh` entry whatever the upstream answers. -/
theorem RefreshTeslaToken_one_entry (env : Env) (w : World) (userID : String)
    (token : TeslaToken) (hdb : ∀ n, env.dbFault n = none)
    (hrec : storedRecord w userID = some token) :
    ∃ e, (RefreshTeslaToken env w userID).2.logs = w.logs ++ [e] ∧
      e.Action = "refresh" ∧ e.UserID = userID := by
  have key : ∀ (w0 : World) (flag : Bool) (msg : String), w0.logs = w.logs →
      ∃ e, (logTokenUsage env w0 userID "refresh" "" "" flag msg).logs = w.logs ++ [e] ∧
        e.Action = "refresh" ∧ e.UserID = userID := by
    intro w0 flag msg h0
    rcases (logTokenUsage_logs env w0 userID "refresh" "" "" flag msg).2 with
      ⟨hne, -⟩ | ⟨-, e, h, hu, ha, -, -⟩
    · exact absurd (hdb _) hne
    · exact ⟨e, by rw [h, h0], ha, hu⟩
  rw [storedRecord_eq] at hrec
  unfold RefreshTeslaToken dbFirst httpDo
  simp only [hdb, hrec]
  cases env.upstream w.requests.length (.refresh token.RefreshToken) with
  | transportError msg => exact key _ _ _ rfl
  | status code body =>
    simp only
    by_cases hc : code ≠ 200
    · rw [if_pos hc]
      exact key _ _ _ rfl
    · rw [if_neg hc]
      cases body with
      | none => exact key _ _ _ rfl
      | some resp =>
        simp only [dbSave, hdb]
        exact key _ _ _ rfl

/-- C18 fails on three paths.  `RefreshTeslaToken` for a user without a record
returns the not-found error and appends no entry.  `SaveToken` on a store that
refuses its statements returns the error and appends no entry.  A successful
`RefreshToken` of the implementation-example appends two entries: the table has two
rows more, one more with the action `created` (from the `SaveToken` it calls) and
one with the action `refreshed`. -/
theorem C18_counterexample :
    (RefreshTeslaToken (steadyEnv 1000 200 (sampleRefreshAnswer [])) emptyWorld "u1").1 =
      some (.tokenNotFound "u1") ∧
    (RefreshTeslaToken (steadyEnv 1000 200 (sampleRefreshAnswer [])) emptyWorld "u1").2.logs = [] ∧
    (SaveToken (brokenStoreEnv 1000) emptyWorld (sampleToken 5000)).1 =
      some (.db "connection refused") ∧
    (SaveToken (brokenStoreEnv 1000) emptyWorld (sampleToken 5000)).2.logs = [] ∧
    (ImplementationExample.RefreshToken ImplementationExample.sampleService
        (ImplementationExample.grantingEnv 2000) (ImplementationExample.sampleWorld 1000)
        "acc1").1 = .ok { AccountID := "acc1", AccessToken := [98], RefreshToken := [115],
                          ExpiresAt := 2000 + 3600 * Second, TokenType := "Bearer" } ∧
    (ImplementationExample.RefreshToken ImplementationExample.sampleService
        (ImplementationExample.grantingEnv 2000) (ImplementationExample.sampleWorld 1000)
        "acc1").2.logs.length = (ImplementationExample.sampleWorld 1000).logs.length + 2 ∧
    ((ImplementationExample.sampleWorld 1000).logs.map (·.Action)).count "created" = 1 ∧
    ((ImplementationExample.sampleWorld 1000).logs.map (·.Action)).count "refreshed" = 0 ∧
    ((ImplementationExample.RefreshToken ImplementationExample.sampleService
        (ImplementationExample.grantingEnv 2000) (ImplementationExample.sampleWorld 1000)
        "acc1").2.logs.map (·.Action)).count "created" = 2 ∧
    ((ImplementationExample.RefreshToken ImplementationExample.sampleService
        (ImplementationExample.grantingEnv 2000) (ImplementationExample.sampleWorld 1000)
        "acc1").2.logs.map (·.Action)).count "refreshed" = 1 := by
  decide

/-- C18 as amended, on stores without faults.  `SaveToken` of `tesla-token-service`
appends nothing when it fails and exactly one entry with action `create` and
success `true` when it succeeds.  `RefreshTeslaToken` appends nothing for a user
without a live record and exactly one entry with action `refresh` for a user with
one.  `SaveToken` of the implementation-example appends nothing when it fails and
exactly one entry with action `created` and success `true` when it succeeds.
`RefreshToken` of the implementation-example appends exactly two entries when it
succeeds, one `created` and one `refreshed`, in whichever order the two inserts
reach the table, and nothing or exactly one `refreshed` entry when it fails. -/
theorem C18_audit_entries_of_save_and_refresh (env : Env) (w : World) (token : TeslaToken)
    (userID : String) (s : ImplementationExample.TokenService)
    (env' : ImplementationExample.Env) (w' : ImplementationExample.World)
    (req : ImplementationExample.TokenRequest) (accountID : String)
    (hdb : ∀ n, env.dbFault n = none) (hdb' : ∀ n, env'.dbFault n = none) :
    ((SaveToken env w token).1 ≠ none → (SaveToken env w token).2.logs = w.logs) ∧
    ((SaveToken env w token).1 = none →
      ∃ e, (SaveToken env w token).2.logs = w.logs ++ [e] ∧
        e.Action = "create" ∧ e.UserID = token.UserID ∧ e.Success = true) ∧
    (storedRecord w userID = none →
      (RefreshTeslaToken env w userID).1 = some (.tokenNotFound userID) ∧
      (RefreshTeslaToken env w userID).2.logs = w.logs) ∧
    (storedRecord w userID ≠ none →
      ∃ e, (RefreshTeslaToken env w userID).2.logs = w.logs ++ [e] ∧
        e.Action = "refresh" ∧ e.UserID = userID) ∧
    (∀ err, (ImplementationExample.SaveToken s env' w' req).1 = .error err →
      (ImplementationExample.SaveToken s env' w' req).2.logs = w'.logs) ∧
    (∀ resp, (ImplementationExample.SaveToken s env' w' req).1 = .ok resp →
      ∃ e, (ImplementationExample.SaveToken s env' w' req).2.logs = w'.logs ++ [e] ∧
        e.Action = "created" ∧ e.AccountID = req.AccountID ∧ e.Success = true) ∧
    (∀ resp, (ImplementationExample.RefreshToken s env' w' accountID).1 = .ok resp →
      ∃ extra e1 e2, (ImplementationExample.RefreshToken s env' w' accountID).2.logs =
          w'.logs ++ extra ∧ extra.Perm [e1, e2] ∧
        e1.Action = "created" ∧ e2.Action = "refreshed") ∧
    (∀ err, (ImplementationExample.RefreshToken s env' w' accountID).1 = .error err →
      (ImplementationExample.RefreshToken s env' w' accountID).2.logs = w'.logs ∨
      ∃ e, (ImplementationExample.RefreshToken s env' w' accountID).2.logs = w'.logs ++ [e] ∧
        e.Action = "refreshed") := by
  refine ⟨?_, ?_, RefreshTeslaToken_absent env w userID, ?_, ?_, ?_, ?_, ?_⟩
  · intro hne
    rcases SaveToken_ends env w token with ⟨-, hl⟩ | ⟨wlast, heq, -, -⟩
    · exact hl
    · rw [heq] at hne
      exact absurd rfl hne
  · intro hok
    rcases SaveToken_ends env w token with ⟨hne, -⟩ | ⟨wlast, heq, hl, -⟩
    · exact absurd hok hne
    · rw [heq]
      rcases (logTokenUsage_logs env wlast token.UserID "create" "" "" true "").2 with
        ⟨hne, -⟩ | ⟨-, e, h, hu, ha, hs, -⟩
      · exact absurd (hdb _) hne
      · exact ⟨e, by rw [h, hl], ha, hu, hs⟩
  · intro hne
    cases hrec : storedRecord w userID with
    | none => exact absurd hrec hne
    | some token0 => exact RefreshTeslaToken_one_entry env w userID token0 hdb hrec
  · intro err herr
    rcases ImplementationExample.SaveToken_audit s env' w' req with
      ⟨-, -, hl⟩ | ⟨resp, wlast, heq, -, -, -⟩
    · exact hl
    · rw [heq] at herr
      cases herr
  · intro resp hresp
    rcases ImplementationExample.SaveToken_audit s env' w' req with
      ⟨err, herr, -⟩ | ⟨resp0, wlast, heq, hl, -, -⟩
    · rw [herr] at hresp
      cases hresp
    · rw [heq]
      rcases ImplementationExample.logAudit_logs env' wlast req.AccountID "created" true ""
        with ⟨hne, -⟩ | ⟨-, e, h, hacc, ha, hs⟩
      · exact absurd (hdb' _) hne
      · exact ⟨e, by rw [h, hl], ha, hacc, hs⟩
  · intro resp hresp
    obtain ⟨extra, hl, -, hok⟩ := ImplementationExample.RefreshToken_logs s env' w' accountID
    obtain ⟨e1, e2, hx, h1, h2⟩ := hok hdb' resp hresp
    exact ⟨extra, e1, e2, hl, by rw [hx], h1, h2⟩
  · intro err herr
    exact ImplementationExample.RefreshToken_error_logs s env' w' accountID err hdb' herr

/-- C18 as amended, at the first save of `sampleToken 5000`, the record of `u1` and a
granted `RefreshToken` of `acc1`. -/
theorem C18_audit_entries_of_save_and_refresh_witness :
    (∀ n, (steadyEnv 1000 200 (sampleRefreshAnswer [])).dbFault n = none) ∧
    (∀ n, (ImplementationExample.grantingEnv 2000).dbFault n = none) ∧
    (SaveToken (steadyEnv 1000 200 (sampleRefreshAnswer [])) emptyWorld (sampleToken 5000)).1
      = none ∧
    storedRecord (sampleWorld 1000 5000) "u1" ≠ none ∧
    (ImplementationExample.RefreshToken ImplementationExample.sampleService
        (ImplementationExample.grantingEnv 2000) (ImplementationExample.sampleWorld 1000)
        "acc1").1 = .ok { AccountID := "acc1", AccessToken := [98], RefreshToken := [115],
                          ExpiresAt := 2000 + 3600 * Second, TokenType := "Bearer" } ∧
    (∃ e, (SaveToken (steadyEnv 1000 200 (sampleRefreshAnswer [])) emptyWorld
        (sampleToken 5000)).2.logs = emptyWorld.logs ++ [e] ∧
      e.Action = "create" ∧ e.UserID = (sampleToken 5000).UserID ∧ e.Success = true) ∧
    (∃ extra e1 e2, (ImplementationExample.RefreshToken ImplementationExample.sampleService
        (ImplementationExample.grantingEnv 2000) (ImplementationExample.sampleWorld 1000)
        "acc1").2.logs = (ImplementationExample.sampleWorld 1000).logs ++ extra ∧
      extra.Perm [e1, e2] ∧ e1.Action = "created" ∧ e2.Action = "refreshed") :=
  have h := C18_audit_entries_of_save_and_refresh (steadyEnv 1000 200 (sampleRefreshAnswer []))
    emptyWorld (sampleToken 5000) "u1" ImplementationExample.sampleService
    (ImplementationExample.grantingEnv 2000) (ImplementationExample.sampleWorld 1000)
    ImplementationExample.sampleRequest "acc1" (fun _ => rfl) (fun _ => rfl)
  ⟨fun _ => rfl, fun _ => rfl, by decide, by decide, by decide,
    h.2.1 (by decide), h.2.2.2.2.2.2.1
      { AccountID := "acc1", AccessToken := [98], RefreshToken := [115],
        ExpiresAt := 2000 + 3600 * Second, TokenType := "Bearer" } (by decide)⟩


/-- C19 fails for the implementation-example: the entry its `SaveToken` writes has
the action `created`, which is none of `create`, `refresh`, `validate`, `delete`. -/
theorem C19_counterexample :
    (ImplementationExample.SaveToken ImplementationExample.sampleService
        (ImplementationExample.steadyEnv 1000 200) ImplementationExample.emptyWorld
        ImplementationExample.sampleRequest).2.logs.map (·.Action) = ["created"] ∧
    "created" ∉ ["create", "refresh", "validate", "delete"] := by
  decide

/-- C19 as amended.  Every operation of `tesla-token-service` (`SaveToken`,
`RefreshTeslaToken`, `GetValidToken`, `ValidateTeslaToken`, `DeleteToken`,
`CleanupExpiredTokens`, `GetTokenUsageLogs`) only appends to the audit table, and
every entry it appends has one of the actions `create`, `refresh`, `validate`,
`delete`.  Every operation of the implementation-example (`SaveToken`, `GetToken`,
`ValidateToken`, `RefreshToken`) only appends to the audit table, and every entry it
appends has one of the actions `created`, `refreshed`, `validated`. -/
theorem C19_actions_written_per_variant (env : Env) (w : World) (token : TeslaToken)
    (userID : String) (limit : Int)
    (s : ImplementationExample.TokenService) (env' : ImplementationExample.Env)
    (w' : ImplementationExample.World) (req : ImplementationExample.TokenRequest)
    (vreq : ImplementationExample.ValidateRequest) (accountID : String) :
    (∀ after ∈ [(SaveToken env w token).2.logs, (RefreshTeslaToken env w userID).2.logs,
        (GetValidToken env w userID).2.logs, (ValidateTeslaToken env w userID).2.logs,
        (DeleteToken env w userID).2.logs, (CleanupExpiredTokens env w).2.logs,
        (GetTokenUsageLogs env w userID limit).2.logs],
      ∃ extra, after = w.logs ++ extra ∧
        ∀ e ∈ extra, e.Action ∈ ["create", "refresh", "validate", "delete"]) ∧
    (∀ after ∈ [(ImplementationExample.SaveToken s env' w' req).2.logs,
        (ImplementationExample.GetToken s env' w' accountID).2.logs,
        (ImplementationExample.ValidateToken s env' w' vreq).2.logs,
        (ImplementationExample.RefreshToken s env' w' accountID).2.logs],
      ∃ extra, after = w'.logs ++ extra ∧
        ∀ e ∈ extra, e.Action ∈ ["created", "refreshed", "validated"]) := by
  have one : ∀ (w0 : World) (u a : String) (flag : Bool) (msg : String) (pre : List TokenUsageLog),
      w0.logs = w.logs ++ pre →
      (∀ p ∈ pre, p.Action ∈ ["create", "refresh", "validate", "delete"]) →
      a ∈ ["create", "refresh", "validate", "delete"] →
      ∃ extra, (logTokenUsage env w0 u a "" "" flag msg).logs = w.logs ++ extra ∧
        ∀ e ∈ extra, e.Action ∈ ["create", "refresh", "validate", "delete"] := by
    intro w0 u a flag msg pre h0 hpre ha
    rcases (logTokenUsage_logs env w0 u a "" "" flag msg).2 with ⟨-, h⟩ | ⟨-, e, h, -, hact, -, -⟩
    · exact ⟨pre, by rw [h, h0], hpre⟩
    · refine ⟨pre ++ [e], by rw [h, h0, List.append_assoc], ?_⟩
      intro x hx
      rcases List.mem_append.mp hx with hx | hx
      · exact hpre x hx
      · rw [List.mem_singleton] at hx
        subst hx
        rw [hact]
        exact ha
  have one' : ∀ (w0 : ImplementationExample.World) (u a : String) (flag : Bool) (msg : String),
      w0.logs = w'.logs → a ∈ ["created", "refreshed", "validated"] →
      ∃ extra, (ImplementationExample.logAudit env' w0 u a flag msg).logs = w'.logs ++ extra ∧
        ∀ e ∈ extra, e.Action ∈ ["created", "refreshed", "validated"] := by
    intro w0 u a flag msg h0 ha
    rcases ImplementationExample.logAudit_logs env' w0 u a flag msg with
      ⟨-, h⟩ | ⟨-, e, h, -, hact, -⟩
    · exact ⟨[], by rw [h, h0]; simp, by simp⟩
    · refine ⟨[e], by rw [h, h0], ?_⟩
      intro x hx
      rw [List.mem_singleton] at hx
      subst hx
      rw [hact]
      exact ha
  have ofRefresh : ∀ pre : List TokenUsageLog,
      (∀ p ∈ pre, p.Action = "refresh" ∧ p.UserID = userID) →
      ∀ p ∈ pre, p.Action ∈ ["create", "refresh", "validate", "delete"] := by
    intro pre h p hp
    rw [(h p hp).1]
    decide
  constructor
  · intro after hafter
    simp only [List.mem_cons, List.mem_singleton, List.not_mem_nil, or_false] at hafter
    rcases hafter with h | h | h | h | h | h | h
    · subst h
      rcases SaveToken_ends env w token with ⟨-, hl⟩ | ⟨wlast, heq, hl, -⟩
      · exact ⟨[], by rw [hl]; simp, by simp⟩
      · rw [heq]
        exact one wlast _ _ _ _ [] (by rw [hl]; simp) (by simp) (by decide)
    · subst h
      obtain ⟨pre, hl, hall, -⟩ := RefreshTeslaToken_logs env w userID
      exact ⟨pre, hl, ofRefresh pre hall⟩
    · subst h
      obtain ⟨pre, hl, hall, -⟩ := GetValidToken_logs env w userID
      exact ⟨pre, hl, ofRefresh pre hall⟩
    · subst h
      rcases ValidateTeslaToken_ends env w userID with
        ⟨err, pre, -, hl, hall⟩ | ⟨wlast, flag, msg, resp, pre, heq, hl, hall, -, -⟩
      · exact ⟨pre, hl, ofRefresh pre hall⟩
      · rw [heq]
        exact one wlast _ _ _ _ pre hl (ofRefresh pre hall) (by decide)
    · subst h
      obtain ⟨pre, hl, hall, -⟩ := DeleteToken_logs env w userID
      refine ⟨pre, hl, ?_⟩
      intro p hp
      rw [(hall p hp).1]
      decide
    · subst h
      refine ⟨[], ?_, by simp⟩
      unfold CleanupExpiredTokens
      cases env.dbFault w.statements <;> simp
    · subst h
      refine ⟨[], ?_, by simp⟩
      unfold GetTokenUsageLogs
      cases env.dbFault w.statements <;> simp
  · intro after hafter
    simp only [List.mem_cons, List.mem_singleton, List.not_mem_nil, or_false] at hafter
    rcases hafter with h | h | h | h
    · subst h
      rcases ImplementationExample.SaveToken_audit s env' w' req with
        ⟨err, -, hl⟩ | ⟨resp, wlast, heq, hl, -, -⟩
      · exact ⟨[], by rw [hl]; simp, by simp⟩
      · rw [heq]
        exact one' wlast _ _ _ _ hl (by decide)
    · subst h
      rw [ImplementationExample.GetToken_frame]
      exact ⟨[], by simp, by simp⟩
    · subst h
      rcases ImplementationExample.ValidateToken_ends s env' w' vreq with
        ⟨-, hl⟩ | ⟨-, -, hl⟩ | ⟨token, stored, resp, wlast, flag, msg, -, -, heq, hl, -, -⟩
      · exact ⟨[], by rw [hl]; simp, by simp⟩
      · exact ⟨[], by rw [hl]; simp, by simp⟩
      · rw [heq]
        exact one' wlast _ _ _ _ hl (by decide)
    · subst h
      obtain ⟨extra, hl, hshape, -⟩ := ImplementationExample.RefreshToken_logs s env' w' accountID
      refine ⟨extra, hl, ?_⟩
      rcases hshape with h | ⟨e, h, ha⟩ | ⟨e, h, ha, -⟩ | ⟨e1, e2, h, ha1, ha2⟩
      · subst h; simp
      · subst h
        intro x hx
        rw [List.mem_singleton] at hx
        subst hx; rw [ha]; decide
      · subst h
        intro x hx
        rw [List.mem_singleton] at hx
        subst hx; rw [ha]; decide
      · subst h
        intro x hx
        simp only [List.mem_cons, List.mem_singleton, List.not_mem_nil, or_false] at hx
        rcases hx with hx | hx
        · subst hx; rw [ha1]; decide
        · subst hx; rw [ha2]; decide


/-- C14 at the record of `u1` saved at the instant `1000`, deleted at the instants
`2000` and `3000`. -/
theorem C14_second_delete_logged_with_success_true_witness :
    (∀ n, (steadyEnv 2000 200 (.status 401 none)).dbFault n = none) ∧
    (∀ n, (steadyEnv 3000 200 (.status 401 none)).dbFault n = none) ∧
    storedRecord (sampleWorld 1000 5000) "u1" = some (sampleRow 1000 5000) ∧
    (DeleteToken (steadyEnv 2000 200 (.status 401 none)) (sampleWorld 1000 5000) "u1").1 = none ∧
    (DeleteToken (steadyEnv 3000 200 (.status 401 none))
      (DeleteToken (steadyEnv 2000 200 (.status 401 none)) (sampleWorld 1000 5000) "u1").2
      "u1").1 = some (.tokenNotFound "u1") ∧
    ∃ e1 e2,
      (DeleteToken (steadyEnv 2000 200 (.status 401 none)) (sampleWorld 1000 5000) "u1").2.logs =
        (sampleWorld 1000 5000).logs ++ [e1] ∧
      (DeleteToken (steadyEnv 3000 200 (.status 401 none))
        (DeleteToken (steadyEnv 2000 200 (.status 401 none)) (sampleWorld 1000 5000) "u1").2
        "u1").2.logs = (sampleWorld 1000 5000).logs ++ [e1, e2] ∧
      e1.UserID = "u1" ∧ e1.Action = "delete" ∧ e1.Success = true ∧
      e2.UserID = "u1" ∧ e2.Action = "delete" ∧ e2.Success = true :=
  have h := C14_second_delete_logged_with_success_true (steadyEnv 2000 200 (.status 401 none))
    (steadyEnv 3000 200 (.status 401 none)) (sampleWorld 1000 5000) "u1" (sampleRow 1000 5000)
    (fun _ => rfl) (fun _ => rfl) (by decide)
  ⟨fun _ => rfl, fun _ => rfl, by decide, h.1, h.2.2.2.2.1, h.2.2.2.2.2.2⟩

/-- C15 as amended, at the 101 entries of `busyWorld` and the limit `3`. -/
theorem C15_logs_of_user_newest_first_witness :
    (steadyEnv 2000 200 (.status 401 none)).dbFault busyWorld.statements = none ∧
    ∃ rows, (GetTokenUsageLogs (steadyEnv 2000 200 (.status 401 none)) busyWorld "u1" 3).1 =
        .ok rows ∧
      (∀ e ∈ rows, e ∈ busyWorld.logs ∧ e.UserID = "u1") ∧
      rows.Sorted newestFirst ∧
      ((0 : Int) < 3 → rows.length ≤ (3 : Int).toNat ∧
        rows = ((busyWorld.logs.filter (fun e => e.UserID == "u1")).insertionSort
          newestFirst).take (3 : Int).toNat) ∧
      ((3 : Int) ≤ 0 → rows.Perm (busyWorld.logs.filter (fun e => e.UserID == "u1"))) :=
  ⟨rfl, C15_logs_of_user_newest_first (steadyEnv 2000 200 (.status 401 none)) busyWorld "u1" 3
    rfl⟩

/-- C16 at the record of `u1` that expires at the instant `5000`: a sweep exactly 7
days later leaves it as it is, a sweep one nanosecond after that marks it as
deleted. -/
theorem C16_cleanup_removes_exactly_expired_witness :
    (steadyEnv (5000 + 7 * 24 * Hour) 200 (.status 401 none)).dbFault
      (sampleWorld 1000 5000).statements = none ∧
    (CleanupExpiredTokens (steadyEnv (5000 + 7 * 24 * Hour) 200 (.status 401 none))
      (sampleWorld 1000 5000)).2.tokens = [sampleRow 1000 5000] ∧
    (CleanupExpiredTokens (steadyEnv (5001 + 7 * 24 * Hour) 200 (.status 401 none))
      (sampleWorld 1000 5000)).2.tokens =
        [{ sampleRow 1000 5000 with DeletedAt := some (5001 + 7 * 24 * Hour) }] ∧
    (CleanupExpiredTokens (steadyEnv (5000 + 7 * 24 * Hour) 200 (.status 401 none))
        (sampleWorld 1000 5000)).1 = none ∧
    (CleanupExpiredTokens (steadyEnv (5000 + 7 * 24 * Hour) 200 (.status 401 none))
        (sampleWorld 1000 5000)).2.logs = (sampleWorld 1000 5000).logs :=
  have h := C16_cleanup_removes_exactly_expired
    (steadyEnv (5000 + 7 * 24 * Hour) 200 (.status 401 none)) (sampleWorld 1000 5000) rfl
  ⟨rfl, by decide, by decide, h.1, h.2.1⟩

end TeslaTokenService

namespace Crypto

/-- C21.  `NewTokenEncryptor key` returns an encryptor, and then the one that holds
`key`, exactly when `key` is 32 bytes long; it returns the error "encryption key
must be 32 bytes for AES-256" and no encryptor exactly when `key` has any other
length; the empty key is refused. -/
theorem C21_encryptor_iff_key_of_32_bytes (key : GoString) :
    (NewTokenEncryptor key = .ok { key := key } ↔ key.length = 32) ∧
    ((∃ e, NewTokenEncryptor key = .ok e) ↔ key.length = 32) ∧
    (NewTokenEncryptor key = .error .keyLength ↔ key.length ≠ 32) ∧
    NewTokenEncryptor [] = .error .keyLength := by
  unfold NewTokenEncryptor
  by_cases h : key.length = 32
  · simp [h]
  · simp [h]

end Crypto

namespace TeslaTokenService

/-- The requests one run of `RefreshTeslaToken` sends: none, or one refresh. -/
theorem RefreshTeslaToken_sent (env : Env) (w : World) (userID : String) :
    ∃ new, (RefreshTeslaToken env w userID).2.requests = w.requests ++ new ∧
      new.countP Request.isRefresh ≤ 1 ∧ new.countP Request.isProbe = 0 ∧
      ((RefreshTeslaToken env w userID).1 = none → new.countP Request.isRefresh = 1) := by
  rcases RefreshTeslaToken_cases env w userID with
    ⟨hne, -, h | ⟨r, h⟩⟩ | ⟨token, resp, hok, -, h, -, -⟩
  · exact ⟨[], by rw [h]; simp, by simp, by simp, fun h0 => absurd h0 hne⟩
  · exact ⟨[.refresh r], h, by simp [Request.isRefresh], by simp [Request.isProbe],
      fun h0 => absurd h0 hne⟩
  · exact ⟨[.refresh token.RefreshToken], h, by simp [Request.isRefresh],
      by simp [Request.isProbe], fun _ => by simp [Request.isRefresh]⟩

/-- When the probe of `token` leads `probeStep` to a refresh: the request could be
built and the upstream answered it with a status other than 200. -/
theorem probeStepRefreshCalls_eq_one (env : Env) (w : World) (token : TeslaToken) :
    ValidateTeslaToken.probeStepRefreshCalls env w token ≤ 1 ∧
    (ValidateTeslaToken.probeStepRefreshCalls env w token = 1 ↔
      env.newRequestError = none ∧
      ∃ code body, env.upstream w.requests.length (.probe token.AccessToken) =
        .status code body ∧ code ≠ 200) := by
  unfold ValidateTeslaToken.probeStepRefreshCalls validateTokenWithTeslaAPI
  cases env.newRequestError with
  | some m => simp
  | none =>
    simp only [httpDo]
    cases env.upstream w.requests.length (.probe token.AccessToken) with
    | transportError m => simp
    | status code body =>
      by_cases hc : code = 200
      · simp [hc]
      · simp [hc]

/-- The requests `probeStep` sends: at most two probes, and at most as many
refreshes as it calls `RefreshTeslaToken`. -/
theorem probeStep_sent (env : Env) (w : World) (userID : String) (token : TeslaToken) :
    ∃ new, (ValidateTeslaToken.probeStep env w userID token).2.requests = w.requests ++ new ∧
      new.countP Request.isRefresh ≤ ValidateTeslaToken.probeStepRefreshCalls env w token ∧
      new.countP Request.isProbe ≤ 2 ∧
      (ValidateTeslaToken.probeStepRefreshCalls env w token = 1 →
        ∃ newR, (RefreshTeslaToken env
            { w with requests := w.requests ++ [.probe token.AccessToken] } userID).2.requests =
            w.requests ++ [.probe token.AccessToken] ++ newR ∧
          new.countP Request.isRefresh = newR.countP Request.isRefresh) := by
  unfold ValidateTeslaToken.probeStep ValidateTeslaToken.probeStepRefreshCalls
    validateTokenWithTeslaAPI
  cases env.newRequestError with
  | some m => exact ⟨[], by simp [logTokenUsage_requests], by simp, by simp, by simp⟩
  | none =>
    simp only [httpDo]
    cases env.upstream w.requests.length (.probe token.AccessToken) with
    | transportError m =>
      exact ⟨[.probe token.AccessToken], by simp [logTokenUsage_requests],
        by simp [Request.isRefresh], by simp [Request.isProbe], by simp⟩
    | status code body =>
      by_cases hc : code = 200
      · simp only [hc, decide_True]
        exact ⟨[.probe token.AccessToken], by simp [logTokenUsage_requests],
          by simp [Request.isRefresh], by simp [Request.isProbe], by simp⟩
      · simp only [hc, decide_False]
        obtain ⟨new, hnew, hr, hp, -⟩ := RefreshTeslaToken_sent env
          { w with requests := w.requests ++ [.probe token.AccessToken] } userID
        cases hres : RefreshTeslaToken env
            { w with requests := w.requests ++ [.probe token.AccessToken] } userID with
        | mk e w2 =>
          rw [hres] at hnew
          simp only at hnew
          have hbase : (([Request.probe token.AccessToken] ++ new).countP Request.isRefresh ≤ 1) ∧
              (([Request.probe token.AccessToken] ++ new).countP Request.isProbe ≤ 1) ∧
              ([Request.probe token.AccessToken] ++ new).countP Request.isRefresh =
                new.countP Request.isRefresh := by
            rw [List.countP_append, List.countP_append, hp]
            simp [Request.isRefresh, Request.isProbe, hr]
          cases e with
          | some err =>
            refine ⟨[.probe token.AccessToken] ++ new, ?_, hbase.1, by omega,
              fun _ => ⟨new, hnew, hbase.2.2⟩⟩
            simp only [logTokenUsage_requests, hnew, List.append_assoc]
          | none =>
            simp only
            have hfr := dbFirst_frame env w2 userID token.ID
            cases hd : dbFirst env w2 userID token.ID with
            | mk r3 w3 =>
              rw [hd] at hfr
              simp only at hfr
              have hq3 : w3.requests = w.requests ++ ([.probe token.AccessToken] ++ new) := by
                rw [hfr]
                simp only [hnew, List.append_assoc]
              cases r3 with
              | error e3 =>
                refine ⟨[.probe token.AccessToken] ++ new, ?_, hbase.1, by omega,
                  fun _ => ⟨new, hnew, hbase.2.2⟩⟩
                simp only [logTokenUsage_requests, hq3]
              | ok token1 =>
                simp only
                have hlast : ∀ (ans : Response),
                    (([Request.probe token.AccessToken] ++ new ++
                      [Request.probe token1.AccessToken]).countP Request.isRefresh ≤ 1) ∧
                    (([Request.probe token.AccessToken] ++ new ++
                      [Request.probe token1.AccessToken]).countP Request.isProbe ≤ 2) ∧
                    ([Request.probe token.AccessToken] ++ new ++
                      [Request.probe token1.AccessToken]).countP Request.isRefresh =
                        new.countP Request.isRefresh := by
                  intro _
                  simp only [List.countP_append, List.countP_singleton, Request.isRefresh,
                    Request.isProbe]
                  simp only [Bool.false_eq_true, if_false, if_true]
                  omega
                cases env.upstream w3.requests.length (.probe token1.AccessToken) with
                | transportError m =>
                  refine ⟨[.probe token.AccessToken] ++ new ++ [.probe token1.AccessToken], ?_,
                    (hlast (.transportError m)).1, (hlast (.transportError m)).2.1,
                      fun _ => ⟨new, hnew, (hlast (.transportError m)).2.2⟩⟩
                  simp only [logTokenUsage_requests, hq3, List.append_assoc]
                | status c2 b2 =>
                  by_cases hc2 : c2 = 200
                  · simp only [hc2, decide_True]
                    refine ⟨[.probe token.AccessToken] ++ new ++ [.probe token1.AccessToken], ?_,
                      (hlast (.status c2 b2)).1, (hlast (.status c2 b2)).2.1,
                      fun _ => ⟨new, hnew, (hlast (.status c2 b2)).2.2⟩⟩
                    simp only [logTokenUsage_requests, hq3, List.append_assoc]
                  · simp only [hc2, decide_False]
                    refine ⟨[.probe token.AccessToken] ++ new ++ [.probe token1.AccessToken], ?_,
                      (hlast (.status c2 b2)).1, (hlast (.status c2 b2)).2.1,
                      fun _ => ⟨new, hnew, (hlast (.status c2 b2)).2.2⟩⟩
                    simp only [logTokenUsage_requests, hq3, List.append_assoc]

/-- A read that finds a row with a given key finds a row without the key as well. -/
theorem find_without_key (rows : List TeslaToken) (userID : String) (destID : Nat)
    (token : TeslaToken)
    (h : rows.find? (fun r => r.live && r.UserID == userID && (destID == 0 || r.ID == destID))
      = some token) :
    ∃ rec, rows.find? (fun r => r.live && r.UserID == userID && (0 == 0 || r.ID == 0))
      = some rec := by
  cases hw : rows.find? (fun r => r.live && r.UserID == userID && (0 == 0 || r.ID == 0)) with
  | some rec => exact ⟨rec, rfl⟩
  | none =>
    exfalso
    rw [List.find?_eq_none] at hw
    have hm := List.mem_of_find?_eq_some h
    have hp := List.find?_some h
    apply hw token hm
    simp only [Bool.and_eq_true] at hp
    simp [hp.1.1, hp.1.2]

/-- On a store without faults that holds a record of the user, `probeStep` sends
exactly as many refresh requests as it calls `RefreshTeslaToken`. -/
theorem probeStep_sent_exact (env : Env) (w : World) (userID : String) (token rec : TeslaToken)
    (hdb : ∀ n, env.dbFault n = none)
    (hfind : w.tokens.find? (fun r => r.live && r.UserID == userID && (0 == 0 || r.ID == 0))
      = some rec) :
    ∃ new, (ValidateTeslaToken.probeStep env w userID token).2.requests = w.requests ++ new ∧
      new.countP Request.isRefresh = ValidateTeslaToken.probeStepRefreshCalls env w token ∧
      new.countP Request.isProbe ≤ 2 := by
  obtain ⟨new, hnew, hr, hp, hlink⟩ := probeStep_sent env w userID token
  refine ⟨new, hnew, ?_, hp⟩
  have hle := (probeStepRefreshCalls_eq_one env w token).1
  by_cases hc : ValidateTeslaToken.probeStepRefreshCalls env w token = 1
  · obtain ⟨newR, hR, heq⟩ := hlink hc
    have hone := RefreshTeslaToken_requests env
      { w with requests := w.requests ++ [.probe token.AccessToken] } userID rec hdb hfind
    rw [hone] at hR
    have hnewR := List.append_cancel_left hR
    rw [heq, ← hnewR, hc]
    simp [Request.isRefresh]
  · omega


/-- C22.  One run of `ValidateTeslaToken` calls `RefreshTeslaToken` at most twice.
The requests it sends upstream hold at most two probes and at most as many refresh
requests as there are such calls (a call whose own read of the store fails sends
none), exactly as many when the store has no faults.  It calls `RefreshTeslaToken`
twice exactly when the record it reads is expired, the first refresh succeeds, the
record is read again, and the probe of that record is sent and answered with a
status other than 200. -/
theorem C22_at_most_two_refreshes_and_two_probes (env : Env) (w : World) (userID : String) :
    ValidateTeslaToken.refreshCalls env w userID ≤ 2 ∧
    (∃ new, (ValidateTeslaToken env w userID).2.requests = w.requests ++ new ∧
      new.countP Request.isRefresh ≤ ValidateTeslaToken.refreshCalls env w userID ∧
      new.countP Request.isProbe ≤ 2 ∧
      ((∀ n, env.dbFault n = none) →
        new.countP Request.isRefresh = ValidateTeslaToken.refreshCalls env w userID)) ∧
    (ValidateTeslaToken.refreshCalls env w userID = 2 ↔
      ∃ token w2 token1, (dbFirst env w userID 0).1 = .ok token ∧
        token.IsExpired env.now = true ∧
        RefreshTeslaToken env (dbFirst env w userID 0).2 userID = (none, w2) ∧
        (dbFirst env w2 userID token.ID).1 = .ok token1 ∧
        env.newRequestError = none ∧
        ∃ code body, env.upstream w2.requests.length (.probe token1.AccessToken) =
          .status code body ∧ code ≠ 200) := by
  unfold ValidateTeslaToken ValidateTeslaToken.refreshCalls
  have hfr := dbFirst_frame env w userID 0
  cases h1 : dbFirst env w userID 0 with
  | mk r1 w1 =>
    rw [h1] at hfr
    simp only at hfr
    have hq1 : w1.requests = w.requests := by rw [hfr]
    cases r1 with
    | error err =>
      refine ⟨by simp, ⟨[], ?_, by simp, by simp, by simp⟩, by simp⟩
      cases err <;> simp [hq1, logTokenUsage_requests]
    | ok token =>
      have hfind1 : w1.tokens.find?
          (fun r => r.live && r.UserID == userID && (0 == 0 || r.ID == 0)) = some token := by
        rw [hfr]
        exact (dbFirst_ok_spec env w userID 0 token (by rw [h1])).2.1
      simp only
      cases hexp : token.IsExpired env.now with
      | false =>
        simp only [Bool.false_eq_true, if_false]
        obtain ⟨hle, -⟩ := probeStepRefreshCalls_eq_one env w1 token
        obtain ⟨new, hnew, hr, hp, -⟩ := probeStep_sent env w1 userID token
        have hexact : (∀ n, env.dbFault n = none) →
            new.countP Request.isRefresh =
              ValidateTeslaToken.probeStepRefreshCalls env w1 token := by
          intro hdb
          obtain ⟨new0, hnew0, heq0, -⟩ := probeStep_sent_exact env w1 userID token token hdb hfind1
          rw [hnew] at hnew0
          rw [List.append_cancel_left hnew0]
          exact heq0
        refine ⟨by omega, ⟨new, by rw [hnew, hq1], hr, hp, hexact⟩, ?_⟩
        constructor
        · intro h2
          omega
        · rintro ⟨token0, w2, token1, h0, hexp0, -⟩
          simp only [Except.ok.injEq] at h0
          subst h0
          rw [hexp] at hexp0
          cases hexp0
      | true =>
        simp only [if_true]
        obtain ⟨new1, hnew1, hr1, hp1, hok1⟩ := RefreshTeslaToken_sent env w1 userID
        have hone : (∀ n, env.dbFault n = none) → new1.countP Request.isRefresh = 1 := by
          intro hdb
          have hreq := RefreshTeslaToken_requests env w1 userID token hdb hfind1
          rw [hreq] at hnew1
          rw [← List.append_cancel_left hnew1]
          simp [Request.isRefresh]
        cases hres : RefreshTeslaToken env w1 userID with
        | mk e w2 =>
          rw [hres] at hnew1 hok1
          simp only at hnew1 hok1
          cases e with
          | some err =>
            refine ⟨by simp, ⟨new1, ?_, hr1, by omega, hone⟩, ?_⟩
            · simp only [logTokenUsage_requests, hnew1, hq1]
            · constructor
              · intro h2
                cases h2
              · rintro ⟨token0, w20, token1, -, -, hr0, -⟩
                cases hr0
          | none =>
            simp only
            have hfr2 := dbFirst_frame env w2 userID token.ID
            cases hd : dbFirst env w2 userID token.ID with
            | mk r3 w3 =>
              rw [hd] at hfr2
              simp only at hfr2
              have hq3 : w3.requests = w2.requests := by rw [hfr2]
              cases r3 with
              | error e3 =>
                refine ⟨by simp, ⟨new1, ?_, hr1, by omega, hone⟩, ?_⟩
                · simp only [hq3, hnew1, hq1]
                · constructor
                  · intro h2
                    cases h2
                  · rintro ⟨token0, w20, token1, h0, -, hr0, hd0, -⟩
                    simp only [Except.ok.injEq] at h0
                    subst h0
                    simp only [Prod.mk.injEq, true_and] at hr0
                    subst hr0
                    rw [hd] at hd0
                    cases hd0
              | ok token1 =>
                simp only
                obtain ⟨hle, hiff⟩ := probeStepRefreshCalls_eq_one env w3 token1
                obtain ⟨new, hnew, hr, hp, -⟩ := probeStep_sent env w3 userID token1
                rw [hq3] at hiff
                have hexact : (∀ n, env.dbFault n = none) →
                    new.countP Request.isRefresh =
                      ValidateTeslaToken.probeStepRefreshCalls env w3 token1 := by
                  intro hdb
                  have hstrict := (dbFirst_ok_spec env w2 userID token.ID token1
                    (by rw [hd])).2.1
                  have ht3 : w3.tokens = w2.tokens := by rw [hfr2]
                  rw [← ht3] at hstrict
                  obtain ⟨rec, hrec⟩ := find_without_key w3.tokens userID token.ID token1 hstrict
                  obtain ⟨new0, hnew0, heq0, -⟩ :=
                    probeStep_sent_exact env w3 userID token1 rec hdb hrec
                  rw [hnew] at hnew0
                  rw [List.append_cancel_left hnew0]
                  exact heq0
                refine ⟨by omega, ⟨new1 ++ new, ?_, ?_, ?_, ?_⟩, ?_⟩
                · rw [hnew, hq3, hnew1, hq1, List.append_assoc]
                · rw [List.countP_append]
                  omega
                · rw [List.countP_append]
                  omega
                · intro hdb
                  rw [List.countP_append, hone hdb, hexact hdb]
                · constructor
                  · intro h2
                    have h1' : ValidateTeslaToken.probeStepRefreshCalls env w3 token1 = 1 := by
                      omega
                    obtain ⟨hreq, code, body, hup, hc⟩ := hiff.mp h1'
                    exact ⟨token, w2, token1, rfl, hexp, rfl, by rw [hd], hreq, code, body, hup, hc⟩
                  · rintro ⟨token0, w20, token10, h0, -, hr0, hd0, hreq, code, body, hup, hc⟩
                    simp only [Except.ok.injEq] at h0
                    subst h0
                    simp only [Prod.mk.injEq, true_and] at hr0
                    subst hr0
                    rw [hd] at hd0
                    simp only [Except.ok.injEq] at hd0
                    subst hd0
                    have := hiff.mpr ⟨hreq, code, body, hup, hc⟩
                    omega

/-- C22 at the record of `u1` that expired at the instant `5000`, validated at the
instant `9000` against an upstream that grants every refresh and answers every
probe with 401: two refreshes, two probes, and the condition of the second refresh
holds. -/
theorem C22_at_most_two_refreshes_and_two_probes_witness :
    ValidateTeslaToken.refreshCalls (steadyEnv 9000 401 (sampleRefreshAnswer []))
      (sampleWorld 1000 5000) "u1" = 2 ∧
    (ValidateTeslaToken (steadyEnv 9000 401 (sampleRefreshAnswer []))
      (sampleWorld 1000 5000) "u1").2.requests =
        [.refresh [114], .probe [98], .refresh [114], .probe [98]] ∧
    ∃ token w2 token1,
      (dbFirst (steadyEnv 9000 401 (sampleRefreshAnswer [])) (sampleWorld 1000 5000) "u1" 0).1 =
        .ok token ∧
      token.IsExpired (steadyEnv 9000 401 (sampleRefreshAnswer [])).now = true ∧
      RefreshTeslaToken (steadyEnv 9000 401 (sampleRefreshAnswer []))
        (dbFirst (steadyEnv 9000 401 (sampleRefreshAnswer [])) (sampleWorld 1000 5000) "u1" 0).2
        "u1" = (none, w2) ∧
      (dbFirst (steadyEnv 9000 401 (sampleRefreshAnswer [])) w2 "u1" token.ID).1 = .ok token1 ∧
      (steadyEnv 9000 401 (sampleRefreshAnswer [])).newRequestError = none ∧
      ∃ code body, (steadyEnv 9000 401 (sampleRefreshAnswer [])).upstream w2.requests.length
          (.probe token1.AccessToken) = .status code body ∧ code ≠ 200 :=
  ⟨by decide, by decide,
    (C22_at_most_two_refreshes_and_two_probes (steadyEnv 9000 401 (sampleRefreshAnswer []))
      (sampleWorld 1000 5000) "u1").2.2.mp (by decide)⟩

end TeslaTokenService

namespace ImplementationExample
open Crypto

/-- A `SaveToken` without a refresh token fails before it reaches the store: with the
error of encrypting the access token, or with "plaintext cannot be empty" for the
refresh token.  Both tables, the statement count and the requests are as before. -/
theorem SaveToken_empty_refresh (s : TokenService) (env : Env) (w : World) (req : TokenRequest)
    (hempty : req.RefreshToken = []) :
    ((SaveToken s env w req).1 = .error (.encryptRefreshToken .plaintextEmpty) ∨
      ∃ cause, (SaveToken s env w req).1 = .error (.encryptAccessToken cause)) ∧
    (SaveToken s env w req).2.tokens = w.tokens ∧
    (SaveToken s env w req).2.logs = w.logs ∧
    (SaveToken s env w req).2.statements = w.statements ∧
    (SaveToken s env w req).2.requests = w.requests := by
  unfold SaveToken
  obtain ⟨hl1, hs1, ht1, hr1⟩ := encrypt_logs s env w req.AccessToken
  cases h1 : encrypt s env w req.AccessToken with
  | mk r1 w1 =>
    rw [h1] at hl1 hs1 ht1 hr1
    simp only at hl1 hs1 ht1 hr1
    obtain ⟨blobA, e1⟩ := r1
    cases e1 with
    | some cause => exact ⟨Or.inr ⟨cause, rfl⟩, ht1, hl1, hs1, hr1⟩
    | none =>
      simp only
      have h2 : encrypt s env w1 req.RefreshToken = (([], some .plaintextEmpty), w1) := by
        unfold encrypt
        rw [hempty, if_pos (Or.inl rfl)]
        simp [Encrypt]
      rw [h2]
      exact ⟨Or.inl rfl, ht1, hl1, hs1, hr1⟩

/-- C23.  Let `GetToken` find and decrypt the record of the account, and let the
upstream answer the refresh request for its refresh token with status 200 and a
body whose `refresh_token` is empty.  Then `RefreshToken` returns an error, that of
encrypting the refresh token ("plaintext cannot be empty") or, when the new access
token cannot be encrypted either, that of encrypting the access token; it is the
former whenever the new access token is not empty, the key is valid and the entropy
source delivers a nonce.  The table of tokens and the audit table are exactly as
before the call, and the one refresh request was sent. -/
theorem C23_refresh_without_refresh_token_fails_silently (s : TokenService) (env : Env)
    (w w1 : World) (accountID : String) (tokenResp : TokenResponse)
    (teslaResp : TeslaTokenResponse)
    (hget : GetToken s env w accountID = (.ok tokenResp, w1))
    (hup : env.upstream w.requests.length (.refresh tokenResp.RefreshToken) =
      .status 200 (some teslaResp))
    (hempty : teslaResp.RefreshToken = []) :
    ((RefreshToken s env w accountID).1 = .error (.encryptRefreshToken .plaintextEmpty) ∨
      ∃ cause, (RefreshToken s env w accountID).1 = .error (.encryptAccessToken cause)) ∧
    (teslaResp.AccessToken ≠ [] → validAESKeyLength s.encryptor.key.length = true →
      env.rand w.draws ≠ none →
      (RefreshToken s env w accountID).1 = .error (.encryptRefreshToken .plaintextEmpty)) ∧
    (RefreshToken s env w accountID).2.tokens = w.tokens ∧
    (RefreshToken s env w accountID).2.logs = w.logs ∧
    (RefreshToken s env w accountID).2.requests =
      w.requests ++ [.refresh tokenResp.RefreshToken] := by
  have hfr := GetToken_frame s env w accountID
  rw [hget] at hfr
  simp only at hfr
  subst hfr
  have hsave := SaveToken_empty_refresh s env
    { w with statements := w.statements + 1,
             requests := w.requests ++ [.refresh tokenResp.RefreshToken] }
    { AccountID := accountID, AccessToken := teslaResp.AccessToken,
      RefreshToken := teslaResp.RefreshToken, ExpiresIn := teslaResp.ExpiresIn,
      TokenType := teslaResp.TokenType, Scope := teslaResp.Scope } hempty
  have hR : RefreshToken s env w accountID =
      SaveToken s env
        { w with statements := w.statements + 1,
                 requests := w.requests ++ [.refresh tokenResp.RefreshToken] }
        { AccountID := accountID, AccessToken := teslaResp.AccessToken,
          RefreshToken := teslaResp.RefreshToken, ExpiresIn := teslaResp.ExpiresIn,
          TokenType := teslaResp.TokenType, Scope := teslaResp.Scope } := by
    obtain ⟨hres, -⟩ := hsave
    unfold RefreshToken refreshWithTeslaAPI
    simp only [hget, hup]
    simp only [ne_eq, not_true_eq_false, if_false]
    cases hs : SaveToken s env
        { w with statements := w.statements + 1,
                 requests := w.requests ++ [.refresh tokenResp.RefreshToken] }
        { AccountID := accountID, AccessToken := teslaResp.AccessToken,
          RefreshToken := teslaResp.RefreshToken, ExpiresIn := teslaResp.ExpiresIn,
          TokenType := teslaResp.TokenType, Scope := teslaResp.Scope } with
    | mk r3 w3 =>
      rw [hs] at hres
      simp only at hres
      cases r3 with
      | error err => rfl
      | ok resp =>
        rcases hres with h | ⟨_, h⟩ <;> cases h
  rw [hR]
  obtain ⟨hres, ht, hl, -, hr⟩ := hsave
  refine ⟨hres, ?_, ht, hl, hr⟩
  intro hacc hkey hrand
  unfold SaveToken
  have h1 : ∃ blob, encrypt s env
      { w with statements := w.statements + 1,
               requests := w.requests ++ [.refresh tokenResp.RefreshToken] }
      teslaResp.AccessToken = ((blob, none),
        { w with statements := w.statements + 1,
                 requests := w.requests ++ [.refresh tokenResp.RefreshToken],
                 draws := w.draws + 1 }) := by
    unfold encrypt
    rw [if_neg (by simp [hacc, hkey])]
    cases hrnd : env.rand w.draws with
    | none => exact absurd hrnd hrand
    | some f =>
      have henc : (Encrypt s.aead s.encryptor (some f) teslaResp.AccessToken).2 = none := by
        simp [Encrypt, hacc, hkey]
      refine ⟨(Encrypt s.aead s.encryptor (some f) teslaResp.AccessToken).1, ?_⟩
      rw [← henc]
  obtain ⟨blob, h1⟩ := h1
  simp only [h1]
  have h2 : encrypt s env
      { w with statements := w.statements + 1,
               requests := w.requests ++ [.refresh tokenResp.RefreshToken],
               draws := w.draws + 1 }
      teslaResp.RefreshToken = (([], some .plaintextEmpty),
        { w with statements := w.statements + 1,
                 requests := w.requests ++ [.refresh tokenResp.RefreshToken],
                 draws := w.draws + 1 }) := by
    unfold encrypt
    rw [hempty, if_pos (Or.inl rfl)]
    simp [Encrypt]
  simp only [h2]

/-- C23 at the record of `acc1` and the upstream of `tokenlessEnv`: the error is
that of the empty refresh token, and both tables are as before. -/
theorem C23_refresh_without_refresh_token_fails_silently_witness :
    GetToken sampleService (tokenlessEnv 2000) (sampleWorld 1000) "acc1" =
      (.ok { AccountID := "acc1", AccessToken := [97], RefreshToken := [114],
             ExpiresAt := 1000 + 3600 * Second, TokenType := "Bearer" },
        { sampleWorld 1000 with statements := (sampleWorld 1000).statements + 1 }) ∧
    (RefreshToken sampleService (tokenlessEnv 2000) (sampleWorld 1000) "acc1").1 =
      .error (.encryptRefreshToken .plaintextEmpty) ∧
    (RefreshToken sampleService (tokenlessEnv 2000) (sampleWorld 1000) "acc1").2.tokens =
      (sampleWorld 1000).tokens ∧
    (RefreshToken sampleService (tokenlessEnv 2000) (sampleWorld 1000) "acc1").2.logs =
      (sampleWorld 1000).logs :=
  have h := C23_refresh_without_refresh_token_fails_silently sampleService (tokenlessEnv 2000)
    (sampleWorld 1000) { sampleWorld 1000 with statements := (sampleWorld 1000).statements + 1 }
    "acc1"
    { AccountID := "acc1", AccessToken := [97], RefreshToken := [114],
      ExpiresAt := 1000 + 3600 * Second, TokenType := "Bearer" }
    { AccessToken := [98], RefreshToken := [], ExpiresIn := 3600, TokenType := "Bearer",
      Scope := "" }
    (by decide) rfl rfl
  ⟨by decide, h.2.1 (by decide) (by decide) (by decide), h.2.2.1, h.2.2.2.1⟩

end ImplementationExample

namespace Crypto
open Base64

/-- The bytes under the blob `Encrypt` returns: the nonce followed by what the cipher
seals the plaintext to, under a key of valid length. -/
theorem Encrypt_bytes (A : AEAD) (e : TokenEncryptor) (f : Fin 12 → Byte) (s blob : GoString)
    (h : Encrypt A e (some f) s = (blob, none)) :
    validAESKeyLength e.key.length = true ∧
    DecodeString blob = some (List.ofFn f ++ A.Seal e.key (List.ofFn f) s) := by
  unfold Encrypt at h
  by_cases hs : s = []
  · simp [hs] at h
  by_cases hk : validAESKeyLength e.key.length = false
  · simp [hs, hk] at h
  have hk1 : validAESKeyLength e.key.length = true := by simpa using hk
  simp only [hs, hk1, if_false, Prod.mk.injEq, and_true] at h
  simp only [Bool.true_eq_false, if_false, Prod.mk.injEq, and_true] at h
  subst h
  exact ⟨hk1, DecodeString_EncodeToString _⟩

/-- What `Decrypt` accepts: a blob that decodes to at least twelve bytes, under a
key of valid length, whose bytes after the twelfth the cipher opens. -/
theorem Decrypt_ok (A : AEAD) (e : TokenEncryptor) (blob p : GoString)
    (h : Decrypt A e blob = (p, none)) :
    ∃ data, DecodeString blob = some data ∧ validAESKeyLength e.key.length = true ∧
      nonceSize ≤ data.length ∧
      A.Open e.key (data.take nonceSize) (data.drop nonceSize) = some p := by
  unfold Decrypt at h
  by_cases hb : blob = []
  · simp [hb] at h
  simp only [hb, if_false] at h
  cases hd : DecodeString blob with
  | none => simp [hd] at h
  | some data =>
    simp only [hd] at h
    by_cases hk : validAESKeyLength e.key.length = false
    · simp [hk] at h
    have hk1 : validAESKeyLength e.key.length = true := by simpa using hk
    simp only [hk1, Bool.true_eq_false, if_false] at h
    by_cases hl : data.length < nonceSize
    · simp [hl] at h
    simp only [hl, if_false] at h
    cases ho : A.Open e.key (data.take nonceSize) (data.drop nonceSize) with
    | none => simp [ho] at h
    | some q =>
      simp only [ho, Prod.mk.injEq, and_true] at h
      subst h
      exact ⟨data, rfl, hk1, by omega, ho⟩

/-- C2 as amended.  Let `blob` be what `Encrypt s` returned under AES-GCM
(`AuthenticAEAD`) with the nonce `f`, and let `blob'` be any string.  When `blob'`
decodes to the same bytes as `blob`, `Decrypt blob'` returns `s`.  Whenever
`Decrypt blob'` returns a plaintext `p`, `blob'` decodes to a 12-byte nonce followed
by exactly the bytes the cipher seals `p` to under the key and that nonce, which for
a non-empty `p` are the bytes of a blob `Encrypt p` itself gives; and when it
returns `s` although `blob'` decodes to other bytes than `blob`, the nonce is
another one.  A change confined to the nonce (`blob'` decodes to another nonce
before the same sealed bytes) makes `Decrypt` fail with the decryption error, and so
does a change confined to the tag (the same nonce and encrypted bytes before
another sixteen bytes).  A change of one single byte of the decoded blob, wherever
it lies (nonce, encrypted bytes or tag), makes `Decrypt` fail with the decryption
error, provided the hash subkey of the key is not zero (`weakKey`).  When the bytes
of `blob'` are no sealing of any plaintext, `Decrypt blob'` returns the empty string
with an error: "ciphertext cannot be empty", the base64 error when `blob'` is not
valid base64, "ciphertext too short" when fewer than 12 bytes decode, and the
decryption error otherwise. -/
theorem C2_tampered_blob (G : AuthenticAEAD) (e : TokenEncryptor) (f : Fin 12 → Byte)
    (s blob blob' : GoString) (h : Encrypt G.toAEAD e (some f) s = (blob, none)) :
    (DecodeString blob' = DecodeString blob → Decrypt G.toAEAD e blob' = (s, none)) ∧
    (∀ p, Decrypt G.toAEAD e blob' = (p, none) →
      ∃ nonce, nonce.length = nonceSize ∧
        DecodeString blob' = some (nonce ++ G.Seal e.key nonce p)) ∧
    (∀ p, p ≠ [] → Decrypt G.toAEAD e blob' = (p, none) →
      ∃ f', (Encrypt G.toAEAD e (some f') p).2 = none ∧
        DecodeString blob' = DecodeString (Encrypt G.toAEAD e (some f') p).1) ∧
    (DecodeString blob' ≠ DecodeString blob → Decrypt G.toAEAD e blob' = (s, none) →
      ∃ data', DecodeString blob' = some data' ∧ data'.take nonceSize ≠ List.ofFn f) ∧
    (∀ nonce', nonce'.length = nonceSize → nonce' ≠ List.ofFn f →
      DecodeString blob' = some (nonce' ++ G.Seal e.key (List.ofFn f) s) →
      Decrypt G.toAEAD e blob' = ([], some .decryptFailed)) ∧
    (∀ tag', tag'.length = tagSize →
      tag' ≠ (G.Seal e.key (List.ofFn f) s).drop s.length →
      DecodeString blob' =
        some (List.ofFn f ++ ((G.Seal e.key (List.ofFn f) s).take s.length ++ tag')) →
      Decrypt G.toAEAD e blob' = ([], some .decryptFailed)) ∧
    (∀ d1 x y d2, G.weakKey e.key = false → y ≠ x →
      DecodeString blob = some (d1 ++ x :: d2) → DecodeString blob' = some (d1 ++ y :: d2) →
      Decrypt G.toAEAD e blob' = ([], some .decryptFailed)) ∧
    ((∀ nonce p, nonce.length = nonceSize →
        DecodeString blob' ≠ some (nonce ++ G.Seal e.key nonce p)) →
      (Decrypt G.toAEAD e blob').1 = [] ∧
      ((blob' = [] ∧ (Decrypt G.toAEAD e blob').2 = some .ciphertextEmpty) ∨
       (DecodeString blob' = none ∧ (Decrypt G.toAEAD e blob').2 = some .decodeBase64) ∨
       (∃ data', DecodeString blob' = some data' ∧ data'.length < nonceSize ∧
          (Decrypt G.toAEAD e blob').2 = some .ciphertextTooShort) ∨
       (∃ data', DecodeString blob' = some data' ∧ nonceSize ≤ data'.length ∧
          (Decrypt G.toAEAD e blob').2 = some .decryptFailed))) := by
  obtain ⟨hs, hdec, hlen⟩ := Decrypt_of_Encrypt G.toAEAD e (some f) s blob h
  obtain ⟨hkey, hbytes⟩ := Encrypt_bytes G.toAEAD e f s blob h
  have hne : blob ≠ [] := by
    intro hb; rw [hb] at hlen; simp at hlen
  have hsealed : ∀ p, Decrypt G.toAEAD e blob' = (p, none) →
      ∃ data', DecodeString blob' = some data' ∧ (data'.take nonceSize).length = nonceSize ∧
        data' = data'.take nonceSize ++ G.Seal e.key (data'.take nonceSize) p := by
    intro p hp
    obtain ⟨data', hd, hk, hl, ho⟩ := Decrypt_ok G.toAEAD e blob' p hp
    have hn : (data'.take nonceSize).length = nonceSize := by
      rw [List.length_take]; omega
    have hseal := G.Open_sealed e.key _ _ p hk hn ho
    refine ⟨data', hd, hn, ?_⟩
    rw [hseal]
    exact (List.take_append_drop _ _).symm
  have hrejected : ∀ nonce' ct', nonce'.length = nonceSize →
      DecodeString blob' = some (nonce' ++ ct') → G.Open e.key nonce' ct' = none →
      Decrypt G.toAEAD e blob' = ([], some .decryptFailed) := by
    intro nonce' ct' hn hd ho
    have hb' : blob' ≠ [] := by
      intro hb
      rw [hb] at hd
      have : DecodeString [] = some [] := by decide
      rw [this] at hd
      simp only [Option.some.injEq] at hd
      have hl := congrArg List.length hd
      simp only [List.length_nil, List.length_append, hn, nonceSize] at hl
      omega
    have ht : (nonce' ++ ct').take nonceSize = nonce' := by
      rw [← hn]; exact List.take_left' rfl
    have hdr : (nonce' ++ ct').drop nonceSize = ct' := by
      rw [← hn]; exact List.drop_left' rfl
    have h12 : ¬ (nonce' ++ ct').length < nonceSize := by
      simp only [List.length_append, hn]; omega
    unfold Decrypt
    simp only [hb', if_false, hd, hkey, Bool.true_eq_false, h12, ht, hdr, ho]
  have hf12 : (List.ofFn f).length = nonceSize := List.length_ofFn f
  have hnonce : ∀ nonce', nonce'.length = nonceSize → nonce' ≠ List.ofFn f →
      DecodeString blob' = some (nonce' ++ G.Seal e.key (List.ofFn f) s) →
      Decrypt G.toAEAD e blob' = ([], some .decryptFailed) := by
    intro nonce' hn hne' hd
    apply hrejected nonce' _ hn hd
    cases ho : G.Open e.key nonce' (G.Seal e.key (List.ofFn f) s) with
    | none => rfl
    | some p =>
      exfalso
      have hseal := G.Open_sealed e.key nonce' _ p hkey hn ho
      exact hne' (G.Seal_nonce e.key nonce' (List.ofFn f) p s hkey hn hf12 hseal)
  have hbodylen : ((G.Seal e.key (List.ofFn f) s).take s.length).length = s.length := by
    rw [List.length_take, G.Seal_length]; omega
  have htaglen : ((G.Seal e.key (List.ofFn f) s).drop s.length).length = tagSize := by
    rw [List.length_drop, G.Seal_length]; omega
  have htag : ∀ tag', tag'.length = tagSize →
      tag' ≠ (G.Seal e.key (List.ofFn f) s).drop s.length →
      DecodeString blob' =
        some (List.ofFn f ++ ((G.Seal e.key (List.ofFn f) s).take s.length ++ tag')) →
      Decrypt G.toAEAD e blob' = ([], some .decryptFailed) := by
    intro tag' htl hne' hd
    apply hrejected (List.ofFn f) _ hf12 hd
    cases ho : G.Open e.key (List.ofFn f)
        ((G.Seal e.key (List.ofFn f) s).take s.length ++ tag') with
    | none => rfl
    | some p =>
      exfalso
      have hseal := G.Open_sealed e.key (List.ofFn f) _ p hkey hf12 ho
      have hlen := congrArg List.length hseal
      simp only [G.Seal_length, List.length_append, hbodylen, htl] at hlen
      have hpl : p.length = s.length := by omega
      have hps : p = s := by
        apply G.Seal_body e.key (List.ofFn f) p s hkey hf12 hpl
        rw [hseal, hpl]
        exact List.take_left' hbodylen
      rw [hps] at hseal
      apply hne'
      have h2 := congrArg (List.drop s.length) hseal
      rw [List.drop_left' hbodylen] at h2
      exact h2.symm
  have hbody : ∀ c1 x y c2, G.weakKey e.key = false → y ≠ x →
      (G.Seal e.key (List.ofFn f) s).take s.length = c1 ++ x :: c2 →
      DecodeString blob' = some (List.ofFn f ++
        ((c1 ++ y :: c2) ++ (G.Seal e.key (List.ofFn f) s).drop s.length)) →
      Decrypt G.toAEAD e blob' = ([], some .decryptFailed) := by
    intro c1 x y c2 hweak hyx hb hd
    apply hrejected (List.ofFn f) _ hf12 hd
    cases ho : G.Open e.key (List.ofFn f)
        ((c1 ++ y :: c2) ++ (G.Seal e.key (List.ofFn f) s).drop s.length) with
    | none => rfl
    | some p =>
      exfalso
      have hseal := G.Open_sealed e.key (List.ofFn f) _ p hkey hf12 ho
      have hcl : (c1 ++ y :: c2).length = s.length := by
        have := congrArg List.length hb
        simp only [hbodylen, List.length_append, List.length_cons] at this
        simp only [List.length_append, List.length_cons]
        omega
      have hlen := congrArg List.length hseal
      rw [G.Seal_length, List.length_append, hcl, htaglen] at hlen
      have hpl : p.length = s.length := by omega
      have htp : (G.Seal e.key (List.ofFn f) p).take p.length = c1 ++ y :: c2 := by
        rw [hseal, hpl]
        exact List.take_left' hcl
      have hdp : (G.Seal e.key (List.ofFn f) p).drop p.length =
          (G.Seal e.key (List.ofFn f) s).drop s.length := by
        rw [hseal, hpl]
        exact List.drop_left' hcl
      exact G.Seal_single e.key (List.ofFn f) s p c1 x y c2 hkey hf12 hweak
        (fun h0 => hyx h0.symm) hb htp hdp.symm
  refine ⟨?_, ?_, ?_, ?_, hnonce, htag, ?_, ?_⟩
  · intro heq
    have hb' : blob' ≠ [] := by
      intro hb
      rw [hb, hbytes] at heq
      have : DecodeString [] = some [] := by decide
      rw [this] at heq
      simp only [Option.some.injEq] at heq
      have hl := congrArg List.length heq
      simp at hl
    have : Decrypt G.toAEAD e blob' = Decrypt G.toAEAD e blob := by
      simp only [Decrypt, hb', hne, if_false, heq]
    rw [this, hdec]
  · intro p hp
    obtain ⟨data', hd, hn, hdata⟩ := hsealed p hp
    exact ⟨data'.take nonceSize, hn, by rw [hd, ← hdata]⟩
  · intro p hpne hp
    obtain ⟨data', hd, hn, hdata⟩ := hsealed p hp
    obtain ⟨-, -, hk, -, -⟩ := Decrypt_ok G.toAEAD e blob' p hp
    obtain ⟨f', hof⟩ : ∃ f' : Fin 12 → Byte, List.ofFn f' = data'.take nonceSize := by
      have hn12 : (data'.take nonceSize).length = 12 := hn
      generalize data'.take nonceSize = l at hn12
      refine ⟨fun i => l.get (i.cast hn12.symm), ?_⟩
      apply List.ext_get
      · simp [hn12]
      · intro n h1 h2
        simp only [List.get_eq_getElem, List.getElem_ofFn, Fin.cast_mk]
    refine ⟨f', ?_⟩
    have henc : Encrypt G.toAEAD e (some f') p =
        (EncodeToString (data'.take nonceSize ++ G.Seal e.key (data'.take nonceSize) p),
          none) := by
      unfold Encrypt
      simp only [hpne, hk, if_false, Bool.true_eq_false, hof]
    rw [henc]
    exact ⟨rfl, by rw [hd, DecodeString_EncodeToString, ← hdata]⟩
  · intro hneq hp
    obtain ⟨data', hd, hn, hdata⟩ := hsealed s hp
    refine ⟨data', hd, ?_⟩
    intro hnonce
    apply hneq
    rw [hd, hbytes, hdata, hnonce]
  · intro d1 x y d2 hweak hyx hd hd'
    rw [hbytes] at hd
    simp only [Option.some.injEq] at hd
    have hsplit : G.Seal e.key (List.ofFn f) s =
        (G.Seal e.key (List.ofFn f) s).take s.length ++
          (G.Seal e.key (List.ofFn f) s).drop s.length := (List.take_append_drop _ _).symm
    rcases List.append_eq_append_iff.mp hd with ⟨a', hd1, hct⟩ | ⟨c', hn, hxd⟩
    · -- the changed byte lies behind the nonce
      rw [hsplit] at hct
      rcases List.append_eq_append_iff.mp hct with ⟨t1, ha', htg⟩ | ⟨c'', hbd, hxd⟩
      · -- inside the tag
        apply htag (t1 ++ y :: d2)
        · have := congrArg List.length htg
          simp only [htaglen, List.length_append, List.length_cons] at this ⊢
          omega
        · rw [htg]
          intro h0
          have := List.append_cancel_left h0
          simp only [List.cons.injEq, and_true] at this
          exact hyx this
        · rw [hd', hd1, ha']
          simp only [List.append_assoc]
      · cases c'' with
        | nil =>
          -- the first byte of the tag
          simp only [List.nil_append] at hxd
          simp only [List.append_nil] at hbd
          apply htag (y :: d2)
          · have := congrArg List.length hxd
            simp only [htaglen, List.length_cons] at this ⊢
            omega
          · rw [← hxd]
            intro h0
            simp only [List.cons.injEq, and_true] at h0
            exact hyx h0
          · rw [hd', hd1, hbd]
            simp only [List.append_assoc]
        | cons z c2 =>
          -- inside the encrypted bytes
          simp only [List.cons_append, List.cons.injEq] at hxd
          obtain ⟨hz, hd2⟩ := hxd
          subst hz
          apply hbody a' x y c2 hweak hyx hbd
          rw [hd', hd1, hd2]
          simp only [List.append_assoc, List.cons_append]
    · cases c' with
      | nil =>
        -- the first byte behind the nonce
        simp only [List.nil_append] at hxd
        simp only [List.append_nil] at hn
        rw [hsplit] at hxd
        cases hb : (G.Seal e.key (List.ofFn f) s).take s.length with
        | nil =>
          rw [hb] at hxd
          simp only [List.nil_append] at hxd
          apply htag (y :: d2)
          · have := congrArg List.length hxd
            simp only [htaglen, List.length_cons] at this ⊢
            omega
          · rw [← hxd]
            intro h0
            simp only [List.cons.injEq, and_true] at h0
            exact hyx h0
          · rw [hd', hb, ← hn]
            simp only [List.nil_append]
        | cons z c2 =>
          rw [hb] at hxd
          simp only [List.cons_append, List.cons.injEq] at hxd
          obtain ⟨hz, hd2⟩ := hxd
          subst hz
          apply hbody [] x y c2 hweak hyx (by simpa using hb)
          rw [hd', ← hn, hd2]
          simp only [List.nil_append, List.append_assoc, List.cons_append]
      | cons z n2 =>
        -- inside the nonce
        simp only [List.cons_append, List.cons.injEq] at hxd
        obtain ⟨hz, hd2⟩ := hxd
        subst hz
        apply hnonce (d1 ++ y :: n2)
        · have := congrArg List.length hn
          simp only [List.length_ofFn, List.length_append, List.length_cons] at this
          simp only [List.length_append, List.length_cons, nonceSize]
          omega
        · rw [hn]
          intro h0
          have := List.append_cancel_left h0
          simp only [List.cons.injEq, and_true] at this
          exact hyx this
        · rw [hd', hd2]
          simp only [List.append_assoc, List.cons_append]
  · intro hnot
    by_cases hb' : blob' = []
    · subst hb'
      exact ⟨by simp [Decrypt], Or.inl ⟨rfl, by simp [Decrypt]⟩⟩
    cases hd : DecodeString blob' with
    | none =>
      exact ⟨by simp [Decrypt, hb', hd], Or.inr (Or.inl ⟨rfl, by simp [Decrypt, hb', hd]⟩)⟩
    | some data' =>
      by_cases hl : data'.length < nonceSize
      · exact ⟨by simp [Decrypt, hb', hd, hkey, hl],
          Or.inr (Or.inr (Or.inl ⟨data', rfl, hl, by simp [Decrypt, hb', hd, hkey, hl]⟩))⟩
      · cases ho : G.Open e.key (data'.take nonceSize) (data'.drop nonceSize) with
        | some p =>
          exfalso
          have hn : (data'.take nonceSize).length = nonceSize := by
            rw [List.length_take]; omega
          have hseal := G.Open_sealed e.key _ _ p hkey hn ho
          apply hnot (data'.take nonceSize) p hn
          rw [hd, hseal, List.take_append_drop]
        | none =>
          exact ⟨by simp [Decrypt, hb', hd, hkey, hl, ho],
            Or.inr (Or.inr (Or.inr ⟨data', rfl, by omega,
              by simp [Decrypt, hb', hd, hkey, hl, ho]⟩))⟩

/-- C2 as amended, at the blob of `"A"` under `checksumGCM`.  With its character
38 changed from `Q` to `R` it decodes to the same bytes and `Decrypt` returns `"A"`.
With its first character changed from `A` to `B` the first byte of the nonce becomes
4, with its character 37 changed from `G` to `B` the last byte of the tag becomes
20, with its character 16 changed from `Q` to `R` the one encrypted byte becomes 69
instead of 65: each time `Decrypt` fails with the decryption error. -/
theorem C2_tampered_blob_witness :
    Encrypt checksumGCM.toAEAD sampleEncryptor (some sampleNonce) [65] = (sealedBlob, none) ∧
    sealedBlob.get? 38 = some 81 ∧
    Decrypt checksumGCM.toAEAD sampleEncryptor (sealedBlob.set 38 82) = ([65], none) ∧
    sealedBlob.get? 0 = some 65 ∧
    Decrypt checksumGCM.toAEAD sampleEncryptor (sealedBlob.set 0 66) =
      ([], some .decryptFailed) ∧
    sealedBlob.get? 37 = some 71 ∧
    Decrypt checksumGCM.toAEAD sampleEncryptor (sealedBlob.set 37 66) =
      ([], some .decryptFailed) ∧
    sealedBlob.get? 16 = some 81 ∧
    DecodeString (sealedBlob.set 16 82) =
      some ([0, 1, 2, 3, 4, 5, 6, 7, 8, 9, 10, 11] ++
        69 :: [0, 1, 2, 3, 4, 5, 6, 7, 8, 9, 10, 11, 100, 100, 100, 100]) ∧
    Decrypt checksumGCM.toAEAD sampleEncryptor (sealedBlob.set 16 82) =
      ([], some .decryptFailed) :=
  ⟨by decide, by decide,
    (C2_tampered_blob checksumGCM sampleEncryptor sampleNonce [65] sealedBlob
      (sealedBlob.set 38 82) (by decide)).1 (by decide),
    by decide,
    (C2_tampered_blob checksumGCM sampleEncryptor sampleNonce [65] sealedBlob
      (sealedBlob.set 0 66) (by decide)).2.2.2.2.1
      [4, 1, 2, 3, 4, 5, 6, 7, 8, 9, 10, 11] (by decide) (by decide) (by decide),
    by decide,
    (C2_tampered_blob checksumGCM sampleEncryptor sampleNonce [65] sealedBlob
      (sealedBlob.set 37 66) (by decide)).2.2.2.2.2.1
      [0, 1, 2, 3, 4, 5, 6, 7, 8, 9, 10, 11, 100, 100, 100, 20] (by decide) (by decide)
      (by decide),
    by decide, by decide,
    (C2_tampered_blob checksumGCM sampleEncryptor sampleNonce [65] sealedBlob
      (sealedBlob.set 16 82) (by decide)).2.2.2.2.2.2.1
      [0, 1, 2, 3, 4, 5, 6, 7, 8, 9, 10, 11] 65 69
      [0, 1, 2, 3, 4, 5, 6, 7, 8, 9, 10, 11, 100, 100, 100, 100] rfl (by decide) (by decide)
      (by decide)⟩

end Crypto

namespace TeslaTokenService

/-- A read that finds a record leaves the world as it is but for the statement
count. -/
theorem dbFirst_eq_of_ok (env : Env) (w : World) (userID : String) (destID : Nat)
    (rec : TeslaToken) (h : (dbFirst env w userID destID).1 = .ok rec) :
    dbFirst env w userID destID = (.ok rec, { w with statements := w.statements + 1 }) := by
  have hfr := dbFirst_frame env w userID destID
  cases hd : dbFirst env w userID destID with
  | mk r w1 =>
    rw [hd] at h hfr
    simp only at h hfr
    rw [h, hfr]

/-- Step 3 of `ValidateTeslaToken` when the request can be built: the probe of
`token` is the first request sent; an answer with status 200 ends the call with
`valid = true`; an answer with another status, followed by a refresh that succeeds
and a read that finds `token1`, leads to the probe of `token1` as last request, and
the result is `valid = true` exactly when that probe is answered with status 200. -/
theorem probeStep_head (env : Env) (w : World) (userID : String) (token : TeslaToken)
    (hreq : env.newRequestError = none) :
    (∃ rest, (ValidateTeslaToken.probeStep env w userID token).2.requests =
      w.requests ++ .probe token.AccessToken :: rest) ∧
    ((env.upstream w.requests.length (.probe token.AccessToken)).isOK = true →
      (ValidateTeslaToken.probeStep env w userID token).1 =
        .ok { Valid := true, ExpiresAt := token.ExpiresAt, UserID := userID,
              Message := "Token is valid" } ∧
      (ValidateTeslaToken.probeStep env w userID token).2.requests =
        w.requests ++ [.probe token.AccessToken]) ∧
    (∀ code body w2 token1,
      env.upstream w.requests.length (.probe token.AccessToken) = .status code body →
      code ≠ 200 →
      RefreshTeslaToken env { w with requests := w.requests ++ [.probe token.AccessToken] }
        userID = (none, w2) →
      (dbFirst env w2 userID token.ID).1 = .ok token1 →
      (ValidateTeslaToken.probeStep env w userID token).2.requests =
        w2.requests ++ [.probe token1.AccessToken] ∧
      (ValidateTeslaToken.probeStep env w userID token).1 =
        .ok (if (env.upstream w2.requests.length (.probe token1.AccessToken)).isOK then
              { Valid := true, ExpiresAt := token1.ExpiresAt, UserID := userID,
                Message := "Token refreshed and valid" }
            else invalidResponse "Token validation failed")) := by
  unfold ValidateTeslaToken.probeStep validateTokenWithTeslaAPI
  simp only [hreq, httpDo]
  cases hup : env.upstream w.requests.length (.probe token.AccessToken) with
  | transportError m =>
    refine ⟨⟨[], by simp [logTokenUsage_requests]⟩, ?_, ?_⟩
    · intro h
      simp [Response.isOK] at h
    · intro code body w2 token1 h
      cases h
  | status code body =>
    by_cases hc : code = 200
    · simp only [hc, decide_True]
      refine ⟨⟨[], by simp [logTokenUsage_requests]⟩, ?_, ?_⟩
      · intro _
        exact ⟨trivial, by simp [logTokenUsage_requests]⟩
      · intro code1 body1 w2 token1 h hne
        simp only [Response.status.injEq] at h
        exact absurd h.1.symm hne
    · simp only [hc, decide_False]
      obtain ⟨new, hnew, -, -, -⟩ := RefreshTeslaToken_sent env
        { w with requests := w.requests ++ [.probe token.AccessToken] } userID
      refine ⟨?_, ?_, ?_⟩
      · cases hres : RefreshTeslaToken env
            { w with requests := w.requests ++ [.probe token.AccessToken] } userID with
        | mk e w2 =>
          rw [hres] at hnew
          simp only at hnew
          cases e with
          | some err =>
            exact ⟨new, by simp only [logTokenUsage_requests, hnew, List.append_assoc,
              List.singleton_append]⟩
          | none =>
            simp only
            have hfr := dbFirst_frame env w2 userID token.ID
            cases hd : dbFirst env w2 userID token.ID with
            | mk r3 w3 =>
              rw [hd] at hfr
              simp only at hfr
              have hq3 : w3.requests = w.requests ++ .probe token.AccessToken :: new := by
                rw [hfr]
                simp only [hnew, List.append_assoc, List.singleton_append]
              cases r3 with
              | error e3 => exact ⟨new, by simp only [logTokenUsage_requests, hq3]⟩
              | ok token1 =>
                simp only
                cases env.upstream w3.requests.length (.probe token1.AccessToken) with
                | transportError m =>
                  exact ⟨new ++ [.probe token1.AccessToken], by
                    simp only [logTokenUsage_requests, hq3, List.append_assoc,
                      List.cons_append]⟩
                | status c2 b2 =>
                  by_cases hc2 : c2 = 200
                  · simp only [hc2, decide_True]
                    exact ⟨new ++ [.probe token1.AccessToken], by
                      simp only [logTokenUsage_requests, hq3, List.append_assoc,
                        List.cons_append]⟩
                  · simp only [hc2, decide_False]
                    exact ⟨new ++ [.probe token1.AccessToken], by
                      simp only [logTokenUsage_requests, hq3, List.append_assoc,
                        List.cons_append]⟩
      · intro h
        simp [Response.isOK, hc] at h
      · intro code1 body1 w2 token1 _ _ hres hd
        rw [hres]
        simp only
        have hd' := dbFirst_eq_of_ok env w2 userID token.ID token1 hd
        rw [hd']
        simp only
        cases env.upstream w2.requests.length (.probe token1.AccessToken) with
        | transportError m =>
          simp [logTokenUsage_requests, Response.isOK]
        | status c2 b2 =>
          by_cases hc2 : c2 = 200
          · simp [hc2, logTokenUsage_requests, Response.isOK]
          · simp [hc2, logTokenUsage_requests, Response.isOK]


/-- C6.  `ValidateTeslaToken` returns `valid = true` exactly when the last probe it
sent during the call was answered with status 200; a call that sends no probe does
not return `valid = true`; and every probe it sends carries the access token
stored for the account at that moment: the one of the record the call read when
the probe is its first request, otherwise the one of the answer that granted the
refresh sent just before it, and, when the probe is the last request of the call,
the one of the record the call leaves in the store.  The probes are sent: when the
record read is not expired and the request can be built, the first request of the
call is the probe of its access token; an answer with status 200 ends the call with
`valid = true`, the expiry of the record and no further request; an answer with
another status, followed by a refresh that succeeds and a read that finds the
record again, leads to the probe of that record as last request, with `valid = true`
exactly when it is answered with status 200.  When the record read is expired, the
refresh succeeds and the record is read again, the next request is the probe of
that record, and an answer with status 200 ends the call with `valid = true`. -/
theorem C6_valid_iff_last_probe_answered_200 (env : Env) (w : World) (userID : String) :
    (returnsValid (ValidateTeslaToken env w userID).1 = true ↔
      ∃ answer, (probeAnswersFrom env w.requests.length
          ((ValidateTeslaToken env w userID).2.requests.drop w.requests.length)).getLast?
          = some answer ∧ answer.isOK = true) ∧
    (probeAnswersFrom env w.requests.length
        ((ValidateTeslaToken env w userID).2.requests.drop w.requests.length) = [] →
      returnsValid (ValidateTeslaToken env w userID).1 = false) ∧
    (∀ j a, ((ValidateTeslaToken env w userID).2.requests.drop w.requests.length)[j]?
        = some (.probe a) →
      (j = 0 ∧ ∃ rec, (dbFirst env w userID 0).1 = .ok rec ∧ rec.AccessToken = a) ∨
      (∃ i r resp, j = i + 1 ∧
        ((ValidateTeslaToken env w userID).2.requests.drop w.requests.length)[i]?
          = some (.refresh r) ∧
        env.upstream (w.requests.length + i) (.refresh r) = .status 200 (some resp) ∧
        resp.AccessToken = a)) ∧
    (∀ a, ((ValidateTeslaToken env w userID).2.requests.drop w.requests.length).getLast?
        = some (.probe a) →
      ∃ last, storedRecord (ValidateTeslaToken env w userID).2 userID = some last ∧
        last.AccessToken = a) ∧
    (∀ rec, (dbFirst env w userID 0).1 = .ok rec → rec.IsExpired env.now = false →
      env.newRequestError = none →
      (∃ rest, (ValidateTeslaToken env w userID).2.requests =
        w.requests ++ .probe rec.AccessToken :: rest) ∧
      ((env.upstream w.requests.length (.probe rec.AccessToken)).isOK = true →
        (ValidateTeslaToken env w userID).1 =
          .ok { Valid := true, ExpiresAt := rec.ExpiresAt, UserID := userID,
                Message := "Token is valid" } ∧
        (ValidateTeslaToken env w userID).2.requests =
          w.requests ++ [.probe rec.AccessToken]) ∧
      (∀ code body w2 token1,
        env.upstream w.requests.length (.probe rec.AccessToken) = .status code body →
        code ≠ 200 →
        RefreshTeslaToken env
          { w with statements := w.statements + 1,
                   requests := w.requests ++ [.probe rec.AccessToken] } userID = (none, w2) →
        (dbFirst env w2 userID rec.ID).1 = .ok token1 →
        (ValidateTeslaToken env w userID).2.requests =
          w2.requests ++ [.probe token1.AccessToken] ∧
        (ValidateTeslaToken env w userID).1 =
          .ok (if (env.upstream w2.requests.length (.probe token1.AccessToken)).isOK then
                { Valid := true, ExpiresAt := token1.ExpiresAt, UserID := userID,
                  Message := "Token refreshed and valid" }
              else invalidResponse "Token validation failed"))) ∧
    (∀ rec w2 token1, (dbFirst env w userID 0).1 = .ok rec → rec.IsExpired env.now = true →
      RefreshTeslaToken env { w with statements := w.statements + 1 } userID = (none, w2) →
      (dbFirst env w2 userID rec.ID).1 = .ok token1 →
      env.newRequestError = none →
      (∃ rest, (ValidateTeslaToken env w userID).2.requests =
        w2.requests ++ .probe token1.AccessToken :: rest) ∧
      ((env.upstream w2.requests.length (.probe token1.AccessToken)).isOK = true →
        (ValidateTeslaToken env w userID).1 =
          .ok { Valid := true, ExpiresAt := token1.ExpiresAt, UserID := userID,
                Message := "Token is valid" } ∧
        (ValidateTeslaToken env w userID).2.requests =
          w2.requests ++ [.probe token1.AccessToken])) := by
  obtain ⟨h1, h2, h3, h4⟩ := ValidateTeslaToken_valid_iff env w userID
  refine ⟨h1, h2, h3, h4, ?_, ?_⟩
  · intro rec hrec hexp hreq
    have hd := dbFirst_eq_of_ok env w userID 0 rec hrec
    have hV : ValidateTeslaToken env w userID =
        ValidateTeslaToken.probeStep env { w with statements := w.statements + 1 } userID rec := by
      unfold ValidateTeslaToken
      rw [hd]
      simp only [hexp, Bool.false_eq_true, if_false]
    rw [hV]
    exact probeStep_head env { w with statements := w.statements + 1 } userID rec hreq
  · intro rec w2 token1 hrec hexp hres hd2 hreq
    have hd := dbFirst_eq_of_ok env w userID 0 rec hrec
    have hd2' := dbFirst_eq_of_ok env w2 userID rec.ID token1 hd2
    have hV : ValidateTeslaToken env w userID =
        ValidateTeslaToken.probeStep env { w2 with statements := w2.statements + 1 } userID
          token1 := by
      unfold ValidateTeslaToken
      rw [hd]
      simp only [hexp, if_true]
      rw [hres]
      simp only
      rw [hd2']
    rw [hV]
    have hp := probeStep_head env { w2 with statements := w2.statements + 1 } userID token1 hreq
    exact ⟨hp.1, hp.2.1⟩

/-- C6 at the record of `u1` (access token `"a"`, not expired at the instant
`2000`): the upstream answers the probe with 200 and the call returns `valid =
true` after that one probe; against an upstream that answers every probe with 401
and refuses the refresh it returns `valid = false`. -/
theorem C6_valid_iff_last_probe_answered_200_witness :
    (dbFirst (steadyEnv 2000 200 (.status 401 none)) (sampleWorld 1000 5000) "u1" 0).1 =
      .ok (sampleRow 1000 5000) ∧
    (sampleRow 1000 5000).IsExpired (steadyEnv 2000 200 (.status 401 none)).now = false ∧
    ((steadyEnv 2000 200 (.status 401 none)).upstream (sampleWorld 1000 5000).requests.length
      (.probe (sampleRow 1000 5000).AccessToken)).isOK = true ∧
    ((ValidateTeslaToken (steadyEnv 2000 200 (.status 401 none)) (sampleWorld 1000 5000) "u1").1 =
        .ok { Valid := true, ExpiresAt := (sampleRow 1000 5000).ExpiresAt, UserID := "u1",
              Message := "Token is valid" } ∧
      (ValidateTeslaToken (steadyEnv 2000 200 (.status 401 none))
        (sampleWorld 1000 5000) "u1").2.requests =
          (sampleWorld 1000 5000).requests ++ [.probe (sampleRow 1000 5000).AccessToken]) ∧
    returnsValid (ValidateTeslaToken (steadyEnv 2000 401 (.status 401 none))
      (sampleWorld 1000 5000) "u1").1 = false :=
  ⟨by decide, by decide, by decide,
    ((C6_valid_iff_last_probe_answered_200 (steadyEnv 2000 200 (.status 401 none))
      (sampleWorld 1000 5000) "u1").2.2.2.2.1 (sampleRow 1000 5000)
      (by decide) (by decide) rfl).2.1 (by decide),
    by decide⟩

end TeslaTokenService
